import Mathlib

/-!
The net_lab protocol engine as a shallow embedding.

The embedding follows `src/arp.c`, `src/ethernet.c`, `src/ip.c`, `src/icmp.c` and
`include/config.h`.

Conventions of the embedding.

* A byte is a natural number; every store of a value of an integer type reduces it to
  the width of the field (`% 256`, `% 65536`).
* The host is little-endian (so `swap16` turns a host value into network order); a 16-bit
  header field at address `a` has the host value `m a + 256 * m (a + 1)`.
* The wall clock read by `time()` inside `arp_update` is the parameter `now` of the
  operation that is running.
* A `buf_t *` argument is a `BufId`: the name of the buffer object pointed to.  The stack
  owns `txbuf`, `rxbuf` and `arp_buf.buf`; `caller` stands for a buffer owned by the code
  that calls into the stack.  Address arguments (`uint8_t *ip`, `uint8_t *mac`) are read at
  the call and passed by value.
* Operations return `Option`: `none` stands for an execution the embedding assigns no
  meaning to (a failed buffer primitive, or the use of an uninitialised variable).
* The fields `sent`, `frags`, `ipouts` and `upcalls` of the state are ghost logs: they
  record, oldest first, the frames given to the driver and the calls made to
  `ip_fragment_out`, `ip_out` and the upper-layer inputs.
-/

namespace NetLab

/-! ## Constants -/

/-- From `config.h`: the MTU of the link. -/
@[simp] def ETHERNET_MTU : Nat := 1500

/-- From `config.h`: the number of ARP table slots. -/
@[simp] def ARP_MAX_ENTRY : Nat := 16

/-- From `config.h`: the lifetime of an ARP entry, `60 * 5` seconds. -/
@[simp] def ARP_TIMEOUT_SEC : Nat := 60 * 5

/-- From `config.h`: the TTL of outbound datagrams. -/
@[simp] def IP_DEFALUT_TTL : Nat := 64

/-- Modelled from the spec: the header `net.h` is missing; the ethertype of ARP. -/
@[simp] def NET_PROTOCOL_ARP : Nat := 0x0806

/-- Modelled from the spec: the header `net.h` is missing; the ethertype of IP. -/
@[simp] def NET_PROTOCOL_IP : Nat := 0x0800

/-- Modelled from the spec: the header `net.h` is missing; the IP protocol number of ICMP. -/
@[simp] def NET_PROTOCOL_ICMP : Nat := 1

/-- Modelled from the spec: the header `net.h` is missing; the IP protocol number of UDP. -/
@[simp] def NET_PROTOCOL_UDP : Nat := 17

/-- Modelled from the spec: the header `arp.h` is missing; hardware type Ethernet. -/
@[simp] def ARP_HW_ETHER : Nat := 1

/-- Modelled from the spec: the header `arp.h` is missing; opcode of a request. -/
@[simp] def ARP_REQUEST : Nat := 1

/-- Modelled from the spec: the header `arp.h` is missing; opcode of a reply. -/
@[simp] def ARP_REPLY : Nat := 2

/-- Modelled from the spec: the header `ip.h` is missing; the unit of the header-length
field is 4 bytes. -/
@[simp] def IP_HDR_LEN_PER_BYTE : Nat := 4

/-- Modelled from the spec: the header `ip.h` is missing; IP version 4. -/
@[simp] def IP_VERSION_4 : Nat := 4

/-- Modelled from the spec: the header `ip.h` is missing; the more-fragments flag of the
flags/offset field, as a host value (`1 << 5`: bit 13 of the big-endian word). -/
@[simp] def IP_MORE_FRAGMENT : Nat := 32

/-- Modelled from the spec: the header `icmp.h` is missing; type Echo Request. -/
@[simp] def ICMP_TYPE_ECHO_REQUEST : Nat := 8

/-- Modelled from the spec: the header `icmp.h` is missing; type Echo Reply. -/
@[simp] def ICMP_TYPE_ECHO_REPLY : Nat := 0

/-- Modelled from the spec: the header `icmp.h` is missing; type Destination Unreachable. -/
@[simp] def ICMP_TYPE_UNREACH : Nat := 3

/-- Modelled from the spec: the header `icmp.h` is missing; code Protocol Unreachable. -/
@[simp] def ICMP_CODE_PROTOCOL_UNREACH : Nat := 2

/-- Modelled from the spec: `sizeof(ether_hdr_t)`, 6 + 6 + 2 bytes. -/
@[simp] def sizeof_ether_hdr_t : Nat := 14

/-- Modelled from the spec: `sizeof(ip_hdr_t)`, 20 bytes, no options. -/
@[simp] def sizeof_ip_hdr_t : Nat := 20

/-- Modelled from the spec: `sizeof(arp_pkt_t)`, 28 bytes. -/
@[simp] def sizeof_arp_pkt_t : Nat := 28

/-- Modelled from the spec: `sizeof(icmp_hdr_t)`, 8 bytes. -/
@[simp] def sizeof_icmp_hdr_t : Nat := 8

/-! ## Addresses -/

/-- An IPv4 address, `uint8_t [NET_IP_LEN]`. -/
structure ip_addr where
  b0 : Nat
  b1 : Nat
  b2 : Nat
  b3 : Nat
deriving DecidableEq

/-- A MAC address, `uint8_t [NET_MAC_LEN]`. -/
structure mac_addr where
  b0 : Nat
  b1 : Nat
  b2 : Nat
  b3 : Nat
  b4 : Nat
  b5 : Nat
deriving DecidableEq

/-- The four bytes of an IP address in memory order. -/
def ip_addr.bytes (a : ip_addr) : List Nat := [a.b0, a.b1, a.b2, a.b3]

/-- The six bytes of a MAC address in memory order. -/
def mac_addr.bytes (a : mac_addr) : List Nat := [a.b0, a.b1, a.b2, a.b3, a.b4, a.b5]

/-- From `config.h`: `DRIVER_IF_IP`, 10.0.2.15. -/
def DRIVER_IF_IP : ip_addr := ⟨10, 0, 2, 15⟩

/-- From `config.h`: `DRIVER_IF_MAC`, 08:00:27:02:a5:e3. -/
def DRIVER_IF_MAC : mac_addr := ⟨0x08, 0x00, 0x27, 0x02, 0xa5, 0xe3⟩

/-- From `config.h`: `Boardcast_MAC`, ff:ff:ff:ff:ff:ff. -/
def Boardcast_MAC : mac_addr := ⟨0xff, 0xff, 0xff, 0xff, 0xff, 0xff⟩

/-- Modelled from the spec: `net.c` is missing; the host's configured IP. -/
def net_if_ip : ip_addr := DRIVER_IF_IP

/-- Modelled from the spec: `net.c` is missing; the host's MAC. -/
def net_if_mac : mac_addr := DRIVER_IF_MAC

/-- Modelled from the spec: `net.c` is missing; the broadcast MAC. -/
def net_board_mac : mac_addr := Boardcast_MAC

/-! ## Bytes in memory -/

/-- Modelled from the spec: the macro `swap16` of `utils.h` is missing; it exchanges the
two bytes of a 16-bit value. -/
def swap16 (x : Nat) : Nat := (x % 256) * 256 + x / 256 % 256

/-- The two bytes of a 16-bit host value in memory order (low byte first). -/
def le16 (v : Nat) : List Nat := [v % 256, v / 256 % 256]

/-- The host value of the 16-bit field at address `a`. -/
def get16 (m : Nat → Nat) (a : Nat) : Nat := m a % 256 + 256 * (m (a + 1) % 256)

/-- The `n` bytes of memory starting at address `a`. -/
def readBytes (m : Nat → Nat) (a n : Nat) : List Nat :=
  (List.range n).map (fun i => m (a + i))

/-- Memory after the bytes `l` are stored from address `a` on (`memcpy`, or a run of
field assignments). -/
def writeBytes (m : Nat → Nat) (a : Nat) (l : List Nat) : Nat → Nat :=
  fun i => if a ≤ i ∧ i < a + l.length then l.getD (i - a) 0 else m i

/-- The IP address stored at address `a`. -/
def read_ip (m : Nat → Nat) (a : Nat) : ip_addr := ⟨m a, m (a + 1), m (a + 2), m (a + 3)⟩

/-- The MAC address stored at address `a`. -/
def read_mac (m : Nat → Nat) (a : Nat) : mac_addr :=
  ⟨m a, m (a + 1), m (a + 2), m (a + 3), m (a + 4), m (a + 5)⟩

/-- The sum of the 16-bit host words of a byte string (a trailing odd byte counts alone). -/
def sum16 : List Nat → Nat
  | [] => 0
  | [b] => b % 256
  | lo :: hi :: rest => (lo % 256 + 256 * (hi % 256)) + sum16 rest

/-- Modelled from the spec: `checksum16` of `utils.c` is missing; the 16-bit
ones-complement checksum: the 16-bit words are summed, the carries out of the low 16
bits are added back in (end-around carry), and the result is complemented. -/
def checksum16 (l : List Nat) : Nat :=
  let s := sum16 l
  let s1 := s % 65536 + s / 65536
  let s2 := s1 % 65536 + s1 / 65536
  65535 - s2 % 65536

/-! ## The buffer primitive -/

/-- Modelled from the spec: `buf_t` of `utils.h` is missing; a byte region of fixed
capacity `cap` with a window that starts at offset `data` and is `len` bytes long. -/
structure buf_t where
  payload : Nat → Nat
  cap : Nat
  data : Nat
  len : Nat

/-- The bytes of the window of a buffer. -/
def buf_t.bytes (b : buf_t) : List Nat := readBytes b.payload b.data b.len

/-- Modelled from the spec: `buf_init` of `utils.c` is missing; the window is reset to
`len` bytes with the whole rest of the capacity in front of it as header margin. -/
def buf_init (b : buf_t) (len : Nat) : Option buf_t :=
  if len ≤ b.cap then some { b with data := b.cap - len, len := len } else none

/-- Modelled from the spec: `buf_add_header` of `utils.c` is missing; the window is
extended backward by `n` bytes, which fails if it would underflow the start of the
region. -/
def buf_add_header (b : buf_t) (n : Nat) : Option buf_t :=
  if n ≤ b.data then some { b with data := b.data - n, len := b.len + n } else none

/-- Modelled from the spec: `buf_remove_header` of `utils.c` is missing; the window is
shrunk forward by `n` bytes, which fails if `n` exceeds its length. -/
def buf_remove_header (b : buf_t) (n : Nat) : Option buf_t :=
  if n ≤ b.len then some { b with data := b.data + n, len := b.len - n } else none

/-- Modelled from the spec: `buf_copy` of `utils.c` is missing; the destination becomes
an independent duplicate of the source. -/
def buf_copy (_dst src : buf_t) : buf_t := src

/-! ## State -/

/-- The state of an ARP table entry. -/
inductive arp_state_t where
  | ARP_INVALID
  | ARP_PENDING
  | ARP_VALID
deriving DecidableEq

/-- Modelled from the spec: `arp_entry_t` of `arp.h` is missing; one slot of the ARP
table. -/
structure arp_entry_t where
  state : arp_state_t
  timeout : Nat
  ip : ip_addr
  mac : mac_addr
deriving DecidableEq

/-- Modelled from the spec: `arp_buf_t` of `arp.h` is missing; the pending-packet slot. -/
structure arp_buf_t where
  buf : buf_t
  ip : ip_addr
  protocol : Nat
  valid : Nat

/-- The buffer objects a `buf_t *` can point to. -/
inductive BufId where
  | txbuf
  | rxbuf
  | arp_buf
  | caller
deriving DecidableEq

/-- One call of `ip_fragment_out`: its arguments, the length of the buffer at entry, and
the datagram it hands to `arp_out`. -/
structure frag_call where
  ip : ip_addr
  protocol : Nat
  id : Nat
  offset : Nat
  mf : Nat
  len : Nat
  datagram : List Nat
deriving DecidableEq

/-- One call of `ip_out`: the bytes of the buffer and the other arguments. -/
structure ip_out_call where
  bytes : List Nat
  ip : ip_addr
  protocol : Nat
deriving DecidableEq

/-- One call of an upper-layer input by `ip_in`. -/
inductive upcall where
  | icmp_in (msg : List Nat) (src_ip : ip_addr)
  | udp_in (msg : List Nat) (src_ip : ip_addr)
  | icmp_unreachable (datagram : List Nat) (src_ip : ip_addr) (code : Nat)
deriving DecidableEq

/-- The state of the protocol stack: the globals of `arp.c`, the shared buffers, the
`static` identifier of `ip_out`, a buffer of the caller, and the ghost logs. -/
structure Stack where
  arp_table : List arp_entry_t
  arp_buf : arp_buf_t
  txbuf : buf_t
  rxbuf : buf_t
  caller : buf_t
  id : Nat
  sent : List (List Nat)
  frags : List frag_call
  ipouts : List ip_out_call
  upcalls : List upcall

/-- The buffer a pointer refers to. -/
def Stack.deref (s : Stack) : BufId → buf_t
  | .txbuf => s.txbuf
  | .rxbuf => s.rxbuf
  | .arp_buf => s.arp_buf.buf
  | .caller => s.caller

/-- The state after the buffer a pointer refers to is replaced. -/
def Stack.assign (s : Stack) (r : BufId) (b : buf_t) : Stack :=
  match r with
  | .txbuf => { s with txbuf := b }
  | .rxbuf => { s with rxbuf := b }
  | .arp_buf => { s with arp_buf := { s.arp_buf with buf := b } }
  | .caller => { s with caller := b }

/-- Modelled from the spec: the driver is missing; `driver_send` takes the bytes of the
frame, which the embedding records. -/
def driver_send (s : Stack) (r : BufId) : Stack :=
  { s with sent := s.sent ++ [(s.deref r).bytes] }

/-! ## Ethernet output (`ethernet.c`) -/

/-- From `ethernet.c`, `ethernet_out`: a 14-byte header is added in front of the window
of `buf` and filled with the destination MAC, the host MAC and the big-endian protocol;
the frame is given to the driver. -/
def ethernet_out (s : Stack) (buf : BufId) (mac : mac_addr) (protocol : Nat) :
    Option Stack :=
  match buf_add_header (s.deref buf) sizeof_ether_hdr_t with
  | none => none
  | some b =>
    let hdr := mac.bytes ++ DRIVER_IF_MAC.bytes ++ le16 (swap16 protocol)
    let s1 := s.assign buf { b with payload := writeBytes b.payload b.data hdr }
    some (driver_send s1 buf)

/-! ## ARP (`arp.c`) -/

/-- From `arp.c`, `arp_update`, first loop: every entry whose timeout is not after `now`
becomes invalid. -/
def arp_sweep (now : Nat) (t : List arp_entry_t) : List arp_entry_t :=
  t.map (fun e => if e.timeout ≤ now then { e with state := .ARP_INVALID } else e)

/-- From `arp.c`, `arp_update`, second loop: the first slot that is invalid or pending is
overwritten, with the long timeout if it was invalid and 5 seconds if it was pending;
`none` when the loop runs to its end. -/
def arp_place (now : Nat) (ip : ip_addr) (mac : mac_addr) (state : arp_state_t) :
    List arp_entry_t → Option (List arp_entry_t)
  | [] => none
  | e :: es =>
    if e.state = .ARP_INVALID then
      some ({ ip := ip, mac := mac, timeout := now + ARP_TIMEOUT_SEC, state := state } :: es)
    else if e.state = .ARP_PENDING then
      some ({ ip := ip, mac := mac, timeout := now + 5, state := state } :: es)
    else
      (arp_place now ip mac state es).map (fun es1 => e :: es1)

/-- From `arp.c`, `arp_update`, third loop, run from index `i` with the current values of
`temp` and `j` (`none`: `j` not assigned yet): whenever an entry has a timeout below
`temp`, `temp` becomes that timeout and `j` its index. -/
def arp_oldest : List arp_entry_t → Nat → Nat → Option Nat → Nat × Option Nat
  | [], _, temp, j => (temp, j)
  | e :: es, i, temp, j =>
    if e.timeout < temp then arp_oldest es (i + 1) e.timeout (some i)
    else arp_oldest es (i + 1) temp j

/-- From `arp.c`, `arp_update` at time `now`.  The third loop starts with `temp = now` and
`j` uninitialised; when it assigns `j` nowhere, `arp_table[j]` is undefined behaviour and
the result is `none`. -/
def arp_update (now : Nat) (ip : ip_addr) (mac : mac_addr) (state : arp_state_t)
    (t : List arp_entry_t) : Option (List arp_entry_t) :=
  let t1 := arp_sweep now t
  match arp_place now ip mac state t1 with
  | some t2 => some t2
  | none =>
    match arp_oldest t1 0 now none with
    | (temp, some j) =>
      some (t1.set j { ip := ip, mac := mac, state := state, timeout := temp + ARP_TIMEOUT_SEC })
    | (_, none) => none

/-- From `arp.c`, `arp_lookup`: the MAC of the first entry that is valid and has the IP. -/
def arp_lookup : List arp_entry_t → ip_addr → Option mac_addr
  | [], _ => none
  | e :: es, ip =>
    if e.state = .ARP_VALID ∧ e.ip = ip then some e.mac else arp_lookup es ip

/-- From `arp.c`, `arp_init_pkt` with the opcode and the target fields given: the 28
bytes of an ARP packet sent by this host. -/
def arp_pkt_bytes (opcode : Nat) (target_mac : mac_addr) (target_ip : ip_addr) : List Nat :=
  le16 (swap16 ARP_HW_ETHER) ++ le16 (swap16 NET_PROTOCOL_IP) ++ [6, 4] ++ le16 opcode
    ++ DRIVER_IF_MAC.bytes ++ DRIVER_IF_IP.bytes ++ target_mac.bytes ++ target_ip.bytes

/-- From `arp.c`, `arp_req`: `txbuf` is re-initialised and filled with a request for
`target_ip`, a pending entry is put in the table, and the request is broadcast. -/
def arp_req (now : Nat) (s : Stack) (target_ip : ip_addr) : Option Stack :=
  match buf_init s.txbuf sizeof_arp_pkt_t with
  | none => none
  | some tx =>
    let pkt := arp_pkt_bytes (swap16 ARP_REQUEST) ⟨0, 0, 0, 0, 0, 0⟩ target_ip
    let s1 := { s with txbuf := { tx with payload := writeBytes tx.payload tx.data pkt } }
    match arp_update now target_ip net_board_mac .ARP_PENDING s1.arp_table with
    | none => none
    | some t => ethernet_out { s1 with arp_table := t } .txbuf net_board_mac NET_PROTOCOL_ARP

/-- From `arp.c`, `arp_out`: on a hit the buffer goes to `ethernet_out`; on a miss a
request is sent first and then `*buf` is copied into the pending-packet slot. -/
def arp_out (now : Nat) (s : Stack) (buf : BufId) (ip : ip_addr) (protocol : Nat) :
    Option Stack :=
  match arp_lookup s.arp_table ip with
  | some mac => ethernet_out s buf mac protocol
  | none =>
    match arp_req now s ip with
    | none => none
    | some s1 =>
      some { s1 with
        arp_buf := { buf := s1.deref buf, ip := ip, protocol := protocol, valid := 1 } }

/-- From `arp.c`, `arp_in`: the header check, the unconditional update with the sender,
then either the flush of the pending packet or the reply to a request for the host. -/
def arp_in (now : Nat) (s : Stack) (buf : BufId) : Option Stack :=
  let b := s.deref buf
  let a := b.data
  let m := b.payload
  if get16 m a ≠ swap16 ARP_HW_ETHER ∨ get16 m (a + 2) ≠ swap16 NET_PROTOCOL_IP
      ∨ m (a + 4) ≠ 6 ∨ m (a + 5) ≠ 4
      ∨ (get16 m (a + 6) ≠ swap16 ARP_REPLY ∧ get16 m (a + 6) ≠ swap16 ARP_REQUEST) then
    some s
  else
    match arp_update now (read_ip m (a + 14)) (read_mac m (a + 8)) .ARP_VALID s.arp_table with
    | none => none
    | some t =>
      let s1 := { s with arp_table := t }
      if s1.arp_buf.valid ≠ 0 then
        match arp_lookup s1.arp_table s1.arp_buf.ip with
        | some mac =>
          ethernet_out { s1 with arp_buf := { s1.arp_buf with valid := 0 } } .arp_buf mac
            s1.arp_buf.protocol
        | none => some s1
      else if get16 m (a + 6) = swap16 ARP_REQUEST ∧ read_ip m (a + 24) = net_if_ip then
        match buf_init s1.txbuf sizeof_arp_pkt_t with
        | none => none
        | some tx =>
          let init := arp_pkt_bytes (swap16 ARP_REPLY) ⟨0, 0, 0, 0, 0, 0⟩ ⟨0, 0, 0, 0⟩
          let s2 := { s1 with txbuf := { tx with payload := writeBytes tx.payload tx.data init } }
          let tip := read_ip (s2.deref buf).payload (a + 14)
          let s3 := { s2 with txbuf := { s2.txbuf with
            payload := writeBytes s2.txbuf.payload (tx.data + 24) tip.bytes } }
          let tmac := read_mac (s3.deref buf).payload (a + 8)
          let s4 := { s3 with txbuf := { s3.txbuf with
            payload := writeBytes s3.txbuf.payload (tx.data + 18) tmac.bytes } }
          ethernet_out s4 .txbuf (read_mac s4.txbuf.payload (tx.data + 18)) NET_PROTOCOL_ARP
      else some s1

/-- From `arp.c`, `arp_init`: every entry invalid, the pending slot cleared, and a
request for the host's own IP sent. -/
def arp_init (now : Nat) (s : Stack) : Option Stack :=
  arp_req now
    { s with
      arp_table := s.arp_table.map (fun e => { e with state := .ARP_INVALID })
      arp_buf := { s.arp_buf with valid := 0 } }
    net_if_ip

/-! ## IP output (`ip.c`) -/

/-- From `ip.c`, `ip_fragment_out`: the 20 header bytes as the field assignments leave
them before the checksum is computed (checksum field zero).  `len` is `buf->len` after
the header was added. -/
def ip_hdr_bytes (len : Nat) (ip : ip_addr) (protocol id offset mf : Nat) : List Nat :=
  [sizeof_ip_hdr_t / IP_HDR_LEN_PER_BYTE + 16 * IP_VERSION_4, 0]
    ++ le16 (swap16 len) ++ le16 (swap16 id)
    ++ le16 ((if mf ≠ 0 then IP_MORE_FRAGMENT else 0) ||| swap16 offset)
    ++ [IP_DEFALUT_TTL, protocol % 256] ++ le16 0 ++ net_if_ip.bytes ++ ip.bytes

/-- From `ip.c`, `ip_fragment_out`, the header fill: the window of `b` already includes
the 20 header bytes; the fields are assigned with the checksum field zero, and the
checksum of the 20 bytes is then stored in the field. -/
def ip_fill_header (b : buf_t) (ip : ip_addr) (protocol id offset mf : Nat) : buf_t :=
  let m1 := writeBytes b.payload b.data (ip_hdr_bytes b.len ip protocol id offset mf)
  { b with
    payload := writeBytes m1 (b.data + 10)
      (le16 (checksum16 (readBytes m1 b.data sizeof_ip_hdr_t))) }

/-- The ghost record of a call of `ip_fragment_out`. -/
def Stack.log_frag (s : Stack) (f : frag_call) : Stack := { s with frags := s.frags ++ [f] }

/-- The ghost record of a call of `ip_out`. -/
def Stack.log_ip_out (s : Stack) (c : ip_out_call) : Stack :=
  { s with ipouts := s.ipouts ++ [c] }

/-- The ghost record of a call of an upper-layer input. -/
def Stack.log_upcall (s : Stack) (c : upcall) : Stack :=
  { s with upcalls := s.upcalls ++ [c] }

/-- From `ip.c`, `ip_fragment_out`: a 20-byte header is added in front of the window,
filled and checksummed, and the datagram is handed to `arp_out`. -/
def ip_fragment_out (now : Nat) (s : Stack) (buf : BufId) (ip : ip_addr)
    (protocol id offset mf : Nat) : Option Stack :=
  match buf_add_header (s.deref buf) sizeof_ip_hdr_t with
  | none => none
  | some b =>
    let b1 := ip_fill_header b ip protocol id offset mf
    let s1 := (s.assign buf b1).log_frag
      { ip := ip, protocol := protocol, id := id, offset := offset, mf := mf,
        len := (s.deref buf).len, datagram := b1.bytes }
    arp_out now s1 buf ip NET_PROTOCOL_IP

/-- From `ip.c`, `ip_out`, the `while` loop with the locals `len` and `offset`: each round
sets the window to 1480 bytes, moves its start by 1500 when `offset` is not 0, sends it
with more-fragments set, and returns the state and the final `len` and `offset`.  A window
that the loop sets outside the region of the buffer (its end above the capacity) is an
access outside the object, undefined behaviour: `none`.  (The `buf_copy` into the local
`ip_buf` is left out: `ip_buf` is never read.) -/
def ip_out_loop (now : Nat) (buf : BufId) (ip : ip_addr) (protocol id : Nat)
    (len offset : Nat) (s : Stack) : Option (Stack × Nat × Nat) :=
  if ETHERNET_MTU - sizeof_ip_hdr_t < len then
    let b := s.deref buf
    let data := b.data + (if offset ≠ 0 then ETHERNET_MTU else 0)
    if b.cap < data + (ETHERNET_MTU - sizeof_ip_hdr_t) then none
    else
      let s1 := s.assign buf { b with
        len := ETHERNET_MTU - sizeof_ip_hdr_t
        data := data }
      match ip_fragment_out now s1 buf ip protocol id
          ((if offset ≠ 0 then offset * (ETHERNET_MTU - sizeof_ip_hdr_t) / 8 else 0) % 65536) 1 with
      | none => none
      | some s2 =>
        ip_out_loop now buf ip protocol id (len - (ETHERNET_MTU - sizeof_ip_hdr_t)) (offset + 1) s2
  else some (s, len, offset)
termination_by len
decreasing_by simp at *; omega

/-- From `ip.c`, `ip_out`: a buffer longer than 1480 bytes goes through the loop and a
last fragment, whose window is moved like those of the loop (outside the region of the
buffer: undefined behaviour, `none`); any other is sent as it is; the identifier is then
incremented. -/
def ip_out (now : Nat) (s : Stack) (buf : BufId) (ip : ip_addr) (protocol : Nat) :
    Option Stack :=
  let id := s.id
  let s0 := s.log_ip_out { bytes := (s.deref buf).bytes, ip := ip, protocol := protocol }
  let res :=
    if ETHERNET_MTU - sizeof_ip_hdr_t < (s0.deref buf).len then
      match ip_out_loop now buf ip protocol id (s0.deref buf).len 0 s0 with
      | none => none
      | some (s1, len, offset) =>
        let b := s1.deref buf
        let data := b.data + (if offset ≠ 0 then ETHERNET_MTU else 0)
        if b.cap < data + len then none
        else
          let s2 := s1.assign buf { b with
            data := data
            len := len }
          ip_fragment_out now s2 buf ip protocol id
            ((offset * (ETHERNET_MTU - sizeof_ip_hdr_t) / 8) % 65536) 0
    else ip_fragment_out now s0 buf ip protocol id 0 0
  match res with
  | none => none
  | some s3 => some { s3 with id := (s3.id + 1) % 65536 }

/-! ## ICMP (`icmp.c`) -/

/-- From `icmp.c`, `icmp_in`: the checksum over the whole message is verified with the
field zeroed (and restored); an echo request is copied into `txbuf`, turned into a reply
and sent through `ip_out`. -/
def icmp_in (now : Nat) (s : Stack) (buf : BufId) (src_ip : ip_addr) : Option Stack :=
  let b := s.deref buf
  let a := b.data
  let cksum := get16 b.payload (a + 2)
  let zeroed := writeBytes b.payload (a + 2) (le16 0)
  let s1 := s.assign buf { b with payload := writeBytes zeroed (a + 2) (le16 cksum) }
  if checksum16 (readBytes zeroed a b.len) ≠ cksum then some s1
  else if (s1.deref buf).payload a = ICMP_TYPE_ECHO_REQUEST then
    match buf_init s1.txbuf (s1.deref buf).len with
    | none => none
    | some tx =>
      let s2 := { s1 with txbuf := tx }
      let src := s2.deref buf
      let m1 := writeBytes tx.payload tx.data (readBytes src.payload src.data src.len)
      let m2 := writeBytes m1 tx.data [ICMP_TYPE_ECHO_REPLY, 0]
      let s3 := { s2 with txbuf := { tx with payload := m2 } }
      let m3 := writeBytes m2 (tx.data + 4) (le16 (get16 (s3.deref buf).payload (a + 4)))
      let s4 := { s3 with txbuf := { tx with payload := m3 } }
      let m4 := writeBytes m3 (tx.data + 6) (le16 (get16 (s4.deref buf).payload (a + 6)))
      let m5 := writeBytes m4 (tx.data + 2) (le16 0)
      let m6 := writeBytes m5 (tx.data + 2) (le16 (checksum16 (readBytes m5 tx.data tx.len)))
      ip_out now { s4 with txbuf := { tx with payload := m6 } } .txbuf src_ip NET_PROTOCOL_ICMP
  else some s1

/-- From `icmp.c`, `icmp_unreachable`: a 36-byte message is built in `txbuf` from the
first 28 bytes of the received datagram and sent through `ip_out`. -/
def icmp_unreachable (now : Nat) (s : Stack) (recv_buf : BufId) (src_ip : ip_addr)
    (code : Nat) : Option Stack :=
  match buf_init s.txbuf (sizeof_icmp_hdr_t + sizeof_ip_hdr_t + 8) with
  | none => none
  | some tx =>
    let s1 := { s with txbuf := tx }
    let src := s1.deref recv_buf
    let m1 := writeBytes tx.payload (tx.data + sizeof_icmp_hdr_t)
      (readBytes src.payload src.data (sizeof_ip_hdr_t + 8))
    let m2 := writeBytes m1 tx.data ([ICMP_TYPE_UNREACH, code % 256] ++ le16 0 ++ le16 0 ++ le16 0)
    let m3 := writeBytes m2 (tx.data + 2) (le16 (checksum16 (readBytes m2 tx.data tx.len)))
    ip_out now { s1 with txbuf := { tx with payload := m3 } } .txbuf src_ip NET_PROTOCOL_ICMP

/-- Modelled from the spec: the UDP layer is missing; `udp_in` is an external
collaborator that receives the payload and the source IP, which `ip_in` records. -/
def udp_in (s : Stack) (_buf : BufId) (_src_ip : ip_addr) : Option Stack := some s

/-! ## IP input (`ip.c`) -/

/-- From `ip.c`, `ip_in`, the `switch` on the protocol field of the header at address `a`
of the buffer: ICMP and UDP get the datagram with the header removed, every other
protocol goes to `icmp_unreachable` with the datagram as it is. -/
def ip_in_switch (now : Nat) (s : Stack) (buf : BufId) (a : Nat) : Option Stack :=
  let m := (s.deref buf).payload
  let src_ip := read_ip m (a + 12)
  if m (a + 9) = NET_PROTOCOL_ICMP then
    match buf_remove_header (s.deref buf) sizeof_ip_hdr_t with
    | none => none
    | some b1 =>
      icmp_in now ((s.assign buf b1).log_upcall (.icmp_in b1.bytes src_ip)) buf src_ip
  else if m (a + 9) = NET_PROTOCOL_UDP then
    match buf_remove_header (s.deref buf) sizeof_ip_hdr_t with
    | none => none
    | some b1 =>
      udp_in ((s.assign buf b1).log_upcall (.udp_in b1.bytes src_ip)) buf src_ip
  else
    icmp_unreachable now
      (s.log_upcall (.icmp_unreachable (s.deref buf).bytes src_ip ICMP_CODE_PROTOCOL_UNREACH))
      buf src_ip ICMP_CODE_PROTOCOL_UNREACH

/-- From `ip.c`, `ip_in`: the structural check, the header checksum check (the checksum
is computed while the field is zero, and the field is then restored), the destination
check, and the dispatch on the protocol field. -/
def ip_in (now : Nat) (s : Stack) (buf : BufId) : Option Stack :=
  let b := s.deref buf
  let a := b.data
  let m := b.payload
  if (m a % 16) * IP_HDR_LEN_PER_BYTE ≠ sizeof_ip_hdr_t ∨ m a / 16 % 16 ≠ IP_VERSION_4
      ∨ swap16 (get16 m (a + 2)) > 65535 then
    some s
  else
    let cksum := get16 m (a + 10)
    let zeroed := writeBytes m (a + 10) (le16 0)
    let m1 := writeBytes zeroed (a + 10) (le16 cksum)
    let s1 := s.assign buf { b with payload := m1 }
    if checksum16 (readBytes zeroed a sizeof_ip_hdr_t) ≠ cksum then some s1
    else if read_ip m1 (a + 16) ≠ net_if_ip then some s1
    else ip_in_switch now s1 buf a

/-! ## Ethernet input (`ethernet.c`) -/

/-- From `ethernet.c`, `ethernet_in`: two tests in sequence of the protocol field of the
header `head` points to; each strips the header and calls the input of its layer. -/
def ethernet_in (now : Nat) (s : Stack) (buf : BufId) : Option Stack :=
  let a := (s.deref buf).data
  let afterArp : Option Stack :=
    if get16 (s.deref buf).payload (a + 12) = swap16 NET_PROTOCOL_ARP then
      match buf_remove_header (s.deref buf) sizeof_ether_hdr_t with
      | none => none
      | some b1 => arp_in now (s.assign buf b1) buf
    else some s
  match afterArp with
  | none => none
  | some s1 =>
    if get16 (s1.deref buf).payload (a + 12) = swap16 NET_PROTOCOL_IP then
      match buf_remove_header (s1.deref buf) sizeof_ether_hdr_t with
      | none => none
      | some b1 => ip_in now (s1.assign buf b1) buf
    else some s1

/-! ## Statements of the specification -/

/-- The fragments the specification lists for a payload of `L` bytes, as triples (payload
length, offset field, more-fragments): `n = max 1 ⌈L / 1480⌉` fragments, fragment `k`
with offset `185 * k`, all but the last of 1480 bytes with more-fragments 1, the last of
`L - 1480 * (n - 1)` bytes with more-fragments 0. -/
def spec_fragments (L : Nat) : List (Nat × Nat × Nat) :=
  let n := max 1 ((L + 1479) / 1480)
  (List.range n).map (fun k =>
    (if k + 1 < n then 1480 else L - 1480 * (n - 1), 185 * k, if k + 1 < n then 1 else 0))

/-- The table has a slot that `arp_update` at time `now` can fill: one that is not valid,
or whose timeout is not after `now`. -/
def HasFree (now : Nat) (t : List arp_entry_t) : Prop :=
  ∃ e ∈ t, e.state ≠ .ARP_VALID ∨ e.timeout ≤ now

/-- The condition under which `arp_out` for `ip` at time `now` is defined: the address is
resolved, or the request can be built (42 bytes of `txbuf`) and the table has a slot to
fill. -/
def Ready (now : Nat) (ip : ip_addr) (s : Stack) : Prop :=
  (∃ mac, arp_lookup s.arp_table ip = some mac) ∨ (42 ≤ s.txbuf.cap ∧ HasFree now s.arp_table)

/-- The index of the first slot of a table that is not valid (after the sweep: the
lowest-index slot that is invalid or pending). -/
def arp_first_free : List arp_entry_t → Option Nat
  | [] => none
  | e :: es => if e.state ≠ .ARP_VALID then some 0 else (arp_first_free es).map (fun i => i + 1)

/-- The timeout the second loop of `arp_update` writes into a slot found in state `old`. -/
def arp_new_timeout (now : Nat) (old : arp_state_t) : Nat :=
  if old = .ARP_INVALID then now + ARP_TIMEOUT_SEC else now + 5

/-- The invariant the specification states for the table: at most one valid or pending
entry per IP. -/
abbrev NoDuplicateIp (t : List arp_entry_t) : Prop :=
  ((t.filter (fun e => e.state ≠ .ARP_INVALID)).map (fun e => e.ip)).Nodup

/-- The 28 bytes of an ARP packet with the given opcode, sender and target. -/
def arp_wire (opcode : Nat) (smac : mac_addr) (sip : ip_addr) (tmac : mac_addr)
    (tip : ip_addr) : List Nat :=
  le16 (swap16 ARP_HW_ETHER) ++ le16 (swap16 NET_PROTOCOL_IP) ++ [6, 4] ++ le16 (swap16 opcode)
    ++ smac.bytes ++ sip.bytes ++ tmac.bytes ++ tip.bytes

/-- Modelled from the spec: the driver is missing; a received packet is put into `rxbuf`
(here at offset 1000), as `ethernet_poll` and the removal of the Ethernet header leave
it for the input of a layer. -/
def Stack.receive (s : Stack) (pkt : List Nat) : Stack :=
  { s with rxbuf := ⟨writeBytes s.rxbuf.payload 1000 pkt, s.rxbuf.cap, 1000, pkt.length⟩ }

/-- The 20 header bytes of a datagram with the checksum field (bytes 10 and 11) zeroed. -/
def ip_hdr_zeroed (d : List Nat) : List Nat := d.take 10 ++ [0, 0] ++ (d.take 20).drop 12

/-- The acceptance condition of the specification for an inbound datagram `d`: the
header-length field is 5 words, the version is 4, the stored header checksum equals
`checksum16` of the 20 header bytes with the checksum field zeroed, and the destination
is the host IP. -/
abbrev ip_accepts (d : List Nat) : Prop :=
  d.getD 0 0 % 16 = 5 ∧ d.getD 0 0 / 16 % 16 = 4 ∧
  d.getD 10 0 % 256 + 256 * (d.getD 11 0 % 256) = checksum16 (ip_hdr_zeroed d) ∧
  (d.drop 16).take 4 = net_if_ip.bytes

/-- The 20 header bytes `ip_fragment_out` leaves in front of the payload: the field
assignments, with the checksum of the header stored in bytes 10 and 11. -/
def ip_hdr_final (len : Nat) (ip : ip_addr) (protocol id offset mf : Nat) : List Nat :=
  (ip_hdr_bytes len ip protocol id offset mf).take 10
    ++ le16 (checksum16 (ip_hdr_bytes len ip protocol id offset mf))
    ++ (ip_hdr_bytes len ip protocol id offset mf).drop 12

/-- The buffer `ip_fragment_out` hands to `arp_out` when it is given the buffer `b`: the
window extended by 20 bytes and the header filled. -/
def ip_built (b : buf_t) (ip : ip_addr) (protocol id offset mf : Nat) : buf_t :=
  ip_fill_header { b with data := b.data - 20, len := b.len + 20 } ip protocol id offset mf

/-! ## Concrete inputs -/

/-- A memory whose byte at address `i` is `i % 256`. -/
def demo_mem : Nat → Nat := fun i => i % 256

/-- A buffer over `demo_mem` with capacity 8192 and the given window. -/
def demo_buf (data len : Nat) : buf_t := ⟨demo_mem, 8192, data, len⟩

/-- An invalid table entry, as in a zero-initialised table after `arp_init`. -/
def demo_invalid : arp_entry_t := ⟨.ARP_INVALID, 0, ⟨0, 0, 0, 0⟩, ⟨0, 0, 0, 0, 0, 0⟩⟩

/-- The peer 10.0.2.2 of the scenarios. -/
def demo_ip : ip_addr := ⟨10, 0, 2, 2⟩

/-- The MAC aa:bb:cc:dd:ee:ff of the scenarios. -/
def demo_mac : mac_addr := ⟨0xaa, 0xbb, 0xcc, 0xdd, 0xee, 0xff⟩

/-- A state with the given table and caller buffer, an empty pending slot and empty
logs. -/
def demo_stack (t : List arp_entry_t) (caller : buf_t) : Stack :=
  { arp_table := t
    arp_buf := ⟨demo_buf 4096 0, ⟨0, 0, 0, 0⟩, 0, 0⟩
    txbuf := demo_buf 4096 0
    rxbuf := demo_buf 4096 0
    caller := caller
    id := 0
    sent := []
    frags := []
    ipouts := []
    upcalls := [] }

/-- A table of 16 invalid entries. -/
def demo_empty_table : List arp_entry_t := List.replicate 16 demo_invalid

/-- A table in which 10.0.2.2 is resolved (valid until time 2000) and the other 15 slots
are invalid. -/
def demo_hit_table : List arp_entry_t :=
  ⟨.ARP_VALID, 2000, demo_ip, demo_mac⟩ :: List.replicate 15 demo_invalid

/-- A full table: 16 valid entries for 10.0.1.1 .. 10.0.1.16, the entry in slot `k`
(from 0) expiring at time `1016 - k`, so that the last slot has the smallest timeout. -/
def demo_full_table : List arp_entry_t :=
  (List.range 16).map (fun k => ⟨.ARP_VALID, 1016 - k, ⟨10, 0, 1, k + 1⟩, ⟨2, 0, 0, 0, 0, k + 1⟩⟩)

/-- A second MAC, 02:00:00:00:00:09. -/
def demo_mac2 : mac_addr := ⟨2, 0, 0, 0, 0, 9⟩

/-- A table whose slot 0 is valid for 10.0.2.2 but expired at time 500; the other 15
slots are invalid. -/
def demo_stale_table : List arp_entry_t :=
  ⟨.ARP_VALID, 500, demo_ip, demo_mac⟩ :: List.replicate 15 demo_invalid

/-- A state with an empty table in which the shared transmit buffer `txbuf` holds a
100-byte packet (window at offset 4000). -/
def demo_tx_stack : Stack :=
  { (demo_stack demo_empty_table (demo_buf 100 0)) with txbuf := demo_buf 4000 100 }

/-- The ARP request frame for 10.0.2.2: broadcast destination, host source, ethertype
0x0806, and the 28-byte request. -/
def demo_request_frame : List Nat :=
  net_board_mac.bytes ++ DRIVER_IF_MAC.bytes ++ [8, 6]
    ++ arp_wire ARP_REQUEST DRIVER_IF_MAC DRIVER_IF_IP ⟨0, 0, 0, 0, 0, 0⟩ demo_ip

/-- The window of `b` starts with the 28 bytes of the ARP packet with the given opcode,
sender and target. -/
abbrev holds_arp (b : buf_t) (opcode : Nat) (smac : mac_addr) (sip : ip_addr) (tmac : mac_addr)
    (tip : ip_addr) : Prop :=
  readBytes b.payload b.data 28 = arp_wire opcode smac sip tmac tip

/-- A table whose slot 0 is valid for 10.0.2.3 until time 1001; the other 15 slots are
invalid. -/
def demo_short_table : List arp_entry_t :=
  ⟨.ARP_VALID, 1001, ⟨10, 0, 2, 3⟩, demo_mac2⟩ :: List.replicate 15 demo_invalid

/-- A state in which a 70-byte packet for 10.0.2.2 is parked, slot 0 of the table is the
pending entry for 10.0.2.2, and `rxbuf` holds an ARP reply from 10.0.2.2 at
aa:bb:cc:dd:ee:ff. -/
def demo_pending_stack : Stack :=
  { (demo_stack (⟨.ARP_PENDING, 1300, demo_ip, net_board_mac⟩ :: List.replicate 15 demo_invalid)
      (demo_buf 100 0)) with
    arp_buf := ⟨demo_buf 80 70, demo_ip, NET_PROTOCOL_IP, 1⟩
    rxbuf := ⟨writeBytes demo_mem 1000 (arp_wire ARP_REPLY demo_mac demo_ip net_if_mac net_if_ip),
      8192, 1000, 28⟩ }

/-- A state whose `rxbuf` holds a datagram built by `ip_fragment_out` for the host's own
IP: protocol UDP, identifier 7, 8 payload bytes. -/
def demo_dgram_stack : Stack :=
  { (demo_stack demo_empty_table (demo_buf 1000 8)) with
    rxbuf := ip_built (demo_buf 1000 8) net_if_ip NET_PROTOCOL_UDP 7 0 0 }

/-- A table whose slot 0 is the unexpired pending entry for 10.0.2.2 and whose other 15
slots are invalid. -/
def demo_pending_table : List arp_entry_t :=
  ⟨.ARP_PENDING, 1300, demo_ip, net_board_mac⟩ :: List.replicate 15 demo_invalid

/-- A table without invalid slots at time 1000: slot 0 valid for 10.0.2.3, slot 1 the
pending entry for 10.0.2.2, slot 2 valid for 10.0.2.4, all unexpired. -/
def demo_no_invalid_table : List arp_entry_t :=
  [⟨.ARP_VALID, 1200, ⟨10, 0, 2, 3⟩, demo_mac2⟩, ⟨.ARP_PENDING, 1004, demo_ip, net_board_mac⟩,
   ⟨.ARP_VALID, 1250, ⟨10, 0, 2, 4⟩, demo_mac2⟩]

/-- A state whose identifier counter holds the largest 16-bit value; the caller buffer is
a 50-byte payload. -/
def demo_wrap_stack : Stack :=
  { (demo_stack demo_empty_table (demo_buf 100 50)) with id := 65535 }

/-- From `arp.c`, `arp_in`, the statements after the call of `arp_update`: `s1` is the
state with the updated table and `a` the address `head` points to.  An occupied pending
slot is looked up and flushed on a hit; with an empty slot a request for the host IP is
answered with a reply built in `txbuf`. -/
def arp_in_respond (s1 : Stack) (buf : BufId) (a : Nat) : Option Stack :=
  let m := (s1.deref buf).payload
  if s1.arp_buf.valid ≠ 0 then
    match arp_lookup s1.arp_table s1.arp_buf.ip with
    | some mac =>
      ethernet_out { s1 with arp_buf := { s1.arp_buf with valid := 0 } } .arp_buf mac
        s1.arp_buf.protocol
    | none => some s1
  else if get16 m (a + 6) = swap16 ARP_REQUEST ∧ read_ip m (a + 24) = net_if_ip then
    match buf_init s1.txbuf sizeof_arp_pkt_t with
    | none => none
    | some tx =>
      let init := arp_pkt_bytes (swap16 ARP_REPLY) ⟨0, 0, 0, 0, 0, 0⟩ ⟨0, 0, 0, 0⟩
      let s2 := { s1 with txbuf := { tx with payload := writeBytes tx.payload tx.data init } }
      let tip := read_ip (s2.deref buf).payload (a + 14)
      let s3 := { s2 with txbuf := { s2.txbuf with
        payload := writeBytes s2.txbuf.payload (tx.data + 24) tip.bytes } }
      let tmac := read_mac (s3.deref buf).payload (a + 8)
      let s4 := { s3 with txbuf := { s3.txbuf with
        payload := writeBytes s3.txbuf.payload (tx.data + 18) tmac.bytes } }
      ethernet_out s4 .txbuf (read_mac s4.txbuf.payload (tx.data + 18)) NET_PROTOCOL_ARP
  else some s1

/-- The big-endian 16-bit field at offset `k` of the bytes `d`. -/
def be16_at (d : List Nat) (k : Nat) : Nat := 256 * d.getD k 0 + d.getD (k + 1) 0

/-- The header check of the specification for an inbound ARP packet `d`: hardware type
Ethernet, protocol type IP, hardware length 6, protocol length 4, opcode REQUEST or
REPLY. -/
abbrev arp_wellformed (d : List Nat) : Prop :=
  be16_at d 0 = ARP_HW_ETHER ∧ be16_at d 2 = NET_PROTOCOL_IP ∧ d.getD 4 0 = 6 ∧
  d.getD 5 0 = 4 ∧ (be16_at d 6 = ARP_REQUEST ∨ be16_at d 6 = ARP_REPLY)

/-- A frame from aa:bb:cc:dd:ee:ff to the host that carries an ARP request from 10.0.2.2
for the host IP. -/
def demo_arp_frame : List Nat :=
  net_if_mac.bytes ++ demo_mac.bytes ++ [8, 6]
    ++ arp_wire ARP_REQUEST demo_mac demo_ip ⟨0, 0, 0, 0, 0, 0⟩ net_if_ip

/-- A state with an empty table and an empty pending slot whose `rxbuf` holds the frame
`demo_arp_frame`. -/
def demo_frame_stack : Stack :=
  { (demo_stack demo_empty_table (demo_buf 100 0)) with
    rxbuf := ⟨writeBytes demo_mem 1000 demo_arp_frame, 8192, 1000, 42⟩ }

/-- The state `demo_frame_stack` after the Ethernet header is removed: `rxbuf` holds the
ARP request. -/
def demo_request_stack : Stack :=
  { (demo_stack demo_empty_table (demo_buf 100 0)) with
    rxbuf := ⟨writeBytes demo_mem 1000 demo_arp_frame, 8192, 1014, 28⟩ }

/-- The 36-byte message the specification lists for `icmp_unreachable` with the code
`code` and the original datagram `d`: type 3, the code, the checksum of the whole message
computed with its field zeroed, four zero bytes, and the first 28 bytes of `d`. -/
def icmp_unreach_msg (code : Nat) (d : List Nat) : List Nat :=
  [3, code] ++ le16 (checksum16 ([3, code, 0, 0, 0, 0, 0, 0] ++ d.take 28))
    ++ [0, 0, 0, 0] ++ d.take 28

/-- The checksum check of the specification for an ICMP message `d`: the stored checksum
(bytes 2 and 3, as the host reads them) is `checksum16` of the message with that field
zeroed. -/
abbrev icmp_checksum_ok (d : List Nat) : Prop :=
  d.getD 2 0 + 256 * d.getD 3 0 = checksum16 (d.take 2 ++ [0, 0] ++ d.drop 4)

/-- The Echo Reply the specification lists for the request `d`: type 0, code 0, the
checksum of the reply computed with its field zeroed, and the bytes of the request from
the identifier on. -/
def icmp_echo_reply (d : List Nat) : List Nat :=
  [0, 0] ++ le16 (checksum16 ([0, 0, 0, 0] ++ d.drop 4)) ++ d.drop 4
/-- An Echo Request of 12 bytes: identifier 0x0001, sequence 0x0001, payload "abcd", and
the checksum of the message in the checksum field. -/
def demo_echo_request : List Nat :=
  [8, 0] ++ le16 (checksum16 [8, 0, 0, 0, 0, 1, 0, 1, 97, 98, 99, 100])
    ++ [0, 1, 0, 1, 97, 98, 99, 100]

/-- A state with an empty table whose `rxbuf` holds the Echo Request. -/
def demo_echo_stack : Stack :=
  { (demo_stack demo_empty_table (demo_buf 100 0)) with
    rxbuf := ⟨writeBytes demo_mem 1000 demo_echo_request, 8192, 1000, 12⟩ }

/-! ## State bookkeeping -/

@[simp] theorem deref_assign_same (s : Stack) (r : BufId) (b : buf_t) :
    (s.assign r b).deref r = b := by
  cases r <;> rfl

theorem deref_assign_ne (s : Stack) (r r1 : BufId) (b : buf_t) (h : r1 ≠ r) :
    (s.assign r b).deref r1 = s.deref r1 := by
  cases r <;> cases r1 <;> first | rfl | exact absurd rfl h

@[simp] theorem assign_arp_table (s : Stack) (r : BufId) (b : buf_t) :
    (s.assign r b).arp_table = s.arp_table := by
  cases r <;> rfl

@[simp] theorem assign_frags (s : Stack) (r : BufId) (b : buf_t) :
    (s.assign r b).frags = s.frags := by
  cases r <;> rfl

@[simp] theorem assign_sent (s : Stack) (r : BufId) (b : buf_t) :
    (s.assign r b).sent = s.sent := by
  cases r <;> rfl

@[simp] theorem assign_ipouts (s : Stack) (r : BufId) (b : buf_t) :
    (s.assign r b).ipouts = s.ipouts := by
  cases r <;> rfl

@[simp] theorem assign_upcalls (s : Stack) (r : BufId) (b : buf_t) :
    (s.assign r b).upcalls = s.upcalls := by
  cases r <;> rfl

@[simp] theorem assign_id (s : Stack) (r : BufId) (b : buf_t) :
    (s.assign r b).id = s.id := by
  cases r <;> rfl

theorem assign_txbuf_cap (s : Stack) (r : BufId) (b : buf_t) (h : b.cap = (s.deref r).cap) :
    (s.assign r b).txbuf.cap = s.txbuf.cap := by
  cases r <;> first | rfl | exact h

/-! ## ARP table lemmas -/

theorem arp_place_of_free (now : Nat) (ip : ip_addr) (mac : mac_addr) (st : arp_state_t)
    (t : List arp_entry_t) (h : ∃ e ∈ t, e.state ≠ .ARP_VALID) :
    ∃ t2, arp_place now ip mac st t = some t2 ∧
      (st ≠ .ARP_VALID → ∃ e ∈ t2, e.state ≠ .ARP_VALID) := by
  induction t with
  | nil => obtain ⟨e, he, _⟩ := h; cases he
  | cons e es ih =>
    unfold arp_place
    by_cases h1 : e.state = .ARP_INVALID
    · simp only [h1, if_true]
      exact ⟨_, rfl, fun hst => ⟨_, List.mem_cons_self _ _, hst⟩⟩
    · by_cases h2 : e.state = .ARP_PENDING
      · simp only [h1, h2, if_true, if_false]
        exact ⟨_, rfl, fun hst => ⟨_, List.mem_cons_self _ _, hst⟩⟩
      · have hv : e.state = .ARP_VALID := by
          cases hs : e.state <;> simp_all
        have h3 : ∃ e1 ∈ es, e1.state ≠ .ARP_VALID := by
          obtain ⟨e1, he1, hne⟩ := h
          rcases List.mem_cons.mp he1 with rfl | hmem
          · exact absurd hv hne
          · exact ⟨e1, hmem, hne⟩
        obtain ⟨t2, ht2, hfree⟩ := ih h3
        simp only [h1, h2, if_false, ht2, Option.map_some']
        refine ⟨_, rfl, fun hst => ?_⟩
        obtain ⟨e1, he1, hne⟩ := hfree hst
        exact ⟨e1, List.mem_cons_of_mem _ he1, hne⟩

theorem arp_sweep_free (now : Nat) (t : List arp_entry_t) (h : HasFree now t) :
    ∃ e ∈ arp_sweep now t, e.state ≠ .ARP_VALID := by
  obtain ⟨e, he, hfree⟩ := h
  by_cases hto : e.timeout ≤ now
  · refine ⟨{ e with state := .ARP_INVALID }, ?_, by simp⟩
    unfold arp_sweep
    exact List.mem_map.mpr ⟨e, he, by simp [hto]⟩
  · refine ⟨e, ?_, ?_⟩
    · unfold arp_sweep
      exact List.mem_map.mpr ⟨e, he, by simp [hto]⟩
    · rcases hfree with h1 | h1
      · exact h1
      · exact absurd h1 hto

theorem arp_update_of_free (now : Nat) (ip : ip_addr) (mac : mac_addr) (st : arp_state_t)
    (t : List arp_entry_t) (h : HasFree now t) :
    ∃ t2, arp_update now ip mac st t = some t2 ∧
      arp_place now ip mac st (arp_sweep now t) = some t2 ∧
      (st ≠ .ARP_VALID → HasFree now t2) := by
  obtain ⟨t2, ht2, hfree⟩ := arp_place_of_free now ip mac st _ (arp_sweep_free now t h)
  refine ⟨t2, ?_, ht2, fun hst => ?_⟩
  · unfold arp_update
    simp only [ht2]
  · obtain ⟨e, he, hne⟩ := hfree hst
    exact ⟨e, he, Or.inl hne⟩

/-! ## Memory lemmas -/

@[simp] theorem readBytes_length (m : Nat → Nat) (a n : Nat) : (readBytes m a n).length = n := by
  simp [readBytes]

theorem getElem_readBytes (m : Nat → Nat) (a n i : Nat) (h : i < (readBytes m a n).length) :
    (readBytes m a n)[i] = m (a + i) := by
  simp [readBytes]

theorem readBytes_congr (m1 m2 : Nat → Nat) (a n : Nat)
    (h : ∀ i, i < n → m1 (a + i) = m2 (a + i)) : readBytes m1 a n = readBytes m2 a n := by
  apply List.ext_getElem
  · simp
  · intro i h1 h2
    rw [getElem_readBytes, getElem_readBytes]
    exact h i (by simpa using h1)

theorem readBytes_append (m : Nat → Nat) (a n k : Nat) :
    readBytes m a (n + k) = readBytes m a n ++ readBytes m (a + n) k := by
  apply List.ext_getElem
  · simp
  · intro i h1 h2
    rw [getElem_readBytes]
    by_cases hi : i < n
    · rw [List.getElem_append_left (by simpa using hi), getElem_readBytes]
    · have hge : n ≤ i := Nat.le_of_not_lt hi
      rw [List.getElem_append_right (by simpa using hge), getElem_readBytes]
      simp only [readBytes_length]
      congr 1
      omega

theorem writeBytes_outside (m : Nat → Nat) (a : Nat) (l : List Nat) (i : Nat)
    (h : i < a ∨ a + l.length ≤ i) : writeBytes m a l i = m i := by
  unfold writeBytes
  rw [if_neg]
  omega

theorem writeBytes_inside (m : Nat → Nat) (a : Nat) (l : List Nat) (i : Nat)
    (h : i < l.length) : writeBytes m a l (a + i) = l[i] := by
  unfold writeBytes
  rw [if_pos ⟨Nat.le_add_right _ _, by omega⟩]
  simp [List.getD_eq_getElem?_getD, List.getElem?_eq_getElem h]

theorem readBytes_writeBytes_self (m : Nat → Nat) (a : Nat) (l : List Nat) :
    readBytes (writeBytes m a l) a l.length = l := by
  apply List.ext_getElem
  · simp
  · intro i h1 h2
    rw [getElem_readBytes, writeBytes_inside m a l i h2]

theorem readBytes_writeBytes_disjoint (m : Nat → Nat) (a : Nat) (l : List Nat) (b n : Nat)
    (h : b + n ≤ a ∨ a + l.length ≤ b) :
    readBytes (writeBytes m a l) b n = readBytes m b n := by
  apply readBytes_congr
  intro i hi
  apply writeBytes_outside
  omega

theorem readBytes_drop (m : Nat → Nat) (a n k : Nat) :
    (readBytes m a n).drop k = readBytes m (a + k) (n - k) := by
  apply List.ext_getElem
  · simp
  · intro i h1 h2
    rw [List.getElem_drop, getElem_readBytes, getElem_readBytes]
    congr 1
    omega

/-! ## Ethernet and ARP output lemmas -/

@[simp] theorem driver_send_arp_table (s : Stack) (r : BufId) :
    (driver_send s r).arp_table = s.arp_table := rfl

@[simp] theorem driver_send_arp_buf (s : Stack) (r : BufId) :
    (driver_send s r).arp_buf = s.arp_buf := rfl

@[simp] theorem driver_send_txbuf (s : Stack) (r : BufId) :
    (driver_send s r).txbuf = s.txbuf := rfl

@[simp] theorem driver_send_frags (s : Stack) (r : BufId) :
    (driver_send s r).frags = s.frags := rfl

@[simp] theorem driver_send_ipouts (s : Stack) (r : BufId) :
    (driver_send s r).ipouts = s.ipouts := rfl

@[simp] theorem driver_send_upcalls (s : Stack) (r : BufId) :
    (driver_send s r).upcalls = s.upcalls := rfl

@[simp] theorem driver_send_id (s : Stack) (r : BufId) :
    (driver_send s r).id = s.id := rfl

@[simp] theorem driver_send_deref (s : Stack) (r r1 : BufId) :
    (driver_send s r).deref r1 = s.deref r1 := by
  cases r1 <;> rfl

@[simp] theorem driver_send_sent (s : Stack) (r : BufId) :
    (driver_send s r).sent = s.sent ++ [(s.deref r).bytes] := rfl

theorem ethernet_out_of_room (s : Stack) (buf : BufId) (mac : mac_addr) (protocol : Nat)
    (h : 14 ≤ (s.deref buf).data) :
    ethernet_out s buf mac protocol = some (driver_send (s.assign buf
      { payload := writeBytes (s.deref buf).payload ((s.deref buf).data - 14)
          (mac.bytes ++ DRIVER_IF_MAC.bytes ++ le16 (swap16 protocol))
        cap := (s.deref buf).cap
        data := (s.deref buf).data - 14
        len := (s.deref buf).len + 14 }) buf) := by
  unfold ethernet_out buf_add_header
  simp [h]

theorem arp_pkt_bytes_length (op : Nat) (tm : mac_addr) (ti : ip_addr) :
    (arp_pkt_bytes op tm ti).length = 28 := by
  simp [arp_pkt_bytes, le16, mac_addr.bytes, ip_addr.bytes]

/-- The frame `arp_req` broadcasts for `ip`. -/
theorem arp_req_of_update (now : Nat) (s : Stack) (ip : ip_addr) (t2 : List arp_entry_t)
    (hcap : 42 ≤ s.txbuf.cap)
    (hup : arp_update now ip net_board_mac .ARP_PENDING s.arp_table = some t2) :
    ∃ s1, arp_req now s ip = some s1 ∧ s1.arp_table = t2 ∧ s1.arp_buf = s.arp_buf ∧
      s1.rxbuf = s.rxbuf ∧ s1.caller = s.caller ∧ s1.id = s.id ∧ s1.frags = s.frags ∧
      s1.ipouts = s.ipouts ∧ s1.upcalls = s.upcalls ∧
      s1.sent = s.sent ++ [net_board_mac.bytes ++ DRIVER_IF_MAC.bytes
        ++ le16 (swap16 NET_PROTOCOL_ARP)
        ++ arp_pkt_bytes (swap16 ARP_REQUEST) ⟨0, 0, 0, 0, 0, 0⟩ ip] ∧
      s1.txbuf.cap = s.txbuf.cap ∧ s1.txbuf.len = 42 ∧ s1.txbuf.data = s.txbuf.cap - 42 ∧
      s1.txbuf.bytes = net_board_mac.bytes ++ DRIVER_IF_MAC.bytes
        ++ le16 (swap16 NET_PROTOCOL_ARP)
        ++ arp_pkt_bytes (swap16 ARP_REQUEST) ⟨0, 0, 0, 0, 0, 0⟩ ip := by
  have h28 : 28 ≤ s.txbuf.cap := by omega
  have hframe : ∀ m : Nat → Nat,
      readBytes (writeBytes (writeBytes m (s.txbuf.cap - 28)
          (arp_pkt_bytes (swap16 ARP_REQUEST) ⟨0, 0, 0, 0, 0, 0⟩ ip))
        (s.txbuf.cap - 28 - 14)
        (net_board_mac.bytes ++ DRIVER_IF_MAC.bytes ++ le16 (swap16 NET_PROTOCOL_ARP)))
        (s.txbuf.cap - 28 - 14) (28 + 14)
      = net_board_mac.bytes ++ DRIVER_IF_MAC.bytes ++ le16 (swap16 NET_PROTOCOL_ARP)
        ++ arp_pkt_bytes (swap16 ARP_REQUEST) ⟨0, 0, 0, 0, 0, 0⟩ ip := by
    intro m
    have hl : (net_board_mac.bytes ++ DRIVER_IF_MAC.bytes
        ++ le16 (swap16 NET_PROTOCOL_ARP)).length = 14 := by
      simp [le16, mac_addr.bytes]
    rw [show 28 + 14 = 14 + 28 from rfl, readBytes_append]
    congr 1
    · conv_lhs => rw [← hl]
      exact readBytes_writeBytes_self _ _ _
    · rw [readBytes_writeBytes_disjoint _ _ _ _ _ (by omega)]
      rw [show s.txbuf.cap - 28 - 14 + 14 = s.txbuf.cap - 28 by omega]
      conv_lhs => rw [← arp_pkt_bytes_length (swap16 ARP_REQUEST) ⟨0, 0, 0, 0, 0, 0⟩ ip]
      exact readBytes_writeBytes_self _ _ _
  unfold arp_req buf_init
  simp only [sizeof_arp_pkt_t, h28, if_true, hup]
  rw [ethernet_out_of_room _ _ _ _ (by simp [Stack.deref]; omega)]
  refine ⟨_, rfl, ?_⟩
  simp only [driver_send_arp_table, driver_send_arp_buf, driver_send_txbuf, driver_send_frags,
    driver_send_ipouts, driver_send_upcalls, driver_send_id, driver_send_sent,
    deref_assign_same, buf_t.bytes]
  simp only [Stack.assign, Stack.deref, driver_send, hframe]
  simp
  omega

theorem arp_out_step (now : Nat) (s : Stack) (buf : BufId) (ip : ip_addr) (protocol : Nat)
    (hroom : 14 ≤ (s.deref buf).data) (hready : Ready now ip s) :
    ∃ s1, arp_out now s buf ip protocol = some s1 ∧ s1.frags = s.frags ∧ Ready now ip s1 ∧
      s1.id = s.id ∧ s1.ipouts = s.ipouts ∧ s1.upcalls = s.upcalls := by
  unfold arp_out
  cases hl : arp_lookup s.arp_table ip with
  | some mac =>
    simp only []
    rw [ethernet_out_of_room _ _ _ _ hroom]
    refine ⟨_, rfl, by simp, ?_, by simp, by simp, by simp⟩
    left
    exact ⟨mac, by simpa using hl⟩
  | none =>
    simp only []
    have h2 : 42 ≤ s.txbuf.cap ∧ HasFree now s.arp_table := by
      rcases hready with ⟨mac, hmac⟩ | h
      · rw [hl] at hmac; cases hmac
      · exact h
    obtain ⟨t2, hup, _, hfree⟩ :=
      arp_update_of_free now ip net_board_mac .ARP_PENDING s.arp_table h2.2
    obtain ⟨s1, hreq, htab, _, _, _, hid, hfr, hipo, hupc, _, hcap, _⟩ :=
      arp_req_of_update now s ip t2 h2.1 hup
    rw [hreq]
    refine ⟨_, rfl, hfr, ?_, hid, hipo, hupc⟩
    right
    refine ⟨by simpa [hcap] using h2.1, ?_⟩
    simp only [htab]
    exact hfree (by decide)

@[simp] theorem log_frag_deref (s : Stack) (f : frag_call) (r : BufId) :
    (s.log_frag f).deref r = s.deref r := by
  cases r <;> rfl

@[simp] theorem log_frag_arp_table (s : Stack) (f : frag_call) :
    (s.log_frag f).arp_table = s.arp_table := rfl

@[simp] theorem log_frag_txbuf (s : Stack) (f : frag_call) :
    (s.log_frag f).txbuf = s.txbuf := rfl

@[simp] theorem log_frag_frags (s : Stack) (f : frag_call) :
    (s.log_frag f).frags = s.frags ++ [f] := rfl

@[simp] theorem log_frag_id (s : Stack) (f : frag_call) : (s.log_frag f).id = s.id := rfl

@[simp] theorem log_frag_ipouts (s : Stack) (f : frag_call) :
    (s.log_frag f).ipouts = s.ipouts := rfl

@[simp] theorem log_frag_upcalls (s : Stack) (f : frag_call) :
    (s.log_frag f).upcalls = s.upcalls := rfl

@[simp] theorem log_frag_sent (s : Stack) (f : frag_call) :
    (s.log_frag f).sent = s.sent := rfl

@[simp] theorem log_frag_arp_buf (s : Stack) (f : frag_call) :
    (s.log_frag f).arp_buf = s.arp_buf := rfl

@[simp] theorem log_ip_out_deref (s : Stack) (c : ip_out_call) (r : BufId) :
    (s.log_ip_out c).deref r = s.deref r := by
  cases r <;> rfl

@[simp] theorem log_ip_out_arp_table (s : Stack) (c : ip_out_call) :
    (s.log_ip_out c).arp_table = s.arp_table := rfl

@[simp] theorem log_ip_out_txbuf (s : Stack) (c : ip_out_call) :
    (s.log_ip_out c).txbuf = s.txbuf := rfl

@[simp] theorem log_ip_out_frags (s : Stack) (c : ip_out_call) :
    (s.log_ip_out c).frags = s.frags := rfl

@[simp] theorem log_ip_out_id (s : Stack) (c : ip_out_call) : (s.log_ip_out c).id = s.id := rfl

@[simp] theorem log_ip_out_ipouts (s : Stack) (c : ip_out_call) :
    (s.log_ip_out c).ipouts = s.ipouts ++ [c] := rfl

@[simp] theorem log_ip_out_upcalls (s : Stack) (c : ip_out_call) :
    (s.log_ip_out c).upcalls = s.upcalls := rfl

@[simp] theorem log_ip_out_sent (s : Stack) (c : ip_out_call) :
    (s.log_ip_out c).sent = s.sent := rfl

@[simp] theorem log_ip_out_arp_buf (s : Stack) (c : ip_out_call) :
    (s.log_ip_out c).arp_buf = s.arp_buf := rfl

theorem ip_fragment_out_eq (now : Nat) (s : Stack) (buf : BufId) (ip : ip_addr)
    (protocol id offset mf : Nat) (h20 : 20 ≤ (s.deref buf).data) :
    ip_fragment_out now s buf ip protocol id offset mf =
      arp_out now
        ((s.assign buf (ip_fill_header
            { (s.deref buf) with data := (s.deref buf).data - 20, len := (s.deref buf).len + 20 }
            ip protocol id offset mf)).log_frag
          { ip := ip, protocol := protocol, id := id, offset := offset, mf := mf,
            len := (s.deref buf).len,
            datagram := (ip_fill_header
              { (s.deref buf) with data := (s.deref buf).data - 20, len := (s.deref buf).len + 20 }
              ip protocol id offset mf).bytes })
        buf ip NET_PROTOCOL_IP := by
  unfold ip_fragment_out buf_add_header
  simp only [sizeof_ip_hdr_t, h20, if_true]

theorem ip_fragment_out_step (now : Nat) (s : Stack) (buf : BufId) (ip : ip_addr)
    (protocol id offset mf : Nat) (hroom : 34 ≤ (s.deref buf).data)
    (hready : Ready now ip s) :
    ∃ s1 dg, ip_fragment_out now s buf ip protocol id offset mf = some s1 ∧
      s1.frags = s.frags ++
        [{ ip := ip, protocol := protocol, id := id, offset := offset, mf := mf,
           len := (s.deref buf).len, datagram := dg }] ∧
      Ready now ip s1 ∧ s1.id = s.id ∧ s1.ipouts = s.ipouts ∧ s1.upcalls = s.upcalls := by
  have h20 : 20 ≤ (s.deref buf).data := by omega
  rw [ip_fragment_out_eq now s buf ip protocol id offset mf h20]
  have hr2 : ∀ (b : buf_t) (f : frag_call),
      b.cap = (s.deref buf).cap → Ready now ip ((s.assign buf b).log_frag f) := by
    intro b f hb
    rcases hready with h | ⟨hc, hf⟩
    · left; simpa using h
    · right
      refine ⟨?_, by simpa using hf⟩
      have := assign_txbuf_cap s buf b hb
      simpa [this] using hc
  obtain ⟨s1, h1, hfr, hrd, hid, hipo, hupc⟩ := arp_out_step now
    ((s.assign buf (ip_fill_header
        { (s.deref buf) with data := (s.deref buf).data - 20, len := (s.deref buf).len + 20 }
        ip protocol id offset mf)).log_frag
      { ip := ip, protocol := protocol, id := id, offset := offset, mf := mf,
        len := (s.deref buf).len,
        datagram := (ip_fill_header
          { (s.deref buf) with data := (s.deref buf).data - 20, len := (s.deref buf).len + 20 }
          ip protocol id offset mf).bytes })
    buf ip NET_PROTOCOL_IP
    (by simp only [log_frag_deref, deref_assign_same, ip_fill_header]; omega)
    (hr2 _ _ rfl)
  exact ⟨s1, _, h1, by simpa using hfr, hrd, by simpa using hid, by simpa using hipo,
    by simpa using hupc⟩

/-! ## What a returning call of the lower layers leaves unchanged -/

theorem ethernet_out_inv (s s1 : Stack) (r : BufId) (mac : mac_addr) (p : Nat)
    (h : ethernet_out s r mac p = some s1) :
    s1.ipouts = s.ipouts ∧ s1.upcalls = s.upcalls ∧ s1.id = s.id ∧ s1.frags = s.frags ∧
      s1.arp_table = s.arp_table ∧ (∀ r1, r1 ≠ r → s1.deref r1 = s.deref r1) ∧
      s1.arp_buf.valid = s.arp_buf.valid ∧ s1.arp_buf.ip = s.arp_buf.ip ∧
      s1.arp_buf.protocol = s.arp_buf.protocol ∧ s1.txbuf.cap = s.txbuf.cap := by
  unfold ethernet_out buf_add_header at h
  by_cases hroom : sizeof_ether_hdr_t ≤ (s.deref r).data
  · rw [if_pos hroom] at h
    simp only [Option.some.injEq] at h
    subst h
    refine ⟨by simp, by simp, by simp, by simp, by simp, ?_, ?_, ?_, ?_, ?_⟩
    · intro r1 hr1
      rw [driver_send_deref, deref_assign_ne _ _ _ _ hr1]
    · cases r <;> rfl
    · cases r <;> rfl
    · cases r <;> rfl
    · rw [driver_send_txbuf]
      exact assign_txbuf_cap _ _ _ rfl
  · rw [if_neg hroom] at h
    cases h

theorem arp_req_inv (now : Nat) (s s1 : Stack) (ip : ip_addr) (h : arp_req now s ip = some s1) :
    s1.ipouts = s.ipouts ∧ s1.upcalls = s.upcalls ∧ s1.id = s.id ∧ s1.frags = s.frags ∧
      (∀ r1, r1 ≠ .txbuf → s1.deref r1 = s.deref r1) ∧ s1.txbuf.cap = s.txbuf.cap := by
  unfold arp_req buf_init at h
  by_cases hcap : sizeof_arp_pkt_t ≤ s.txbuf.cap
  · rw [if_pos hcap] at h
    simp only [] at h
    cases hup : arp_update now ip net_board_mac .ARP_PENDING s.arp_table with
    | none => rw [hup] at h; cases h
    | some t =>
      rw [hup] at h
      simp only [] at h
      obtain ⟨h1, h2, h3, h4, _, h6, _, _, _, h10⟩ := ethernet_out_inv _ _ _ _ _ h
      refine ⟨h1, h2, h3, h4, ?_, h10⟩
      intro r1 hr1
      rw [h6 r1 hr1]
      cases r1 with
      | txbuf => exact absurd rfl hr1
      | rxbuf => rfl
      | arp_buf => rfl
      | caller => rfl
  · rw [if_neg hcap] at h
    cases h

theorem arp_out_inv (now : Nat) (s s1 : Stack) (buf : BufId) (ip : ip_addr) (p : Nat)
    (h : arp_out now s buf ip p = some s1) :
    s1.ipouts = s.ipouts ∧ s1.upcalls = s.upcalls ∧ s1.id = s.id ∧ s1.frags = s.frags := by
  unfold arp_out at h
  cases hl : arp_lookup s.arp_table ip with
  | some mac =>
    rw [hl] at h
    simp only [] at h
    obtain ⟨h1, h2, h3, h4, _⟩ := ethernet_out_inv _ _ _ _ _ h
    exact ⟨h1, h2, h3, h4⟩
  | none =>
    rw [hl] at h
    simp only [] at h
    cases hr : arp_req now s ip with
    | none => rw [hr] at h; cases h
    | some s2 =>
      rw [hr] at h
      simp only [Option.some.injEq] at h
      subst h
      obtain ⟨h1, h2, h3, h4, _⟩ := arp_req_inv now s s2 ip hr
      exact ⟨h1, h2, h3, h4⟩

theorem ip_fill_header_cap_eq (b : buf_t) (ip : ip_addr) (protocol id offset mf : Nat) :
    (ip_fill_header b ip protocol id offset mf).cap = b.cap := rfl

theorem ip_fill_header_data_eq (b : buf_t) (ip : ip_addr) (protocol id offset mf : Nat) :
    (ip_fill_header b ip protocol id offset mf).data = b.data := rfl

theorem ethernet_out_window (s s1 : Stack) (r : BufId) (mac : mac_addr) (p : Nat)
    (h : ethernet_out s r mac p = some s1) :
    (s1.deref r).cap = (s.deref r).cap ∧ (s1.deref r).data + 14 = (s.deref r).data := by
  unfold ethernet_out buf_add_header at h
  by_cases hroom : sizeof_ether_hdr_t ≤ (s.deref r).data
  · rw [if_pos hroom] at h
    simp only [Option.some.injEq] at h
    subst h
    simp only [driver_send_deref, deref_assign_same]
    simp only [sizeof_ether_hdr_t] at hroom ⊢
    exact ⟨trivial, by omega⟩
  · rw [if_neg hroom] at h
    cases h

/-- A returning call of `ip_fragment_out`, for a buffer other than `txbuf` or a resolved
destination: the window of the buffer has moved back by at least the 20 header bytes, in
the same region, and the condition still holds. -/
theorem ip_fragment_out_window (now : Nat) (s s1 : Stack) (buf : BufId) (ip : ip_addr)
    (p id offset mf : Nat) (h : ip_fragment_out now s buf ip p id offset mf = some s1)
    (hpath : buf ≠ .txbuf ∨ ∃ mac, arp_lookup s.arp_table ip = some mac) :
    (s1.deref buf).cap = (s.deref buf).cap ∧ (s1.deref buf).data + 20 ≤ (s.deref buf).data ∧
      (buf ≠ .txbuf ∨ ∃ mac, arp_lookup s1.arp_table ip = some mac) := by
  unfold ip_fragment_out buf_add_header at h
  by_cases hroom : sizeof_ip_hdr_t ≤ (s.deref buf).data
  · rw [if_pos hroom] at h
    simp only [] at h
    simp only [sizeof_ip_hdr_t] at hroom
    unfold arp_out at h
    simp only [log_frag_arp_table, assign_arp_table] at h
    cases hl : arp_lookup s.arp_table ip with
    | some mac =>
      rw [hl] at h
      simp only [] at h
      obtain ⟨hc, hd⟩ := ethernet_out_window _ _ _ _ _ h
      obtain ⟨_, _, _, _, htab, _⟩ := ethernet_out_inv _ _ _ _ _ h
      simp only [log_frag_deref, deref_assign_same, ip_fill_header_cap_eq,
        ip_fill_header_data_eq, sizeof_ip_hdr_t] at hc hd
      refine ⟨hc, by omega, Or.inr ⟨mac, ?_⟩⟩
      rw [htab]
      simpa using hl
    | none =>
      rw [hl] at h
      have hb : buf ≠ .txbuf := by
        rcases hpath with hb | ⟨mac, hmac⟩
        · exact hb
        · rw [hl] at hmac; cases hmac
      simp only [] at h
      split at h
      · cases h
      · rename_i s2 hreq
        simp only [Option.some.injEq] at h
        subst h
        obtain ⟨_, _, _, _, hder, _⟩ := arp_req_inv _ _ _ _ hreq
        have hd2 := hder buf hb
        simp only [log_frag_deref, deref_assign_same] at hd2
        have hs1 : ({ s2 with arp_buf :=
            { buf := s2.deref buf, ip := ip, protocol := NET_PROTOCOL_IP, valid := 1 } } :
              Stack).deref buf = s2.deref buf := by
          cases buf <;> rfl
        rw [hs1, hd2]
        simp only [ip_fill_header_cap_eq, ip_fill_header_data_eq, sizeof_ip_hdr_t]
        exact ⟨trivial, by omega, Or.inl hb⟩
  · rw [if_neg hroom] at h
    cases h

/-! ## Fragmentation lemmas -/

theorem ready_assign (now : Nat) (ip : ip_addr) (s : Stack) (buf : BufId) (b : buf_t)
    (hb : b.cap = (s.deref buf).cap) (h : Ready now ip s) : Ready now ip (s.assign buf b) := by
  rcases h with h | ⟨hc, hf⟩
  · left; simpa using h
  · right
    refine ⟨?_, by simpa using hf⟩
    have := assign_txbuf_cap s buf b hb
    simpa [this] using hc

theorem spec_fragments_small (L : Nat) (h : L ≤ 1480) : spec_fragments L = [(L, 0, 0)] := by
  have hn : max 1 ((L + 1479) / 1480) = 1 := by
    have : (L + 1479) / 1480 ≤ 1 := by omega
    omega
  simp only [spec_fragments, hn]
  rw [show List.range 1 = [0] from rfl]
  simp

theorem spec_fragments_large (L : Nat) (h : 1480 < L) :
    spec_fragments L =
      (List.range ((L - 1) / 1480)).map (fun j => (1480, 185 * j, 1))
        ++ [(L - 1480 * ((L - 1) / 1480), 185 * ((L - 1) / 1480), 0)] := by
  have hn : max 1 ((L + 1479) / 1480) = (L - 1) / 1480 + 1 := by
    have : (L + 1479) / 1480 = (L - 1) / 1480 + 1 := by omega
    omega
  simp only [spec_fragments, hn, List.range_succ, List.map_append, List.map_cons, List.map_nil]
  congr 1
  · apply List.map_congr_left
    intro j hj
    have : j < (L - 1) / 1480 := List.mem_range.mp hj
    simp [this]
  · simp

theorem ip_out_loop_spec (now : Nat) (buf : BufId) (ip : ip_addr) (protocol id : Nat) :
    ∀ (len off : Nat) (s : Stack),
      (off ≠ 0 ∨ 34 ≤ (s.deref buf).data) → Ready now ip s → off * 1480 + len ≤ 65535 →
      (s.deref buf).data + (if off ≠ 0 then 1500 else 0) + len ≤ (s.deref buf).cap →
      (buf ≠ .txbuf ∨ ∃ mac, arp_lookup s.arp_table ip = some mac) →
      ∃ s1 fs, ip_out_loop now buf ip protocol id len off s
          = some (s1, len - 1480 * ((len - 1) / 1480), off + (len - 1) / 1480) ∧
        s1.frags = s.frags ++ fs ∧
        fs.map (fun f => (f.len, f.offset, f.mf))
          = (List.range ((len - 1) / 1480)).map (fun j => (1480, 185 * (off + j), 1)) ∧
        (∀ f ∈ fs, f.id = id) ∧ Ready now ip s1 ∧ s1.id = s.id ∧ s1.ipouts = s.ipouts ∧
        s1.upcalls = s.upcalls ∧
        (off + (len - 1) / 1480 ≠ 0 ∨ 34 ≤ (s1.deref buf).data) ∧
        (s1.deref buf).data + (if off + (len - 1) / 1480 ≠ 0 then 1500 else 0)
          + (len - 1480 * ((len - 1) / 1480)) ≤ (s1.deref buf).cap ∧
        (buf ≠ .txbuf ∨ ∃ mac, arp_lookup s1.arp_table ip = some mac) := by
  intro len
  induction len using Nat.strong_induction_on with
  | _ len ih =>
    intro off s hroom hready hbound hwin hpath
    rw [ip_out_loop]
    by_cases hlen : 1480 < len
    · have hcond : ETHERNET_MTU - sizeof_ip_hdr_t < len := by simpa using hlen
      rw [if_pos hcond]
      have harg : (if off ≠ 0 then off * (ETHERNET_MTU - sizeof_ip_hdr_t) / 8 else 0) % 65536
          = 185 * off := by
        by_cases h0 : off = 0
        · simp [h0]
        · simp only [ne_eq, h0, not_false_eq_true, if_true, ETHERNET_MTU, sizeof_ip_hdr_t]
          omega
      have hinc : (if off ≠ 0 then ETHERNET_MTU else 0) = (if off ≠ 0 then 1500 else 0) := rfl
      have hg : ¬ (s.deref buf).cap
          < (s.deref buf).data + (if off ≠ 0 then ETHERNET_MTU else 0)
            + (ETHERNET_MTU - sizeof_ip_hdr_t) := by
        rw [hinc]
        simp only [ETHERNET_MTU, sizeof_ip_hdr_t]
        omega
      simp only []
      rw [if_neg hg]
      obtain ⟨s2, dg, h2, hfr2, hrd2, hid2, hipo2, hupc2⟩ := ip_fragment_out_step now
        (s.assign buf { (s.deref buf) with
          len := ETHERNET_MTU - sizeof_ip_hdr_t
          data := (s.deref buf).data + (if off ≠ 0 then ETHERNET_MTU else 0) })
        buf ip protocol id
        ((if off ≠ 0 then off * (ETHERNET_MTU - sizeof_ip_hdr_t) / 8 else 0) % 65536) 1
        (by
          simp only [deref_assign_same]
          rcases hroom with h | h
          · simp only [ne_eq, h, not_false_eq_true, if_true, ETHERNET_MTU]; omega
          · omega)
        (ready_assign now ip s buf _ rfl hready)
      obtain ⟨hcap2, hdata2, hpath2⟩ := ip_fragment_out_window _ _ _ _ _ _ _ _ _ h2
        (by simpa using hpath)
      simp only [deref_assign_same, hinc] at hcap2 hdata2
      simp only [h2]
      simp only [deref_assign_same, assign_frags, assign_id, assign_ipouts, assign_upcalls,
        harg] at hfr2 hid2 hipo2 hupc2
      obtain ⟨s3, fs, h3, hfr3, hmap3, hid3, hrd3, hsid3, hipo3, hupc3, hroom3, hwin3, hpath3⟩ :=
        ih (len - (ETHERNET_MTU - sizeof_ip_hdr_t)) (by simp; omega) (off + 1) s2
          (Or.inl (by omega)) hrd2 (by simp; omega)
          (by
            rw [if_pos (by omega), hcap2]
            simp only [ETHERNET_MTU, sizeof_ip_hdr_t]
            omega)
          hpath2
      have hk : (len - 1) / 1480 = (len - 1480 - 1) / 1480 + 1 := by omega
      have e1 : len - (ETHERNET_MTU - sizeof_ip_hdr_t)
            - 1480 * ((len - (ETHERNET_MTU - sizeof_ip_hdr_t) - 1) / 1480)
          = len - 1480 * ((len - 1) / 1480) := by
        simp only [ETHERNET_MTU, sizeof_ip_hdr_t]; omega
      have e2 : off + 1 + (len - (ETHERNET_MTU - sizeof_ip_hdr_t) - 1) / 1480
          = off + (len - 1) / 1480 := by
        simp only [ETHERNET_MTU, sizeof_ip_hdr_t]; omega
      rw [e1, e2] at h3
      rw [e1, e2] at hwin3
      refine ⟨s3,
        (⟨ip, protocol, id, 185 * off, 1, ETHERNET_MTU - sizeof_ip_hdr_t, dg⟩ : frag_call) :: fs,
        h3, ?_, ?_, ?_, hrd3, ?_, ?_, ?_, ?_, hwin3, hpath3⟩
      · rw [hfr3, hfr2]
        simp
      · rw [hk, List.range_succ_eq_map, List.map_cons, List.map_cons, hmap3]
        simp only [ETHERNET_MTU, sizeof_ip_hdr_t, List.map_map]
        refine congrArg₂ _ (by simp) ?_
        apply List.map_congr_left
        intro j _
        simp only [Function.comp]
        congr 2
        omega
      · intro f hf
        rcases List.mem_cons.mp hf with rfl | hf
        · rfl
        · exact hid3 f hf
      · rw [hsid3, hid2]
      · rw [hipo3, hipo2]
      · rw [hupc3, hupc2]
      · rw [← e2]; exact hroom3
    · have hcond : ¬ ETHERNET_MTU - sizeof_ip_hdr_t < len := by simpa using hlen
      rw [if_neg hcond]
      have hk : (len - 1) / 1480 = 0 := by omega
      refine ⟨s, [], ?_, by simp, by simp [hk], by simp, hready, rfl, rfl, rfl, ?_, ?_, hpath⟩
      · simp [hk]
      · simpa [hk] using hroom
      · simpa [hk] using hwin

theorem spec_fragments_sum (L : Nat) : ((spec_fragments L).map (fun t => t.1)).sum = L := by
  by_cases h : 1480 < L
  · rw [spec_fragments_large L h]
    simp only [List.map_append, List.map_map, List.sum_append, List.map_cons, List.map_nil,
      List.sum_cons, List.sum_nil]
    have : (List.map ((fun t : Nat × Nat × Nat => t.1) ∘ fun j => (1480, 185 * j, 1))
        (List.range ((L - 1) / 1480))).sum = 1480 * ((L - 1) / 1480) := by
      simp [Function.comp_def, Nat.mul_comm]
    rw [this]
    omega
  · rw [spec_fragments_small L (by omega)]
    simp

theorem ip_out_spec (now : Nat) (s : Stack) (buf : BufId) (ip : ip_addr) (protocol : Nat)
    (hL : (s.deref buf).len ≤ 65535) (hroom : 34 ≤ (s.deref buf).data)
    (hready : Ready now ip s)
    (hwin : (s.deref buf).len ≤ 1480 ∨
      ((s.deref buf).data + (s.deref buf).len ≤ (s.deref buf).cap ∧
        (buf ≠ .txbuf ∨ ∃ mac, arp_lookup s.arp_table ip = some mac))) :
    ∃ s1 fs, ip_out now s buf ip protocol = some s1 ∧ s1.frags = s.frags ++ fs ∧
      fs.map (fun f => (f.len, f.offset, f.mf)) = spec_fragments (s.deref buf).len ∧
      (∀ f ∈ fs, f.id = s.id) ∧ s1.id = (s.id + 1) % 65536 ∧
      s1.ipouts = s.ipouts ++ [⟨(s.deref buf).bytes, ip, protocol⟩] ∧
      s1.upcalls = s.upcalls := by
  have hready0 : Ready now ip (s.log_ip_out ⟨(s.deref buf).bytes, ip, protocol⟩) := hready
  unfold ip_out
  simp only [log_ip_out_deref]
  by_cases hlen : 1480 < (s.deref buf).len
  · have hcond : ETHERNET_MTU - sizeof_ip_hdr_t < (s.deref buf).len := by simpa using hlen
    rw [if_pos hcond]
    have hwin1 : (s.deref buf).data + (s.deref buf).len ≤ (s.deref buf).cap ∧
        (buf ≠ .txbuf ∨ ∃ mac, arp_lookup s.arp_table ip = some mac) := by
      rcases hwin with h | h
      · omega
      · exact h
    obtain ⟨s2, fs, h2, hfr2, hmap2, hid2, hrd2, hsid2, hipo2, hupc2, hroom2, hwin2, hpath2⟩ :=
      ip_out_loop_spec now buf ip protocol s.id (s.deref buf).len 0
        (s.log_ip_out ⟨(s.deref buf).bytes, ip, protocol⟩)
        (Or.inr (by simpa using hroom)) hready0 (by omega)
        (by simpa using hwin1.1) (by simpa using hwin1.2)
    simp only [h2]
    have hk : 0 + ((s.deref buf).len - 1) / 1480 ≠ 0 := by omega
    have hg : ¬ (s2.deref buf).cap
        < (s2.deref buf).data
          + (if 0 + ((s.deref buf).len - 1) / 1480 ≠ 0 then ETHERNET_MTU else 0)
          + ((s.deref buf).len - 1480 * (((s.deref buf).len - 1) / 1480)) := by
      have hinc : (if 0 + ((s.deref buf).len - 1) / 1480 ≠ 0 then ETHERNET_MTU else 0)
          = (if 0 + ((s.deref buf).len - 1) / 1480 ≠ 0 then 1500 else 0) := rfl
      rw [hinc]
      omega
    rw [if_neg hg]
    obtain ⟨s3, dg, h3, hfr3, hrd3, hid3, hipo3, hupc3⟩ := ip_fragment_out_step now
      (s2.assign buf { (s2.deref buf) with
        data := (s2.deref buf).data
          + (if 0 + ((s.deref buf).len - 1) / 1480 ≠ 0 then ETHERNET_MTU else 0)
        len := (s.deref buf).len - 1480 * (((s.deref buf).len - 1) / 1480) })
      buf ip protocol s.id
      (((0 + ((s.deref buf).len - 1) / 1480) * (ETHERNET_MTU - sizeof_ip_hdr_t) / 8) % 65536) 0
      (by
        simp only [deref_assign_same, ne_eq, hk, not_false_eq_true, if_true, ETHERNET_MTU]
        omega)
      (ready_assign now ip s2 buf _ rfl hrd2)
    simp only [h3]
    have harg : ((0 + ((s.deref buf).len - 1) / 1480) * (ETHERNET_MTU - sizeof_ip_hdr_t) / 8)
        % 65536 = 185 * (((s.deref buf).len - 1) / 1480) := by
      simp only [ETHERNET_MTU, sizeof_ip_hdr_t]
      omega
    simp only [deref_assign_same, assign_frags, assign_id, assign_ipouts, assign_upcalls,
      harg] at hfr3 hid3 hipo3 hupc3
    refine ⟨_, fs ++ [⟨ip, protocol, s.id, 185 * (((s.deref buf).len - 1) / 1480), 0,
      (s.deref buf).len - 1480 * (((s.deref buf).len - 1) / 1480), dg⟩], rfl, ?_, ?_, ?_, ?_,
      ?_, ?_⟩
    · simp only [hfr3, hfr2, List.append_assoc, log_ip_out_frags]
    · rw [spec_fragments_large _ hlen, List.map_append, hmap2]
      simp
    · intro f hf
      rcases List.mem_append.mp hf with hf | hf
      · exact hid2 f hf
      · rw [List.mem_singleton.mp hf]
    · simp only [hid3, hsid2, log_ip_out_id]
    · simp only [hipo3, hipo2, log_ip_out_ipouts]
    · simp only [hupc3, hupc2, log_ip_out_upcalls]
  · have hcond : ¬ ETHERNET_MTU - sizeof_ip_hdr_t < (s.deref buf).len := by simpa using hlen
    rw [if_neg hcond]
    obtain ⟨s3, dg, h3, hfr3, hrd3, hid3, hipo3, hupc3⟩ := ip_fragment_out_step now
      (s.log_ip_out ⟨(s.deref buf).bytes, ip, protocol⟩)
      buf ip protocol s.id 0 0 (by simpa using hroom) hready0
    simp only [h3]
    simp only [log_ip_out_deref, log_ip_out_frags, log_ip_out_id, log_ip_out_ipouts,
      log_ip_out_upcalls] at hfr3 hid3 hipo3 hupc3
    refine ⟨_, [⟨ip, protocol, s.id, 0, 0, (s.deref buf).len, dg⟩], rfl, hfr3, ?_, ?_, ?_,
      ?_, ?_⟩
    · rw [spec_fragments_small _ (by omega)]
      simp
    · intro f hf
      rw [List.mem_singleton.mp hf]
    · simp only [hid3]
    · simp only [hipo3]
    · simp only [hupc3]

/-- C1: for a payload of `L ≤ 65535` bytes (with room for the headers in front of it, an
ARP layer able to take the datagrams and, above 1480 bytes, a window inside the region of
a buffer that is not `txbuf` unless the destination is resolved), `ip_out` returns, and
the calls of
`ip_fragment_out` it makes are, in order, the `max 1 ⌈L / 1480⌉` fragments of the
specification: fragment `k` with offset field `185 * k`, all but the last of 1480 bytes
with more-fragments 1, the last with the remaining bytes and more-fragments 0; the
lengths sum to `L`; a payload of at most 1480 bytes gives one datagram with offset 0 and
more-fragments 0, and one of 3000 bytes gives offsets 0, 185, 370 and flags 1, 1, 0. -/
theorem ip_out_fragments (now : Nat) (s : Stack) (buf : BufId) (ip : ip_addr)
    (protocol : Nat) (hL : (s.deref buf).len ≤ 65535) (hroom : 34 ≤ (s.deref buf).data)
    (hready : Ready now ip s)
    (hwin : (s.deref buf).len ≤ 1480 ∨
      ((s.deref buf).data + (s.deref buf).len ≤ (s.deref buf).cap ∧
        (buf ≠ .txbuf ∨ ∃ mac, arp_lookup s.arp_table ip = some mac))) :
    ∃ s1 fs, ip_out now s buf ip protocol = some s1 ∧ s1.frags = s.frags ++ fs ∧
      fs.map (fun f => (f.len, f.offset, f.mf)) = spec_fragments (s.deref buf).len ∧
      (fs.map (fun f => f.len)).sum = (s.deref buf).len ∧
      ((s.deref buf).len ≤ 1480 →
        fs.map (fun f => (f.len, f.offset, f.mf)) = [((s.deref buf).len, 0, 0)]) ∧
      ((s.deref buf).len = 3000 →
        fs.map (fun f => (f.len, f.offset, f.mf))
          = [(1480, 0, 1), (1480, 185, 1), (40, 370, 0)]) := by
  obtain ⟨s1, fs, h1, hfr, hmap, _⟩ :=
    ip_out_spec now s buf ip protocol hL hroom hready hwin
  refine ⟨s1, fs, h1, hfr, hmap, ?_, ?_, ?_⟩
  · have : fs.map (fun f => f.len)
        = (fs.map (fun f => (f.len, f.offset, f.mf))).map (fun t => t.1) := by
      simp [List.map_map, Function.comp_def]
    rw [this, hmap, spec_fragments_sum]
  · intro h
    rw [hmap, spec_fragments_small _ h]
  · intro h
    rw [hmap, h]
    decide

/-- Witness of C1: a 3000-byte payload in a caller buffer, on an empty table. -/
theorem ip_out_fragments_witness :
    ((demo_stack demo_empty_table (demo_buf 100 3000)).deref .caller).len ≤ 65535 ∧
    34 ≤ ((demo_stack demo_empty_table (demo_buf 100 3000)).deref .caller).data ∧
    Ready 1000 demo_ip (demo_stack demo_empty_table (demo_buf 100 3000)) ∧
    ((demo_stack demo_empty_table (demo_buf 100 3000)).deref .caller).data
        + ((demo_stack demo_empty_table (demo_buf 100 3000)).deref .caller).len
      ≤ ((demo_stack demo_empty_table (demo_buf 100 3000)).deref .caller).cap ∧
    BufId.caller ≠ BufId.txbuf ∧
    ∃ s1 fs, ip_out 1000 (demo_stack demo_empty_table (demo_buf 100 3000)) .caller demo_ip 17
        = some s1 ∧
      s1.frags = (demo_stack demo_empty_table (demo_buf 100 3000)).frags ++ fs ∧
      fs.map (fun f => (f.len, f.offset, f.mf))
        = spec_fragments ((demo_stack demo_empty_table (demo_buf 100 3000)).deref .caller).len ∧
      (fs.map (fun f => f.len)).sum
        = ((demo_stack demo_empty_table (demo_buf 100 3000)).deref .caller).len ∧
      (((demo_stack demo_empty_table (demo_buf 100 3000)).deref .caller).len ≤ 1480 →
        fs.map (fun f => (f.len, f.offset, f.mf))
          = [(((demo_stack demo_empty_table (demo_buf 100 3000)).deref .caller).len, 0, 0)]) ∧
      (((demo_stack demo_empty_table (demo_buf 100 3000)).deref .caller).len = 3000 →
        fs.map (fun f => (f.len, f.offset, f.mf))
          = [(1480, 0, 1), (1480, 185, 1), (40, 370, 0)]) :=
  ⟨by decide, by decide,
    Or.inr ⟨by decide, demo_invalid, by decide, Or.inl (by decide)⟩, by decide, by decide,
    ip_out_fragments 1000 (demo_stack demo_empty_table (demo_buf 100 3000)) .caller demo_ip 17
      (by decide) (by decide)
      (Or.inr ⟨by decide, demo_invalid, by decide, Or.inl (by decide)⟩)
      (Or.inr ⟨by decide, Or.inl (by decide)⟩)⟩

/-! ## The resolved path of `ip_fragment_out` -/

theorem readBytes_getD (m : Nat → Nat) (a n i : Nat) (h : i < n) :
    (readBytes m a n).getD i 0 = m (a + i) := by
  rw [List.getD_eq_getElem _ _ (by simpa using h), getElem_readBytes]

theorem ip_hdr_bytes_length (len : Nat) (ip : ip_addr) (protocol id offset mf : Nat) :
    (ip_hdr_bytes len ip protocol id offset mf).length = 20 := by
  simp [ip_hdr_bytes, le16, ip_addr.bytes]

theorem ip_fill_header_data (b : buf_t) (ip : ip_addr) (protocol id offset mf : Nat) :
    (ip_fill_header b ip protocol id offset mf).data = b.data := rfl

theorem ip_fill_header_len (b : buf_t) (ip : ip_addr) (protocol id offset mf : Nat) :
    (ip_fill_header b ip protocol id offset mf).len = b.len := rfl

theorem ip_fill_header_cap (b : buf_t) (ip : ip_addr) (protocol id offset mf : Nat) :
    (ip_fill_header b ip protocol id offset mf).cap = b.cap := rfl

theorem ip_fill_header_outside (b : buf_t) (ip : ip_addr) (protocol id offset mf i : Nat)
    (h : i < b.data ∨ b.data + 20 ≤ i) :
    (ip_fill_header b ip protocol id offset mf).payload i = b.payload i := by
  unfold ip_fill_header
  simp only []
  rw [writeBytes_outside _ _ _ _ (by simp [le16]; omega),
    writeBytes_outside _ _ _ _ (by rw [ip_hdr_bytes_length]; omega)]

theorem ip_fragment_out_hit (now : Nat) (s : Stack) (buf : BufId) (ip : ip_addr)
    (protocol id offset mf : Nat) (mac : mac_addr)
    (hl : arp_lookup s.arp_table ip = some mac) (hroom : 34 ≤ (s.deref buf).data) :
    ∃ s1 dg, ip_fragment_out now s buf ip protocol id offset mf = some s1 ∧
      s1.arp_table = s.arp_table ∧
      (s1.deref buf).data = (s.deref buf).data - 34 ∧
      (∀ i, (s.deref buf).data ≤ i → (s1.deref buf).payload i = (s.deref buf).payload i) ∧
      s1.frags = s.frags ++ [⟨ip, protocol, id, offset, mf, (s.deref buf).len, dg⟩] ∧
      dg.drop 20 = (s.deref buf).bytes ∧ s1.id = s.id := by
  have h20 : 20 ≤ (s.deref buf).data := by omega
  rw [ip_fragment_out_eq now s buf ip protocol id offset mf h20]
  unfold arp_out
  simp only [log_frag_arp_table, assign_arp_table, hl]
  rw [ethernet_out_of_room _ _ _ _ (by
    simp only [log_frag_deref, deref_assign_same, ip_fill_header_data]; omega)]
  refine ⟨_, (ip_fill_header
      { (s.deref buf) with data := (s.deref buf).data - 20, len := (s.deref buf).len + 20 }
      ip protocol id offset mf).bytes, rfl, by simp, ?_, ?_, by simp, ?_, by simp⟩
  · simp only [driver_send_deref, deref_assign_same, log_frag_deref, ip_fill_header_data]
    omega
  · intro i hi
    simp only [driver_send_deref, deref_assign_same, log_frag_deref, ip_fill_header_data]
    rw [writeBytes_outside _ _ _ _ (by simp [le16, mac_addr.bytes]; omega),
      ip_fill_header_outside _ _ _ _ _ _ _ (by simp only []; omega)]
  · simp only [buf_t.bytes, ip_fill_header_data, ip_fill_header_len, readBytes_drop]
    rw [show (s.deref buf).data - 20 + 20 = (s.deref buf).data by omega,
      show (s.deref buf).len + 20 - 20 = (s.deref buf).len by omega]
    apply readBytes_congr
    intro i _
    rw [ip_fill_header_outside _ _ _ _ _ _ _ (by simp only []; omega)]

theorem readBytes_take (m : Nat → Nat) (a n k : Nat) :
    (readBytes m a n).take k = readBytes m a (min k n) := by
  apply List.ext_getElem
  · simp
  · intro i h1 h2
    rw [List.getElem_take, getElem_readBytes, getElem_readBytes]

/-- On the resolved path the window drifts: fragment `j` of the loop starts 1466 bytes,
not 1480, after the one before. -/
theorem ip_out_loop_hit (now : Nat) (buf : BufId) (ip : ip_addr) (protocol id : Nat)
    (mac : mac_addr) (m0 : Nat → Nat) (D C : Nat) (hD : 34 ≤ D) :
    ∀ (len off : Nat) (s : Stack),
      arp_lookup s.arp_table ip = some mac →
      (s.deref buf).data + (if off ≠ 0 then 1500 else 0) = D + 1466 * off →
      (∀ i, D + 1466 * off ≤ i → (s.deref buf).payload i = m0 i) →
      (s.deref buf).cap = C → D + 1466 * off + len ≤ C →
      ∃ s1 fs, ip_out_loop now buf ip protocol id len off s
          = some (s1, len - 1480 * ((len - 1) / 1480), off + (len - 1) / 1480) ∧
        s1.frags = s.frags ++ fs ∧
        fs.map (fun f => f.datagram.drop 20)
          = (List.range ((len - 1) / 1480)).map
              (fun j => readBytes m0 (D + 1466 * (off + j)) 1480) ∧
        arp_lookup s1.arp_table ip = some mac ∧
        (s1.deref buf).data + (if off + (len - 1) / 1480 ≠ 0 then 1500 else 0)
          = D + 1466 * (off + (len - 1) / 1480) ∧
        (∀ i, D + 1466 * (off + (len - 1) / 1480) ≤ i → (s1.deref buf).payload i = m0 i) ∧
        (s1.deref buf).cap = C ∧
        D + 1466 * (off + (len - 1) / 1480) + (len - 1480 * ((len - 1) / 1480)) ≤ C := by
  intro len
  induction len using Nat.strong_induction_on with
  | _ len ih =>
    intro off s hl hdata hmem hcap hwin
    rw [ip_out_loop]
    by_cases hlen : 1480 < len
    · have hcond : ETHERNET_MTU - sizeof_ip_hdr_t < len := by simpa using hlen
      rw [if_pos hcond]
      have hdata1 : (s.deref buf).data + (if off ≠ 0 then ETHERNET_MTU else 0)
          = D + 1466 * off := by simpa using hdata
      have hg : ¬ (s.deref buf).cap
          < (s.deref buf).data + (if off ≠ 0 then ETHERNET_MTU else 0)
            + (ETHERNET_MTU - sizeof_ip_hdr_t) := by
        rw [hdata1, hcap]
        simp only [ETHERNET_MTU, sizeof_ip_hdr_t]
        omega
      simp only []
      rw [if_neg hg]
      obtain ⟨s2, dg, h2, htab2, hd2, hmem2, hfr2, hdg2, _⟩ := ip_fragment_out_hit now
        (s.assign buf { (s.deref buf) with
          len := ETHERNET_MTU - sizeof_ip_hdr_t
          data := (s.deref buf).data + (if off ≠ 0 then ETHERNET_MTU else 0) })
        buf ip protocol id
        ((if off ≠ 0 then off * (ETHERNET_MTU - sizeof_ip_hdr_t) / 8 else 0) % 65536) 1 mac
        (by simpa using hl)
        (by simp only [deref_assign_same, hdata1]; omega)
      obtain ⟨hcap2, _, _⟩ := ip_fragment_out_window _ _ _ _ _ _ _ _ _ h2
        (Or.inr ⟨mac, by simpa using hl⟩)
      simp only [deref_assign_same] at hcap2
      simp only [h2]
      simp only [deref_assign_same, assign_frags, assign_arp_table, hdata1, buf_t.bytes]
        at htab2 hd2 hmem2 hfr2 hdg2
      obtain ⟨s3, fs, h3, hfr3, hmap3, hl3, hd3, hmem3, hcap3, hwin3⟩ :=
        ih (len - (ETHERNET_MTU - sizeof_ip_hdr_t)) (by simp; omega) (off + 1) s2
          (by rw [htab2]; exact hl)
          (by simp only [hd2]; simp; omega)
          (by
            intro i hi
            rw [hmem2 i (by omega)]
            exact hmem i (by omega))
          (by rw [hcap2]; exact hcap)
          (by simp only [ETHERNET_MTU, sizeof_ip_hdr_t]; omega)
      have hk : (len - 1) / 1480 = (len - 1480 - 1) / 1480 + 1 := by omega
      have e1 : len - (ETHERNET_MTU - sizeof_ip_hdr_t)
            - 1480 * ((len - (ETHERNET_MTU - sizeof_ip_hdr_t) - 1) / 1480)
          = len - 1480 * ((len - 1) / 1480) := by
        simp only [ETHERNET_MTU, sizeof_ip_hdr_t]; omega
      have e2 : off + 1 + (len - (ETHERNET_MTU - sizeof_ip_hdr_t) - 1) / 1480
          = off + (len - 1) / 1480 := by
        simp only [ETHERNET_MTU, sizeof_ip_hdr_t]; omega
      rw [e1, e2] at h3
      rw [e2] at hd3 hmem3
      rw [e1, e2] at hwin3
      refine ⟨s3, (⟨ip, protocol, id,
          (if off ≠ 0 then off * (ETHERNET_MTU - sizeof_ip_hdr_t) / 8 else 0) % 65536, 1,
          ETHERNET_MTU - sizeof_ip_hdr_t, dg⟩ : frag_call) :: fs, h3, ?_, ?_, hl3, hd3, hmem3,
        hcap3, hwin3⟩
      · rw [hfr3, hfr2]
        simp
      · rw [hk, List.range_succ_eq_map, List.map_cons, List.map_cons, hmap3]
        simp only [List.map_map]
        refine congrArg₂ _ ?_ ?_
        · simp only [hdg2, Nat.add_zero, ETHERNET_MTU, sizeof_ip_hdr_t]
          apply readBytes_congr
          intro i _
          exact hmem _ (by omega)
        · apply List.map_congr_left
          intro j _
          simp only [Function.comp]
          congr 2
          omega
    · have hcond : ¬ ETHERNET_MTU - sizeof_ip_hdr_t < len := by simpa using hlen
      rw [if_neg hcond]
      have hk : (len - 1) / 1480 = 0 := by omega
      refine ⟨s, [], ?_, by simp, by simp [hk], hl, ?_, ?_, hcap, ?_⟩
      · simp [hk]
      · simpa [hk] using hdata
      · simpa [hk] using hmem
      · simpa [hk] using hwin

theorem ip_out_hit_payloads (now : Nat) (s : Stack) (buf : BufId) (ip : ip_addr)
    (protocol : Nat) (mac : mac_addr) (hl : arp_lookup s.arp_table ip = some mac)
    (hroom : 34 ≤ (s.deref buf).data) (hlen : 1480 < (s.deref buf).len)
    (hwin : (s.deref buf).data + (s.deref buf).len ≤ (s.deref buf).cap) :
    ∃ s1 fs, ip_out now s buf ip protocol = some s1 ∧ s1.frags = s.frags ++ fs ∧
      fs.map (fun f => f.datagram.drop 20)
        = (List.range (((s.deref buf).len - 1) / 1480)).map
            (fun j => readBytes (s.deref buf).payload ((s.deref buf).data + 1466 * j) 1480)
          ++ [readBytes (s.deref buf).payload
                ((s.deref buf).data + 1466 * (((s.deref buf).len - 1) / 1480))
                ((s.deref buf).len - 1480 * (((s.deref buf).len - 1) / 1480))] := by
  unfold ip_out
  simp only [log_ip_out_deref]
  have hcond : ETHERNET_MTU - sizeof_ip_hdr_t < (s.deref buf).len := by simpa using hlen
  rw [if_pos hcond]
  obtain ⟨s2, fs, h2, hfr2, hmap2, hl2, hd2, hmem2, hcap2, hwin2⟩ :=
    ip_out_loop_hit now buf ip protocol s.id mac (s.deref buf).payload (s.deref buf).data
      (s.deref buf).cap hroom
      (s.deref buf).len 0 (s.log_ip_out ⟨(s.deref buf).bytes, ip, protocol⟩)
      (by simpa using hl) (by simp) (by intro i _; simp) (by simp) (by simpa using hwin)
  simp only [h2]
  have hk : 0 + ((s.deref buf).len - 1) / 1480 ≠ 0 := by omega
  have hd2a : (s2.deref buf).data
      + (if 0 + ((s.deref buf).len - 1) / 1480 ≠ 0 then ETHERNET_MTU else 0)
      = (s.deref buf).data + 1466 * (0 + ((s.deref buf).len - 1) / 1480) := by
    simpa using hd2
  have hg : ¬ (s2.deref buf).cap
      < (s2.deref buf).data
        + (if 0 + ((s.deref buf).len - 1) / 1480 ≠ 0 then ETHERNET_MTU else 0)
        + ((s.deref buf).len - 1480 * (((s.deref buf).len - 1) / 1480)) := by
    rw [hd2a, hcap2]
    omega
  rw [if_neg hg]
  obtain ⟨s3, dg, h3, _, _, _, hfr3, hdg3, _⟩ := ip_fragment_out_hit now
    (s2.assign buf { (s2.deref buf) with
      data := (s2.deref buf).data
        + (if 0 + ((s.deref buf).len - 1) / 1480 ≠ 0 then ETHERNET_MTU else 0)
      len := (s.deref buf).len - 1480 * (((s.deref buf).len - 1) / 1480) })
    buf ip protocol s.id
    (((0 + ((s.deref buf).len - 1) / 1480) * (ETHERNET_MTU - sizeof_ip_hdr_t) / 8) % 65536) 0
    mac (by simpa using hl2)
    (by simp only [deref_assign_same, hd2a]; omega)
  simp only [h3]
  simp only [deref_assign_same, assign_frags, hd2a, buf_t.bytes] at hfr3 hdg3
  refine ⟨_, fs ++ [(⟨ip, protocol, s.id,
    ((0 + ((s.deref buf).len - 1) / 1480) * (ETHERNET_MTU - sizeof_ip_hdr_t) / 8) % 65536, 0,
    (s.deref buf).len - 1480 * (((s.deref buf).len - 1) / 1480), dg⟩ : frag_call)], rfl, ?_, ?_⟩
  · simp only [hfr3, hfr2, List.append_assoc, log_ip_out_frags]
  · rw [List.map_append, hmap2]
    simp only [List.map_cons, List.map_nil, hdg3, Nat.zero_add]
    congr 2
    apply readBytes_congr
    intro i _
    exact hmem2 _ (by omega)

/-- C2 (evaluation at the failing input): a 3000-byte payload whose byte `i` is
`(100 + i) % 256`, sent to a destination that is resolved in the ARP table.  The call
returns with three fragments; the payload of the second is bytes 1466 .. 2945 of the
original payload, not bytes 1480 .. 2959, and the payload of the third is bytes
2932 .. 2971. -/
theorem ip_out_resolved_fragment_payload :
    ∃ s1 f0 f1 f2,
      ip_out 1000 (demo_stack demo_hit_table (demo_buf 100 3000)) .caller demo_ip 17 = some s1 ∧
      s1.frags = [f0, f1, f2] ∧
      f0.datagram.drop 20 = ((demo_buf 100 3000).bytes.drop 0).take 1480 ∧
      f1.datagram.drop 20 = ((demo_buf 100 3000).bytes.drop 1466).take 1480 ∧
      f1.datagram.drop 20 ≠ ((demo_buf 100 3000).bytes.drop 1480).take 1480 ∧
      f2.datagram.drop 20 = ((demo_buf 100 3000).bytes.drop 2932).take 40 := by
  obtain ⟨s1, fs, h1, hfr, hmap⟩ := ip_out_hit_payloads 1000
    (demo_stack demo_hit_table (demo_buf 100 3000)) .caller demo_ip 17 demo_mac
    (by decide) (by decide) (by decide) (by decide)
  have hk : (((demo_stack demo_hit_table (demo_buf 100 3000)).deref .caller).len - 1) / 1480
      = 2 := by decide
  rw [hk, show List.range 2 = [0, 1] from rfl] at hmap
  have hb : ∀ k n, ((demo_buf 100 3000).bytes.drop k).take n
      = readBytes demo_mem (100 + k) (min n (3000 - k)) := by
    intro k n
    simp only [buf_t.bytes, readBytes_drop, readBytes_take]
    rfl
  rcases fs with _ | ⟨f0, _ | ⟨f1, _ | ⟨f2, _ | ⟨f3, r⟩⟩⟩⟩ <;> simp at hmap
  obtain ⟨h0, h1a, h2⟩ := hmap
  refine ⟨s1, f0, f1, f2, h1, by simpa using hfr, ?_, ?_, ?_, ?_⟩
  · rw [h0, hb]; rfl
  · rw [h1a, hb]; rfl
  · rw [h1a, hb]
    intro h
    have h3 := congrArg (fun l => l.getD 0 0) h
    simp only [] at h3
    rw [readBytes_getD _ _ _ _ (by decide), readBytes_getD _ _ _ _ (by decide)] at h3
    revert h3
    decide
  · rw [h2, hb]; rfl

/-! ## `arp_update` on a full table -/

theorem arp_place_full (now : Nat) (ip : ip_addr) (mac : mac_addr) (st : arp_state_t)
    (t : List arp_entry_t) (h : ∀ e ∈ t, e.state = .ARP_VALID) :
    arp_place now ip mac st t = none := by
  induction t with
  | nil => rfl
  | cons e es ih =>
    have he := h e (List.mem_cons_self _ _)
    unfold arp_place
    simp [he, ih (fun e1 h1 => h e1 (List.mem_cons_of_mem _ h1))]

theorem arp_oldest_none (t : List arp_entry_t) (i now : Nat)
    (h : ∀ e ∈ t, now < e.timeout) : arp_oldest t i now none = (now, none) := by
  induction t generalizing i with
  | nil => rfl
  | cons e es ih =>
    have he := h e (List.mem_cons_self _ _)
    unfold arp_oldest
    rw [if_neg (by omega)]
    exact ih (i + 1) (fun e1 h1 => h e1 (List.mem_cons_of_mem _ h1))

theorem arp_sweep_of_fresh (now : Nat) (t : List arp_entry_t)
    (h : ∀ e ∈ t, now < e.timeout) : arp_sweep now t = t := by
  unfold arp_sweep
  conv_rhs => rw [← List.map_id t]
  apply List.map_congr_left
  intro e he
  have := h e he
  simp only [id]
  rw [if_neg (by omega)]

/-- On every full table (all entries valid and unexpired) the third loop of `arp_update`
assigns `j` nowhere, and the update is undefined. -/
theorem arp_update_full (now : Nat) (ip : ip_addr) (mac : mac_addr) (st : arp_state_t)
    (t : List arp_entry_t) (h : ∀ e ∈ t, e.state = .ARP_VALID ∧ now < e.timeout) :
    arp_update now ip mac st t = none := by
  unfold arp_update
  simp only [arp_sweep_of_fresh now t (fun e he => (h e he).2),
    arp_place_full now ip mac st t (fun e he => (h e he).1),
    arp_oldest_none t 0 now (fun e he => (h e he).2)]

/-- C3 (evaluation at the failing input): at time 1000, on a table of 16 valid entries
with timeouts 1016, 1015, .., 1001, no entry is selected for eviction: the third loop
leaves `temp = 1000` and `j` unassigned, and the update has no defined result. -/
theorem arp_update_full_table_undefined :
    arp_oldest (arp_sweep 1000 demo_full_table) 0 1000 none = (1000, none) ∧
    arp_update 1000 demo_ip demo_mac .ARP_VALID demo_full_table = none := by
  decide

/-! ## `arp_update` fills the first free slot -/

theorem arp_place_first_free (now : Nat) (ip : ip_addr) (mac : mac_addr) (st : arp_state_t) :
    ∀ (t : List arp_entry_t) (i : Nat), arp_first_free t = some i →
      ∃ e, t[i]? = some e ∧ e.state ≠ .ARP_VALID ∧ (∀ e1 ∈ t.take i, e1.state = .ARP_VALID) ∧
        arp_place now ip mac st t = some (t.set i ⟨st, arp_new_timeout now e.state, ip, mac⟩) := by
  intro t
  induction t with
  | nil => intro i h; cases h
  | cons e es ih =>
    intro i h
    unfold arp_first_free at h
    by_cases hv : e.state = .ARP_VALID
    · simp only [hv, ne_eq, not_true_eq_false, if_false] at h
      cases hf : arp_first_free es with
      | none => rw [hf] at h; cases h
      | some k =>
        rw [hf] at h
        simp only [Option.map_some', Option.some.injEq] at h
        subst h
        obtain ⟨e0, hget, hne, hbefore, hplace⟩ := ih k hf
        refine ⟨e0, by simpa using hget, hne, ?_, ?_⟩
        · intro e1 he1
          rw [List.take_succ_cons] at he1
          rcases List.mem_cons.mp he1 with rfl | h1
          · exact hv
          · exact hbefore e1 h1
        · unfold arp_place
          simp [hv, hplace]
    · simp only [ne_eq, hv, not_false_eq_true, if_true, Option.some.injEq] at h
      subst h
      refine ⟨e, by simp, hv, by simp, ?_⟩
      unfold arp_place arp_new_timeout
      by_cases hi : e.state = .ARP_INVALID
      · simp [hi]
      · have hp : e.state = .ARP_PENDING := by
          cases hs : e.state <;> simp_all
        simp [hp]

theorem arp_update_first_free (now : Nat) (ip : ip_addr) (mac : mac_addr) (st : arp_state_t)
    (t : List arp_entry_t) (i : Nat) (h : arp_first_free (arp_sweep now t) = some i) :
    ∃ e, (arp_sweep now t)[i]? = some e ∧ e.state ≠ .ARP_VALID ∧
      (∀ e1 ∈ (arp_sweep now t).take i, e1.state = .ARP_VALID) ∧
      arp_update now ip mac st t
        = some ((arp_sweep now t).set i ⟨st, arp_new_timeout now e.state, ip, mac⟩) := by
  obtain ⟨e, hget, hne, hbefore, hplace⟩ := arp_place_first_free now ip mac st _ i h
  refine ⟨e, hget, hne, hbefore, ?_⟩
  unfold arp_update
  simp only [hplace]

/-- C4 (counterexample): after `arp_init` at time 0, two ARP replies from 10.0.2.2
received at times 10 and 11 leave slots 0 and 1 both valid for 10.0.2.2; the table then
breaks the invariant of the specification. -/
theorem arp_table_duplicate_after_replies :
    (((arp_init 0 (demo_stack demo_empty_table (demo_buf 100 0))).bind (fun s1 =>
        (arp_in 10 (s1.receive (arp_wire ARP_REPLY demo_mac demo_ip net_if_mac net_if_ip))
          .rxbuf).bind (fun s2 =>
        arp_in 11 (s2.receive (arp_wire ARP_REPLY demo_mac demo_ip net_if_mac net_if_ip))
          .rxbuf))).map
      (fun s3 => (s3.arp_table.take 2, decide (NoDuplicateIp s3.arp_table))))
      = some ([⟨.ARP_VALID, 15, demo_ip, demo_mac⟩, ⟨.ARP_VALID, 311, demo_ip, demo_mac⟩],
          false) := by
  decide

/-- C4 (amended): `arp_update` does not look for an entry with the same IP.  When `i` is
the lowest-index slot that is invalid or pending after the sweep, the update returns the
swept table with slot `i` overwritten by the new entry and every other slot as the sweep
left it, whatever entries for `ip` those slots hold. -/
theorem arp_update_overwrites_first_free (now : Nat) (ip : ip_addr) (mac : mac_addr)
    (st : arp_state_t) (t : List arp_entry_t) (i : Nat)
    (h : arp_first_free (arp_sweep now t) = some i) :
    ∃ e t2, (arp_sweep now t)[i]? = some e ∧ arp_update now ip mac st t = some t2 ∧
      t2[i]? = some ⟨st, arp_new_timeout now e.state, ip, mac⟩ ∧
      (∀ j, j ≠ i → t2[j]? = (arp_sweep now t)[j]?) ∧ t2.length = t.length := by
  obtain ⟨e, hget, _, _, hup⟩ := arp_update_first_free now ip mac st t i h
  have hi : i < (arp_sweep now t).length := by
    rcases List.getElem?_eq_some_iff.mp hget with ⟨hlt, _⟩
    exact hlt
  refine ⟨e, _, hget, hup, ?_, ?_, ?_⟩
  · rw [List.getElem?_set_self hi]
  · intro j hj
    rw [List.getElem?_set_ne (Ne.symm hj)]
  · simp [arp_sweep]

/-- Witness of the amended C4: the table already holds a valid entry for 10.0.2.2 in
slot 0; the update for 10.0.2.2 fills slot 1. -/
theorem arp_update_overwrites_first_free_witness :
    arp_first_free (arp_sweep 1000 demo_hit_table) = some 1 ∧
    ∃ e t2, (arp_sweep 1000 demo_hit_table)[1]? = some e ∧
      arp_update 1000 demo_ip demo_mac2 .ARP_VALID demo_hit_table = some t2 ∧
      t2[1]? = some ⟨.ARP_VALID, arp_new_timeout 1000 e.state, demo_ip, demo_mac2⟩ ∧
      (∀ j, j ≠ 1 → t2[j]? = (arp_sweep 1000 demo_hit_table)[j]?) ∧
      t2.length = demo_hit_table.length :=
  ⟨by decide,
    arp_update_overwrites_first_free 1000 demo_ip demo_mac2 .ARP_VALID demo_hit_table 1
      (by decide)⟩

/-! ## Lookup after an update -/

theorem arp_lookup_set_first_free (ip : ip_addr) (mac : mac_addr) (tmo : Nat) :
    ∀ (t : List arp_entry_t) (i : Nat), arp_first_free t = some i →
      (∀ e ∈ t.take i, e.ip ≠ ip) →
      arp_lookup (t.set i ⟨.ARP_VALID, tmo, ip, mac⟩) ip = some mac := by
  intro t
  induction t with
  | nil => intro i h; cases h
  | cons e es ih =>
    intro i h hno
    cases i with
    | zero => simp [arp_lookup]
    | succ k =>
      unfold arp_first_free at h
      by_cases hv : e.state = .ARP_VALID
      · simp only [hv, ne_eq, not_true_eq_false, if_false] at h
        cases hf : arp_first_free es with
        | none => rw [hf] at h; cases h
        | some k1 =>
          rw [hf] at h
          simp only [Option.map_some', Option.some.injEq, Nat.add_right_cancel_iff] at h
          subst h
          have hne : e.ip ≠ ip := hno e (by simp)
          rw [List.set_cons_succ]
          unfold arp_lookup
          rw [if_neg (fun hc => hne hc.2)]
          exact ih k1 hf (fun e1 h1 => hno e1 (by
            rw [List.take_succ_cons]
            exact List.mem_cons_of_mem _ h1))
      · simp [hv] at h

theorem arp_sweep_ip (now : Nat) (t : List arp_entry_t) (e : arp_entry_t)
    (h : e ∈ arp_sweep now t) : ∃ e0 ∈ t, e.ip = e0.ip ∧ e.mac = e0.mac ∧
      (e.state = .ARP_VALID → e0.state = .ARP_VALID ∧ now < e0.timeout ∧ e = e0) := by
  unfold arp_sweep at h
  obtain ⟨e0, he0, rfl⟩ := List.mem_map.mp h
  refine ⟨e0, he0, ?_⟩
  by_cases hto : e0.timeout ≤ now
  · simp [hto]
  · simp only [hto, if_false, true_and]
    intro hv
    exact ⟨hv, by omega, trivial⟩

/-- C5 (counterexample): slot 0 holds an unexpired valid entry 10.0.2.2 ->
aa:bb:cc:dd:ee:ff and slot 1 is invalid; after `arp_update(10.0.2.2, 02:00:00:00:00:09,
Valid)` the lookup of 10.0.2.2 still returns aa:bb:cc:dd:ee:ff. -/
theorem arp_lookup_returns_old_mac :
    (arp_update 1000 demo_ip demo_mac2 .ARP_VALID demo_hit_table).bind
        (fun t => arp_lookup t demo_ip) = some demo_mac ∧
      demo_mac ≠ demo_mac2 ∧ HasFree 1000 demo_hit_table := by
  refine ⟨by decide, by decide, demo_invalid, by decide, Or.inl (by decide)⟩

/-- C5 (amended): when `i` is the lowest-index slot that is invalid or pending after the
sweep and none of the slots before it holds an entry for `ip`, then after
`arp_update(ip, mac, Valid)` the lookup of `ip` returns `mac`. -/
theorem arp_lookup_after_update (now : Nat) (ip : ip_addr) (mac : mac_addr)
    (t : List arp_entry_t) (i : Nat) (hfree : arp_first_free (arp_sweep now t) = some i)
    (hno : ∀ e ∈ t.take i, e.ip ≠ ip) :
    ∃ t2, arp_update now ip mac .ARP_VALID t = some t2 ∧ arp_lookup t2 ip = some mac := by
  obtain ⟨e, _, _, _, hup⟩ := arp_update_first_free now ip mac .ARP_VALID t i hfree
  refine ⟨_, hup, ?_⟩
  apply arp_lookup_set_first_free ip mac _ _ i hfree
  intro e1 he1
  have h1 : e1 ∈ arp_sweep now (t.take i) := by
    unfold arp_sweep at he1 ⊢
    rwa [← List.map_take] at he1
  obtain ⟨e0, he0, hip, _⟩ := arp_sweep_ip now _ e1 h1
  rw [hip]
  exact hno e0 he0

/-- Witness of the amended C5: an empty table. -/
theorem arp_lookup_after_update_witness :
    arp_first_free (arp_sweep 1000 demo_empty_table) = some 0 ∧
    (∀ e ∈ demo_empty_table.take 0, e.ip ≠ demo_ip) ∧
    ∃ t2, arp_update 1000 demo_ip demo_mac .ARP_VALID demo_empty_table = some t2 ∧
      arp_lookup t2 demo_ip = some demo_mac :=
  ⟨by decide, by decide,
    arp_lookup_after_update 1000 demo_ip demo_mac demo_empty_table 0 (by decide) (by decide)⟩

/-! ## Lookup and expiry -/

theorem arp_lookup_eq_none (t : List arp_entry_t) (ip : ip_addr)
    (h : ∀ e ∈ t, ¬ (e.state = .ARP_VALID ∧ e.ip = ip)) : arp_lookup t ip = none := by
  induction t with
  | nil => rfl
  | cons e es ih =>
    unfold arp_lookup
    rw [if_neg (h e (List.mem_cons_self _ _))]
    exact ih (fun e1 h1 => h e1 (List.mem_cons_of_mem _ h1))

theorem arp_place_mem (now : Nat) (ip : ip_addr) (mac : mac_addr) (st : arp_state_t) :
    ∀ (t t2 : List arp_entry_t), arp_place now ip mac st t = some t2 →
      ∀ e ∈ t2, e ∈ t ∨ (e.state = st ∧ e.ip = ip) := by
  intro t
  induction t with
  | nil => intro t2 h; cases h
  | cons e0 es ih =>
    intro t2 h e he
    unfold arp_place at h
    by_cases h1 : e0.state = .ARP_INVALID
    · simp only [h1, if_true, Option.some.injEq] at h
      subst h
      rcases List.mem_cons.mp he with rfl | hm
      · exact Or.inr ⟨rfl, rfl⟩
      · exact Or.inl (List.mem_cons_of_mem _ hm)
    · by_cases h2 : e0.state = .ARP_PENDING
      · simp only [h2, if_true, reduceCtorEq, if_false, Option.some.injEq] at h
        subst h
        rcases List.mem_cons.mp he with rfl | hm
        · exact Or.inr ⟨rfl, rfl⟩
        · exact Or.inl (List.mem_cons_of_mem _ hm)
      · simp only [h1, h2, if_false] at h
        cases hp : arp_place now ip mac st es with
        | none => rw [hp] at h; cases h
        | some es2 =>
          rw [hp] at h
          simp only [Option.map_some', Option.some.injEq] at h
          subst h
          rcases List.mem_cons.mp he with rfl | hm
          · exact Or.inl (List.mem_cons_self _ _)
          · rcases ih es2 hp e hm with h3 | h3
            · exact Or.inl (List.mem_cons_of_mem _ h3)
            · exact Or.inr h3

/-- C6 (counterexample): at time 1000 the only entry for 10.0.2.2 expired at time 500 and
no `arp_update` has run since; `arp_lookup` returns its MAC, and `arp_out` sends the
packet to that MAC in one frame, sends no ARP request and parks nothing. -/
theorem arp_lookup_returns_expired :
    (∀ e ∈ demo_stale_table, e.ip = demo_ip → e.timeout ≤ 1000) ∧
    arp_lookup demo_stale_table demo_ip = some demo_mac ∧
    (arp_out 1000 (demo_stack demo_stale_table (demo_buf 100 50)) .caller demo_ip
        NET_PROTOCOL_IP).map (fun s => (s.sent.map (fun f => f.take 14), s.arp_buf.valid))
      = some ([demo_mac.bytes ++ DRIVER_IF_MAC.bytes ++ [8, 0]], 0) := by
  decide

/-- C6 (amended): expiry is applied by the sweep of `arp_update`, not by `arp_lookup`.
If the table holds entries for `ip` and all of them have `timeout <= now`, then after an
`arp_update` at time `now` that does not itself write a valid entry for `ip`, the lookup
of `ip` finds nothing and `arp_out` for `ip` takes the miss branch (request, then park). -/
theorem arp_lookup_after_sweep (now : Nat) (ip ip2 : ip_addr) (mac2 : mac_addr)
    (st : arp_state_t) (t : List arp_entry_t) (hex : ∃ e ∈ t, e.ip = ip)
    (hall : ∀ e ∈ t, e.ip = ip → e.timeout ≤ now) (hne : ip2 ≠ ip ∨ st ≠ .ARP_VALID) :
    ∃ t2, arp_update now ip2 mac2 st t = some t2 ∧ arp_lookup t2 ip = none ∧
      ∀ (now2 : Nat) (s : Stack) (buf : BufId) (protocol : Nat), s.arp_table = t2 →
        arp_out now2 s buf ip protocol =
          match arp_req now2 s ip with
          | none => none
          | some s1 => some { s1 with
              arp_buf := { buf := s1.deref buf, ip := ip, protocol := protocol, valid := 1 } } := by
  have hfree : HasFree now t := by
    obtain ⟨e, he, hip⟩ := hex
    exact ⟨e, he, Or.inr (hall e he hip)⟩
  obtain ⟨t2, hup, hplace, _⟩ := arp_update_of_free now ip2 mac2 st t hfree
  have hlook : arp_lookup t2 ip = none := by
    apply arp_lookup_eq_none
    intro e he hc
    rcases arp_place_mem now ip2 mac2 st _ t2 hplace e he with hm | ⟨hs, hi⟩
    · obtain ⟨e0, he0, hip, _, hv⟩ := arp_sweep_ip now t e hm
      obtain ⟨_, hto, _⟩ := hv hc.1
      have := hall e0 he0 (by rw [← hip]; exact hc.2)
      omega
    · rcases hne with h1 | h1
      · exact h1 (by rw [← hi]; exact hc.2)
      · exact h1 (by rw [← hs]; exact hc.1)
  refine ⟨t2, hup, hlook, ?_⟩
  intro now2 s buf protocol hs
  unfold arp_out
  rw [hs, hlook]

/-- Witness of the amended C6: the stale table, swept by an update for another IP. -/
theorem arp_lookup_after_sweep_witness :
    (∃ e ∈ demo_stale_table, e.ip = demo_ip) ∧
    (∀ e ∈ demo_stale_table, e.ip = demo_ip → e.timeout ≤ 1000) ∧
    ∃ t2, arp_update 1000 net_if_ip demo_mac2 .ARP_VALID demo_stale_table = some t2 ∧
      arp_lookup t2 demo_ip = none ∧
      ∀ (now2 : Nat) (s : Stack) (buf : BufId) (protocol : Nat), s.arp_table = t2 →
        arp_out now2 s buf demo_ip protocol =
          match arp_req now2 s demo_ip with
          | none => none
          | some s1 => some { s1 with
              arp_buf := { buf := s1.deref buf, ip := demo_ip, protocol := protocol,
                           valid := 1 } } :=
  ⟨by decide, by decide,
    arp_lookup_after_sweep 1000 demo_ip net_if_ip demo_mac2 .ARP_VALID demo_stale_table
      (by decide) (by decide) (Or.inl (by decide))⟩

/-! ## The pending-packet slot -/

/-- On a miss with a buffer other than `txbuf`, the slot receives the buffer as the
caller passed it. -/
theorem arp_out_miss_parks (now : Nat) (s : Stack) (buf : BufId) (ip : ip_addr)
    (protocol : Nat) (hbuf : buf ≠ .txbuf) (hl : arp_lookup s.arp_table ip = none)
    (hcap : 42 ≤ s.txbuf.cap) (hfree : HasFree now s.arp_table) :
    ∃ s1, arp_out now s buf ip protocol = some s1 ∧
      s1.arp_buf = ⟨s.deref buf, ip, protocol, 1⟩ ∧
      s1.sent = s.sent ++ [net_board_mac.bytes ++ DRIVER_IF_MAC.bytes
        ++ le16 (swap16 NET_PROTOCOL_ARP)
        ++ arp_pkt_bytes (swap16 ARP_REQUEST) ⟨0, 0, 0, 0, 0, 0⟩ ip] := by
  obtain ⟨t2, hup, _, _⟩ := arp_update_of_free now ip net_board_mac .ARP_PENDING s.arp_table hfree
  obtain ⟨s1, hreq, _, hab, hrx, hca, _, _, _, _, hsent, _⟩ :=
    arp_req_of_update now s ip t2 hcap hup
  unfold arp_out
  simp only [hl, hreq]
  refine ⟨_, rfl, ?_, hsent⟩
  have hd : s1.deref buf = s.deref buf := by
    cases buf with
    | txbuf => exact absurd rfl hbuf
    | rxbuf => exact hrx
    | arp_buf => simp only [Stack.deref, hab]
    | caller => exact hca
  simp only [hd]

/-- C7 (evaluation at the failing input): `arp_out(&txbuf, 10.0.2.2, IP)` on an empty
table, with a 100-byte packet in `txbuf`.  One frame is sent, the ARP request; the slot
is marked valid with the IP and the protocol, but the packet it holds is the 42-byte
request frame that `arp_req` built in `txbuf`, not the 100 bytes the caller passed.  The
same packet passed in a buffer of the caller is parked unchanged. -/
theorem arp_out_txbuf_parks_request :
    (demo_tx_stack.deref .txbuf).len = 100 ∧
    (arp_out 1000 demo_tx_stack .txbuf demo_ip NET_PROTOCOL_IP).map
        (fun s => (s.sent, s.arp_buf.valid, s.arp_buf.ip, s.arp_buf.protocol,
          s.arp_buf.buf.len, s.arp_buf.buf.bytes))
      = some ([demo_request_frame], 1, demo_ip, 0x0800, 42, demo_request_frame) ∧
    (arp_out 1000 (demo_stack demo_empty_table (demo_buf 4000 100)) .caller demo_ip
        NET_PROTOCOL_IP).map
        (fun s => (s.sent, s.arp_buf.valid, s.arp_buf.ip, s.arp_buf.protocol,
          s.arp_buf.buf.len, decide (s.arp_buf.buf.bytes = (demo_buf 4000 100).bytes)))
      = some ([demo_request_frame], 1, demo_ip, 0x0800, 100, true) := by
  refine ⟨by decide, ?_, ?_⟩ <;> decide

/-! ## Frames and inbound ARP packets -/

theorem ethernet_frame_bytes (b : buf_t) (hdr : List Nat) (h14 : hdr.length = 14)
    (hroom : 14 ≤ b.data) :
    readBytes (writeBytes b.payload (b.data - 14) hdr) (b.data - 14) (b.len + 14)
      = hdr ++ b.bytes := by
  rw [show b.len + 14 = 14 + b.len by omega, readBytes_append]
  congr 1
  · conv_lhs => rw [← h14]
    exact readBytes_writeBytes_self _ _ _
  · rw [readBytes_writeBytes_disjoint _ _ _ _ _ (by omega),
      show b.data - 14 + 14 = b.data by omega]
    rfl

theorem ethernet_out_sent (s : Stack) (buf : BufId) (mac : mac_addr) (protocol : Nat)
    (hroom : 14 ≤ (s.deref buf).data) :
    ∃ s1, ethernet_out s buf mac protocol = some s1 ∧
      s1.sent = s.sent ++ [mac.bytes ++ DRIVER_IF_MAC.bytes ++ le16 (swap16 protocol)
        ++ (s.deref buf).bytes] ∧
      s1.arp_table = s.arp_table ∧ s1.arp_buf.valid = s.arp_buf.valid ∧
      s1.arp_buf.ip = s.arp_buf.ip ∧ s1.arp_buf.protocol = s.arp_buf.protocol ∧
      s1.frags = s.frags ∧ s1.ipouts = s.ipouts ∧ s1.upcalls = s.upcalls ∧ s1.id = s.id := by
  rw [ethernet_out_of_room s buf mac protocol hroom]
  refine ⟨_, rfl, ?_, by simp, ?_, ?_, ?_, by simp, by simp, by simp, by simp⟩
  · simp only [driver_send_sent, deref_assign_same, assign_sent, buf_t.bytes]
    rw [ethernet_frame_bytes (s.deref buf) _ (by simp [le16, mac_addr.bytes]) hroom]
    rfl
  · cases buf <;> rfl
  · cases buf <;> rfl
  · cases buf <;> rfl

theorem swap16_lt (x : Nat) : swap16 x < 65536 := by
  unfold swap16
  omega

theorem get16_of_bytes (m : Nat → Nat) (a v : Nat) (h0 : m a = v % 256)
    (h1 : m (a + 1) = v / 256 % 256) (hv : v < 65536) : get16 m a = v := by
  unfold get16
  rw [h0, h1]
  omega

theorem holds_arp_fields (b : buf_t) (opcode : Nat) (smac : mac_addr) (sip : ip_addr)
    (tmac : mac_addr) (tip : ip_addr) (h : holds_arp b opcode smac sip tmac tip) :
    get16 b.payload b.data = swap16 ARP_HW_ETHER ∧
    get16 b.payload (b.data + 2) = swap16 NET_PROTOCOL_IP ∧
    b.payload (b.data + 4) = 6 ∧ b.payload (b.data + 5) = 4 ∧
    get16 b.payload (b.data + 6) = swap16 opcode ∧
    read_mac b.payload (b.data + 8) = smac ∧ read_ip b.payload (b.data + 14) = sip ∧
    read_mac b.payload (b.data + 18) = tmac ∧ read_ip b.payload (b.data + 24) = tip := by
  have key : ∀ k, k < 28 →
      b.payload (b.data + k) = (arp_wire opcode smac sip tmac tip).getD k 0 := by
    intro k hk
    rw [← readBytes_getD b.payload b.data 28 k hk, h]
  have k0 := key 0 (by decide)
  have k1 := key 1 (by decide)
  have k2 := key 2 (by decide)
  have k3 := key 3 (by decide)
  have k4 := key 4 (by decide)
  have k5 := key 5 (by decide)
  have k6 := key 6 (by decide)
  have k7 := key 7 (by decide)
  have k8 := key 8 (by decide)
  have k9 := key 9 (by decide)
  have k10 := key 10 (by decide)
  have k11 := key 11 (by decide)
  have k12 := key 12 (by decide)
  have k13 := key 13 (by decide)
  have k14 := key 14 (by decide)
  have k15 := key 15 (by decide)
  have k16 := key 16 (by decide)
  have k17 := key 17 (by decide)
  have k18 := key 18 (by decide)
  have k19 := key 19 (by decide)
  have k20 := key 20 (by decide)
  have k21 := key 21 (by decide)
  have k22 := key 22 (by decide)
  have k23 := key 23 (by decide)
  have k24 := key 24 (by decide)
  have k25 := key 25 (by decide)
  have k26 := key 26 (by decide)
  have k27 := key 27 (by decide)
  simp only [arp_wire, le16, mac_addr.bytes, ip_addr.bytes, List.cons_append, List.nil_append,
    List.getD_cons_zero, List.getD_cons_succ, Nat.add_zero] at k0 k1 k2 k3 k4 k5 k6 k7 k8 k9
  simp only [arp_wire, le16, mac_addr.bytes, ip_addr.bytes, List.cons_append, List.nil_append,
    List.getD_cons_zero, List.getD_cons_succ] at k10 k11 k12 k13 k14 k15 k16 k17 k18 k19
  simp only [arp_wire, le16, mac_addr.bytes, ip_addr.bytes, List.cons_append, List.nil_append,
    List.getD_cons_zero, List.getD_cons_succ] at k20 k21 k22 k23 k24 k25 k26 k27
  refine ⟨?_, ?_, k4, k5, ?_, ?_, ?_, ?_, ?_⟩
  · exact get16_of_bytes _ _ _ k0 k1 (swap16_lt _)
  · exact get16_of_bytes _ _ _ k2 k3 (swap16_lt _)
  · exact get16_of_bytes _ _ _ k6 k7 (swap16_lt _)
  · simp only [read_mac, Nat.add_assoc, Nat.reduceAdd, k8, k9, k10, k11, k12, k13]
  · simp only [read_ip, Nat.add_assoc, Nat.reduceAdd, k14, k15, k16, k17]
  · simp only [read_mac, Nat.add_assoc, Nat.reduceAdd, k18, k19, k20, k21, k22, k23]
  · simp only [read_ip, Nat.add_assoc, Nat.reduceAdd, k24, k25, k26, k27]

/-! ## An ARP reply for the parked packet -/

theorem arp_first_free_of_mem (t : List arp_entry_t) (h : ∃ e ∈ t, e.state ≠ .ARP_VALID) :
    ∃ i, arp_first_free t = some i := by
  induction t with
  | nil => obtain ⟨e, he, _⟩ := h; cases he
  | cons e es ih =>
    unfold arp_first_free
    by_cases hv : e.state = .ARP_VALID
    · have h3 : ∃ e1 ∈ es, e1.state ≠ .ARP_VALID := by
        obtain ⟨e1, he1, hne⟩ := h
        rcases List.mem_cons.mp he1 with rfl | hmem
        · exact absurd hv hne
        · exact ⟨e1, hmem, hne⟩
      obtain ⟨i, hi⟩ := ih h3
      exact ⟨i + 1, by simp [hv, hi]⟩
    · exact ⟨0, by simp [hv]⟩

theorem arp_lookup_none_mem (t : List arp_entry_t) (ip : ip_addr)
    (h : arp_lookup t ip = none) : ∀ e ∈ t, ¬ (e.state = .ARP_VALID ∧ e.ip = ip) := by
  induction t with
  | nil => intro e he; cases he
  | cons e0 es ih =>
    intro e he
    unfold arp_lookup at h
    by_cases hc : e0.state = .ARP_VALID ∧ e0.ip = ip
    · rw [if_pos hc] at h; cases h
    · rw [if_neg hc] at h
      rcases List.mem_cons.mp he with rfl | hm
      · exact hc
      · exact ih h e hm

/-- C8 (counterexample): slot 0 holds a valid entry for 10.0.2.3 that expires at time
1001.  At time 1000 `arp_out` for 10.0.2.2 misses: slot 1 becomes the pending entry for
10.0.2.2 and the packet is parked.  The reply from 10.0.2.2 (aa:bb:cc:dd:ee:ff) arrives
at time 1002: the sweep frees slot 0, the valid entry is written there, and slot 1 is
still the pending entry for 10.0.2.2 with the broadcast MAC.  The slot is cleared and the
parked packet is sent. -/
theorem arp_in_reply_keeps_pending_entry :
    (arp_out 1000 (demo_stack demo_short_table (demo_buf 100 50)) .caller demo_ip
        NET_PROTOCOL_IP).map (fun s => (s.arp_table.take 2, s.arp_buf.valid, s.arp_buf.ip))
      = some ([⟨.ARP_VALID, 1001, ⟨10, 0, 2, 3⟩, demo_mac2⟩,
          ⟨.ARP_PENDING, 1300, demo_ip, net_board_mac⟩], 1, demo_ip) ∧
    ((arp_out 1000 (demo_stack demo_short_table (demo_buf 100 50)) .caller demo_ip
        NET_PROTOCOL_IP).bind (fun s =>
      arp_in 1002 (s.receive (arp_wire ARP_REPLY demo_mac demo_ip net_if_mac net_if_ip))
        .rxbuf)).map (fun s => (s.arp_table.take 2, s.arp_buf.valid, s.sent.length))
      = some ([⟨.ARP_VALID, 1302, demo_ip, demo_mac⟩,
          ⟨.ARP_PENDING, 1300, demo_ip, net_board_mac⟩], 0, 2) := by
  refine ⟨?_, ?_⟩ <;> decide

/-- C8 (amended): the pending-packet slot holds a packet for `X`, the table holds an
unexpired pending entry for `X` and no valid entry for `X`, and a well-formed ARP reply
with sender IP `X` and sender MAC `M` arrives.  Then `arp_in` writes a valid entry for
`X` with MAC `M` into the lowest-index slot that is invalid or pending after the sweep,
the lookup of `X` returns `M`, the slot is cleared, and exactly one frame is sent: the
parked packet behind an Ethernet header with destination `M`, the host MAC as source and
the stored protocol as ethertype. -/
theorem arp_in_reply_flushes (now : Nat) (s : Stack) (buf : BufId) (X : ip_addr)
    (M tmac : mac_addr) (tip : ip_addr)
    (hpkt : holds_arp (s.deref buf) ARP_REPLY M X tmac tip)
    (hvalid : s.arp_buf.valid ≠ 0) (hip : s.arp_buf.ip = X)
    (hmiss : arp_lookup s.arp_table X = none)
    (hpend : ∃ e ∈ s.arp_table, e.state = .ARP_PENDING ∧ e.ip = X ∧ now < e.timeout)
    (hroom : 14 ≤ s.arp_buf.buf.data) :
    ∃ i e s1, arp_first_free (arp_sweep now s.arp_table) = some i ∧
      (arp_sweep now s.arp_table)[i]? = some e ∧ e.state ≠ .ARP_VALID ∧
      arp_in now s buf = some s1 ∧
      s1.arp_table = (arp_sweep now s.arp_table).set i
        ⟨.ARP_VALID, arp_new_timeout now e.state, X, M⟩ ∧
      arp_lookup s1.arp_table X = some M ∧ s1.arp_buf.valid = 0 ∧
      s1.sent = s.sent ++ [M.bytes ++ DRIVER_IF_MAC.bytes ++ le16 (swap16 s.arp_buf.protocol)
        ++ s.arp_buf.buf.bytes] := by
  obtain ⟨f1, f2, f3, f4, f5, f6, f7, _, _⟩ :=
    holds_arp_fields (s.deref buf) ARP_REPLY M X tmac tip hpkt
  have hsw : ∃ e ∈ arp_sweep now s.arp_table, e.state ≠ .ARP_VALID := by
    obtain ⟨e, he, hp, _, hto⟩ := hpend
    refine ⟨e, ?_, by rw [hp]; decide⟩
    unfold arp_sweep
    exact List.mem_map.mpr ⟨e, he, by rw [if_neg (by omega)]⟩
  obtain ⟨i, hi⟩ := arp_first_free_of_mem _ hsw
  obtain ⟨e, hget, hne, hbefore, hup⟩ :=
    arp_update_first_free now X M .ARP_VALID s.arp_table i hi
  have hlook : arp_lookup ((arp_sweep now s.arp_table).set i
      ⟨.ARP_VALID, arp_new_timeout now e.state, X, M⟩) X = some M := by
    apply arp_lookup_set_first_free X M _ _ i hi
    intro e1 he1 hc
    have hv := hbefore e1 he1
    obtain ⟨e0, he0, _, _, hv0⟩ := arp_sweep_ip now _ e1 (List.mem_of_mem_take he1)
    obtain ⟨hs0, _, heq⟩ := hv0 hv
    exact arp_lookup_none_mem _ _ hmiss e0 he0 ⟨hs0, by rw [← heq]; exact hc⟩
  obtain ⟨s1, hout, hsent, htab, hval, _⟩ := ethernet_out_sent
    { s with
      arp_table := (arp_sweep now s.arp_table).set i
        ⟨.ARP_VALID, arp_new_timeout now e.state, X, M⟩
      arp_buf := { s.arp_buf with valid := 0 } }
    .arp_buf M s.arp_buf.protocol hroom
  refine ⟨i, e, s1, hi, hget, hne, ?_, htab, ?_, hval, hsent⟩
  · unfold arp_in
    simp only [f1, f2, f3, f4, f5, f6, f7, hup]
    rw [if_neg (by decide)]
    have hlook1 : arp_lookup ((arp_sweep now s.arp_table).set i
        ⟨.ARP_VALID, arp_new_timeout now e.state, X, M⟩) s.arp_buf.ip = some M := by
      rw [hip]; exact hlook
    simp only [hlook1]
    rw [if_pos hvalid]
    exact hout
  · rw [htab]
    exact hlook

/-- Witness of the amended C8: X = 10.0.2.2, M = aa:bb:cc:dd:ee:ff, the pending entry in
slot 0 of an otherwise empty table. -/
theorem arp_in_reply_flushes_witness :
    holds_arp (demo_pending_stack.deref .rxbuf) ARP_REPLY demo_mac demo_ip net_if_mac net_if_ip ∧
    demo_pending_stack.arp_buf.valid ≠ 0 ∧ demo_pending_stack.arp_buf.ip = demo_ip ∧
    arp_lookup demo_pending_stack.arp_table demo_ip = none ∧
    ∃ i e s1, arp_first_free (arp_sweep 1003 demo_pending_stack.arp_table) = some i ∧
      (arp_sweep 1003 demo_pending_stack.arp_table)[i]? = some e ∧ e.state ≠ .ARP_VALID ∧
      arp_in 1003 demo_pending_stack .rxbuf = some s1 ∧
      s1.arp_table = (arp_sweep 1003 demo_pending_stack.arp_table).set i
        ⟨.ARP_VALID, arp_new_timeout 1003 e.state, demo_ip, demo_mac⟩ ∧
      arp_lookup s1.arp_table demo_ip = some demo_mac ∧ s1.arp_buf.valid = 0 ∧
      s1.sent = demo_pending_stack.sent ++ [demo_mac.bytes ++ DRIVER_IF_MAC.bytes
        ++ le16 (swap16 demo_pending_stack.arp_buf.protocol)
        ++ demo_pending_stack.arp_buf.buf.bytes] :=
  ⟨by decide, by decide, by decide, by decide,
    arp_in_reply_flushes 1003 demo_pending_stack .rxbuf demo_ip demo_mac net_if_mac net_if_ip
      (by decide) (by decide) (by decide) (by decide)
      ⟨⟨.ARP_PENDING, 1300, demo_ip, net_board_mac⟩, by decide, by decide, by decide, by decide⟩
      (by decide)⟩

/-! ## Inbound IP datagrams -/

theorem readBytes_patch (m : Nat → Nat) (a k n : Nat) (l : List Nat)
    (h : k + l.length ≤ n) :
    readBytes (writeBytes m (a + k) l) a n
      = (readBytes m a n).take k ++ l ++ (readBytes m a n).drop (k + l.length) := by
  have hn : n = k + (l.length + (n - (k + l.length))) := by omega
  conv_lhs => rw [hn, readBytes_append, readBytes_append]
  rw [readBytes_writeBytes_disjoint _ _ _ _ _ (Or.inl (Nat.le_refl _)),
    readBytes_writeBytes_self,
    readBytes_writeBytes_disjoint _ _ _ _ _ (Or.inr (Nat.le_refl _)),
    readBytes_take, readBytes_drop, Nat.min_eq_left (by omega), List.append_assoc,
    Nat.add_assoc]

theorem checksum_restore (m : Nat → Nat) (a : Nat) (h0 : m a < 256) (h1 : m (a + 1) < 256) :
    writeBytes (writeBytes m a (le16 0)) a (le16 (get16 m a)) = m := by
  funext i
  unfold writeBytes get16 le16
  simp only [List.length_cons, List.length_nil]
  by_cases hi : a ≤ i ∧ i < a + (0 + 1 + 1)
  · rw [if_pos hi]
    have hcase : i = a ∨ i = a + 1 := by omega
    rcases hcase with rfl | rfl
    · simp only [Nat.sub_self, List.getD_cons_zero]
      omega
    · simp only [Nat.add_sub_cancel_left, List.getD_cons_succ, List.getD_cons_zero]
      omega
  · rw [if_neg hi, if_neg hi]

theorem assign_deref_self (s : Stack) (buf : BufId) : s.assign buf (s.deref buf) = s := by
  cases buf <;> rfl

theorem ip_hdr_zeroed_bytes (b : buf_t) (hlen : 20 ≤ b.len) :
    readBytes (writeBytes b.payload (b.data + 10) (le16 0)) b.data 20 = ip_hdr_zeroed b.bytes := by
  rw [readBytes_patch _ _ _ _ _ (by simp [le16])]
  unfold ip_hdr_zeroed buf_t.bytes
  simp only [readBytes_take, Nat.min_eq_left hlen, Nat.min_eq_left (show 10 ≤ b.len by omega),
    Nat.min_eq_left (show 10 ≤ 20 by omega)]
  rfl

theorem bytes_getD (b : buf_t) (k : Nat) (h : k < b.len) :
    b.bytes.getD k 0 = b.payload (b.data + k) :=
  readBytes_getD _ _ _ _ h

theorem bytes_dest (b : buf_t) (hlen : 20 ≤ b.len) :
    (b.bytes.drop 16).take 4 = (read_ip b.payload (b.data + 16)).bytes := by
  unfold buf_t.bytes
  rw [readBytes_drop, readBytes_take, Nat.min_eq_left (by omega)]
  simp [readBytes, read_ip, ip_addr.bytes, List.range_succ, Nat.add_assoc]

theorem ip_addr_bytes_inj (x y : ip_addr) (h : x.bytes = y.bytes) : x = y := by
  cases x; cases y
  simp only [ip_addr.bytes, List.cons.injEq, and_true] at h
  obtain ⟨h0, h1, h2, h3⟩ := h
  subst h0 h1 h2 h3
  rfl

/-- The checks of `ip_in` are the acceptance condition of the specification. -/
theorem ip_in_eq (now : Nat) (s : Stack) (buf : BufId) (hlen : 20 ≤ (s.deref buf).len)
    (h10 : (s.deref buf).payload ((s.deref buf).data + 10) < 256)
    (h11 : (s.deref buf).payload ((s.deref buf).data + 10 + 1) < 256) :
    ip_in now s buf =
      if ip_accepts (s.deref buf).bytes then ip_in_switch now s buf (s.deref buf).data
      else some s := by
  have hrest := checksum_restore (s.deref buf).payload ((s.deref buf).data + 10) h10 h11
  have hself : s.assign buf { (s.deref buf) with payload := (s.deref buf).payload } = s :=
    assign_deref_self s buf
  have e0 : (s.deref buf).bytes.getD 0 0 = (s.deref buf).payload (s.deref buf).data := by
    rw [bytes_getD _ _ (by omega)]; rfl
  have e10 : (s.deref buf).bytes.getD 10 0
      = (s.deref buf).payload ((s.deref buf).data + 10) := bytes_getD _ _ (by omega)
  have e11 : (s.deref buf).bytes.getD 11 0
      = (s.deref buf).payload ((s.deref buf).data + 10 + 1) := bytes_getD _ _ (by omega)
  unfold ip_in
  simp only [hrest, hself, sizeof_ip_hdr_t, IP_HDR_LEN_PER_BYTE, IP_VERSION_4,
    ip_hdr_zeroed_bytes _ hlen]
  unfold ip_accepts
  rw [e0, e10, e11, bytes_dest _ hlen]
  have hsw := swap16_lt (get16 (s.deref buf).payload ((s.deref buf).data + 2))
  by_cases hs : (s.deref buf).payload (s.deref buf).data % 16 = 5 ∧
      (s.deref buf).payload (s.deref buf).data / 16 % 16 = 4
  · rw [if_neg (by omega)]
    by_cases hc : get16 (s.deref buf).payload ((s.deref buf).data + 10)
        = checksum16 (ip_hdr_zeroed (s.deref buf).bytes)
    · rw [if_neg (by rw [hc]; exact fun h => h rfl)]
      by_cases hd : read_ip (s.deref buf).payload ((s.deref buf).data + 16) = net_if_ip
      · rw [if_neg (fun h => h hd), if_pos ⟨hs.1, hs.2, hc, by rw [hd]⟩]
      · rw [if_pos hd, if_neg (fun h => hd (ip_addr_bytes_inj _ _ h.2.2.2))]
    · rw [if_pos (fun h => hc h.symm), if_neg (fun h => hc h.2.2.1)]
  · rw [if_pos (by omega), if_neg (fun h => hs ⟨h.1, h.2.1⟩)]

theorem ip_hdr_zeroed_set (d : List Nat) (k x : Nat) (hk : k = 10 ∨ k = 11) :
    ip_hdr_zeroed (d.set k x) = ip_hdr_zeroed d := by
  unfold ip_hdr_zeroed
  rw [List.set_take, List.set_take, List.drop_set_of_lt _ _ (by omega),
    List.set_eq_of_length_le (by simp; omega)]

theorem ip_accepts_corrupt (d : List Nat) (k x : Nat) (hacc : ip_accepts d)
    (hlen : 20 ≤ d.length) (hk : k = 10 ∨ k = 11) (hx : x < 256) (hd : d.getD k 0 < 256)
    (hne : x ≠ d.getD k 0) : ¬ ip_accepts (d.set k x) := by
  intro h2
  have h3 := h2.2.2.1
  have h4 := hacc.2.2.1
  rw [ip_hdr_zeroed_set d k x hk, ← h4] at h3
  rcases hk with rfl | rfl
  · simp only [List.getD_eq_getElem?_getD, List.getElem?_set_self (show 10 < d.length by omega),
      List.getElem?_set_ne (show 10 ≠ 11 by decide), Option.getD_some] at h3 hd hne
    omega
  · simp only [List.getD_eq_getElem?_getD, List.getElem?_set_self (show 11 < d.length by omega),
      List.getElem?_set_ne (show 11 ≠ 10 by decide), Option.getD_some] at h3 hd hne
    omega

/-- The dispatch of `ip_in` makes exactly one of its three calls. -/
theorem ip_in_switch_cases (now : Nat) (s : Stack) (buf : BufId) (a : Nat)
    (hlen : 20 ≤ (s.deref buf).len) :
    (∃ b1 src, buf_remove_header (s.deref buf) sizeof_ip_hdr_t = some b1 ∧
      ip_in_switch now s buf a
        = icmp_in now ((s.assign buf b1).log_upcall (.icmp_in b1.bytes src)) buf src) ∨
    (∃ b1 src, buf_remove_header (s.deref buf) sizeof_ip_hdr_t = some b1 ∧
      ip_in_switch now s buf a
        = udp_in ((s.assign buf b1).log_upcall (.udp_in b1.bytes src)) buf src) ∨
    (∃ src, ip_in_switch now s buf a
        = icmp_unreachable now
            (s.log_upcall
              (.icmp_unreachable (s.deref buf).bytes src ICMP_CODE_PROTOCOL_UNREACH))
            buf src ICMP_CODE_PROTOCOL_UNREACH) := by
  have hb1 : buf_remove_header (s.deref buf) sizeof_ip_hdr_t
      = some { (s.deref buf) with
          data := (s.deref buf).data + 20, len := (s.deref buf).len - 20 } := by
    unfold buf_remove_header
    simp only [sizeof_ip_hdr_t]
    rw [if_pos (by omega)]
  unfold ip_in_switch
  simp only [hb1]
  by_cases h1 : (s.deref buf).payload (a + 9) = NET_PROTOCOL_ICMP
  · rw [if_pos h1]
    exact Or.inl ⟨_, _, rfl, rfl⟩
  · rw [if_neg h1]
    by_cases h2 : (s.deref buf).payload (a + 9) = NET_PROTOCOL_UDP
    · rw [if_pos h2]
      exact Or.inr (Or.inl ⟨_, _, rfl, rfl⟩)
    · rw [if_neg h2]
      exact Or.inr (Or.inr ⟨_, rfl⟩)

/-- C9: for an inbound datagram of at least 20 bytes (in a memory of bytes), `ip_in`
reaches its dispatch on the protocol field, which makes one call of `icmp_in`, `udp_in`
or `icmp_unreachable`, exactly when the header-length field is 5 words, the version is
4, the stored header checksum is `checksum16` of the header with the checksum field
zeroed, and the destination is the host IP; in every other case it returns with the
whole state unchanged: no upper-layer call, no frame, the same ARP table and pending
slot.  A datagram that differs from an accepted one in one byte of the checksum field is
dropped in this way. -/
theorem ip_in_accepts_iff (now : Nat) (s : Stack) (buf : BufId)
    (hlen : 20 ≤ (s.deref buf).len) (hbytes : ∀ i, (s.deref buf).payload i < 256) :
    (ip_accepts (s.deref buf).bytes →
      ip_in now s buf = ip_in_switch now s buf (s.deref buf).data ∧
      ((∃ b1 src, buf_remove_header (s.deref buf) sizeof_ip_hdr_t = some b1 ∧
          ip_in now s buf
            = icmp_in now ((s.assign buf b1).log_upcall (.icmp_in b1.bytes src)) buf src) ∨
        (∃ b1 src, buf_remove_header (s.deref buf) sizeof_ip_hdr_t = some b1 ∧
          ip_in now s buf
            = udp_in ((s.assign buf b1).log_upcall (.udp_in b1.bytes src)) buf src) ∨
        (∃ src, ip_in now s buf
            = icmp_unreachable now
                (s.log_upcall
                  (.icmp_unreachable (s.deref buf).bytes src ICMP_CODE_PROTOCOL_UNREACH))
                buf src ICMP_CODE_PROTOCOL_UNREACH))) ∧
    (¬ ip_accepts (s.deref buf).bytes → ip_in now s buf = some s) ∧
    (∀ (s2 : Stack) (k x : Nat), ip_accepts (s.deref buf).bytes → (k = 10 ∨ k = 11) →
      x < 256 → x ≠ (s.deref buf).bytes.getD k 0 →
      (s2.deref buf).bytes = (s.deref buf).bytes.set k x →
      (∀ i, (s2.deref buf).payload i < 256) → ip_in now s2 buf = some s2) := by
  have heq := ip_in_eq now s buf hlen (hbytes _) (hbytes _)
  refine ⟨fun h => ?_, fun h => by rw [heq, if_neg h], ?_⟩
  · rw [heq, if_pos h]
    exact ⟨rfl, ip_in_switch_cases now s buf _ hlen⟩
  intro s2 k x hacc hk hx hne h2 hb2
  have hl : (s.deref buf).bytes.length = (s.deref buf).len := by simp [buf_t.bytes]
  have hl2 : (s2.deref buf).len = (s.deref buf).len := by
    have := congrArg List.length h2
    simpa [buf_t.bytes] using this
  have hd : (s.deref buf).bytes.getD k 0 < 256 := by
    rw [bytes_getD _ _ (by omega)]
    exact hbytes _
  rw [ip_in_eq now s2 buf (by omega) (hb2 _) (hb2 _), h2,
    if_neg (ip_accepts_corrupt _ k x hacc (by omega) hk hx hd hne)]

/-! ## Datagrams built by `ip_fragment_out` -/

theorem checksum16_lt (l : List Nat) : checksum16 l < 65536 := by
  unfold checksum16
  simp only []
  omega

theorem ip_built_bytes (b : buf_t) (ip : ip_addr) (protocol id offset mf : Nat)
    (hroom : 20 ≤ b.data) :
    (ip_built b ip protocol id offset mf).bytes
      = ip_hdr_final (b.len + 20) ip protocol id offset mf ++ b.bytes := by
  unfold ip_built ip_fill_header buf_t.bytes
  simp only [sizeof_ip_hdr_t]
  rw [show b.len + 20 = 20 + b.len by omega, readBytes_append]
  congr 1
  · rw [readBytes_patch _ _ _ _ _ (by simp [le16])]
    have hself : readBytes (writeBytes b.payload (b.data - 20)
        (ip_hdr_bytes (20 + b.len) ip protocol id offset mf)) (b.data - 20) 20
        = ip_hdr_bytes (20 + b.len) ip protocol id offset mf := by
      conv_lhs => rw [← ip_hdr_bytes_length (20 + b.len) ip protocol id offset mf]
      exact readBytes_writeBytes_self _ _ _
    rw [hself]
    rfl
  · rw [show b.data - 20 + 20 = b.data by omega]
    apply readBytes_congr
    intro i _
    rw [writeBytes_outside _ _ _ _ (by simp [le16]; omega),
      writeBytes_outside _ _ _ _ (by rw [ip_hdr_bytes_length]; omega)]

theorem ip_hdr_final_zeroed (len : Nat) (ip : ip_addr) (protocol id offset mf : Nat)
    (P : List Nat) :
    ip_hdr_zeroed (ip_hdr_final len ip protocol id offset mf ++ P)
      = ip_hdr_bytes len ip protocol id offset mf := rfl

theorem ip_built_accepts (b : buf_t) (ip : ip_addr) (protocol id offset mf : Nat)
    (hroom : 20 ≤ b.data) :
    (ip_built b ip protocol id offset mf).bytes.getD 0 0 % 16 = 5 ∧
    (ip_built b ip protocol id offset mf).bytes.getD 0 0 / 16 % 16 = 4 ∧
    (ip_built b ip protocol id offset mf).bytes.getD 10 0 % 256
        + 256 * ((ip_built b ip protocol id offset mf).bytes.getD 11 0 % 256)
      = checksum16 (ip_hdr_zeroed (ip_built b ip protocol id offset mf).bytes) ∧
    ((ip_built b ip protocol id offset mf).bytes.drop 16).take 4 = ip.bytes ∧
    (ip_built b ip protocol id offset mf).bytes.getD 9 0 = protocol % 256 ∧
    ((ip_built b ip protocol id offset mf).bytes.drop 12).take 4 = net_if_ip.bytes ∧
    (ip_built b ip protocol id offset mf).bytes.drop 20 = b.bytes := by
  rw [ip_built_bytes b ip protocol id offset mf hroom]
  have h0 : (ip_hdr_final (b.len + 20) ip protocol id offset mf ++ b.bytes).getD 0 0
      = 5 + 16 * 4 := rfl
  refine ⟨by rw [h0], by rw [h0], ?_, rfl, rfl, rfl, rfl⟩
  rw [ip_hdr_final_zeroed]
  have hc := checksum16_lt (ip_hdr_bytes (b.len + 20) ip protocol id offset mf)
  show checksum16 (ip_hdr_bytes (b.len + 20) ip protocol id offset mf) % 256 % 256
      + 256 * (checksum16 (ip_hdr_bytes (b.len + 20) ip protocol id offset mf) / 256 % 256 % 256)
    = checksum16 (ip_hdr_bytes (b.len + 20) ip protocol id offset mf)
  omega

theorem ip_built_cksum_bytes (b : buf_t) (ip : ip_addr) (protocol id offset mf : Nat)
    (hroom : 20 ≤ b.data) :
    (ip_built b ip protocol id offset mf).bytes.getD 10 0 < 256 ∧
    (ip_built b ip protocol id offset mf).bytes.getD 11 0 < 256 := by
  rw [ip_built_bytes b ip protocol id offset mf hroom]
  have h10 : (ip_hdr_final (b.len + 20) ip protocol id offset mf ++ b.bytes).getD 10 0
      = checksum16 (ip_hdr_bytes (b.len + 20) ip protocol id offset mf) % 256 := rfl
  have h11 : (ip_hdr_final (b.len + 20) ip protocol id offset mf ++ b.bytes).getD 11 0
      = checksum16 (ip_hdr_bytes (b.len + 20) ip protocol id offset mf) / 256 % 256 := rfl
  rw [h10, h11]
  omega

theorem bytes_ip_at (b : buf_t) (k : Nat) (hlen : k + 4 ≤ b.len) :
    (b.bytes.drop k).take 4 = (read_ip b.payload (b.data + k)).bytes := by
  unfold buf_t.bytes
  rw [readBytes_drop, readBytes_take, Nat.min_eq_left (by omega)]
  simp [readBytes, read_ip, ip_addr.bytes, List.range_succ, Nat.add_assoc]

theorem log_upcall_upcalls (s : Stack) (c : upcall) :
    (s.log_upcall c).upcalls = s.upcalls ++ [c] := rfl

/-- C10: the buffer `ip_fragment_out` hands to `arp_out` is the datagram `ip_built`; in
whatever buffer its bytes are presented to `ip_in`, the structural check (header length 5
words, version 4) and the header checksum check pass; and when the destination is the
host IP, the datagram is accepted, and for protocol ICMP (resp. UDP) `icmp_in` (resp.
`udp_in`) is called with the source IP of the host and a buffer whose bytes are exactly
the payload bytes `ip_fragment_out` was given. -/
theorem ip_fragment_out_roundtrip (now : Nat) (s : Stack) (buf : BufId) (ip : ip_addr)
    (protocol id offset mf : Nat) (hroom : 20 ≤ (s.deref buf).data)
    (now2 : Nat) (s2 : Stack) (buf2 : BufId)
    (hpres : (s2.deref buf2).bytes = (ip_built (s.deref buf) ip protocol id offset mf).bytes) :
    ip_fragment_out now s buf ip protocol id offset mf
      = arp_out now
          ((s.assign buf (ip_built (s.deref buf) ip protocol id offset mf)).log_frag
            ⟨ip, protocol, id, offset, mf, (s.deref buf).len,
              (ip_built (s.deref buf) ip protocol id offset mf).bytes⟩)
          buf ip NET_PROTOCOL_IP ∧
    (s2.deref buf2).bytes.getD 0 0 % 16 = 5 ∧
    (s2.deref buf2).bytes.getD 0 0 / 16 % 16 = 4 ∧
    (s2.deref buf2).bytes.getD 10 0 % 256 + 256 * ((s2.deref buf2).bytes.getD 11 0 % 256)
      = checksum16 (ip_hdr_zeroed (s2.deref buf2).bytes) ∧
    (ip = net_if_ip →
      ip_accepts (s2.deref buf2).bytes ∧
      ∃ b1, buf_remove_header (s2.deref buf2) sizeof_ip_hdr_t = some b1 ∧
        b1.bytes = (s.deref buf).bytes ∧
        (protocol = NET_PROTOCOL_ICMP →
          ip_in now2 s2 buf2 = icmp_in now2
            ((s2.assign buf2 b1).log_upcall (.icmp_in (s.deref buf).bytes net_if_ip))
            buf2 net_if_ip) ∧
        (protocol = NET_PROTOCOL_UDP →
          ip_in now2 s2 buf2 = some
            ((s2.assign buf2 b1).log_upcall (.udp_in (s.deref buf).bytes net_if_ip)))) := by
  obtain ⟨a0, a1, a2, a3, a4, a5, a6⟩ :=
    ip_built_accepts (s.deref buf) ip protocol id offset mf hroom
  obtain ⟨c10, c11⟩ := ip_built_cksum_bytes (s.deref buf) ip protocol id offset mf hroom
  rw [← hpres] at a0 a1 a2 a3 a4 a5 a6 c10 c11
  have hl2 : (s2.deref buf2).len = (s.deref buf).len + 20 := by
    have := congrArg List.length hpres
    simpa [buf_t.bytes, ip_built, ip_fill_header] using this
  refine ⟨ip_fragment_out_eq now s buf ip protocol id offset mf hroom, a0, a1, a2, ?_⟩
  intro hip
  have hacc : ip_accepts (s2.deref buf2).bytes := ⟨a0, a1, a2, by rw [a3, hip]⟩
  have hb1 : buf_remove_header (s2.deref buf2) sizeof_ip_hdr_t
      = some { (s2.deref buf2) with
          data := (s2.deref buf2).data + 20, len := (s2.deref buf2).len - 20 } := by
    unfold buf_remove_header
    simp only [sizeof_ip_hdr_t]
    rw [if_pos (by omega)]
  have hpay : ({ (s2.deref buf2) with
      data := (s2.deref buf2).data + 20, len := (s2.deref buf2).len - 20 } : buf_t).bytes
      = (s.deref buf).bytes := by
    rw [← a6]
    simp only [buf_t.bytes, readBytes_drop]
  refine ⟨hacc, _, hb1, hpay, ?_, ?_⟩
  all_goals
    intro hp
    rw [bytes_getD _ _ (by omega)] at c10 a4
    rw [bytes_getD _ _ (by omega)] at c11
    rw [bytes_ip_at _ 12 (by omega)] at a5
    have hsrc := ip_addr_bytes_inj _ _ a5
    rw [ip_in_eq now2 s2 buf2 (by omega) c10 c11, if_pos hacc]
    unfold ip_in_switch
    simp only [hb1, hsrc, a4, hp, hpay, NET_PROTOCOL_ICMP, NET_PROTOCOL_UDP, Nat.reduceMod,
      if_true]
  · rfl

/-! ## Witnesses for the inbound path -/

theorem writeBytes_lt (m : Nat → Nat) (a : Nat) (l : List Nat) (hm : ∀ i, m i < 256)
    (hl : ∀ x ∈ l, x < 256) : ∀ i, writeBytes m a l i < 256 := by
  intro i
  unfold writeBytes
  by_cases h : a ≤ i ∧ i < a + l.length
  · rw [if_pos h, List.getD_eq_getElem _ _ (by omega)]
    exact hl _ (List.getElem_mem _)
  · rw [if_neg h]
    exact hm i

theorem le16_lt (v : Nat) : ∀ x ∈ le16 v, x < 256 := by
  intro x hx
  simp only [le16, List.mem_cons, List.mem_singleton, List.mem_nil_iff, or_false] at hx
  rcases hx with rfl | rfl <;> omega

theorem demo_dgram_bytes_lt : ∀ i, (demo_dgram_stack.deref .rxbuf).payload i < 256 := by
  apply writeBytes_lt
  · apply writeBytes_lt
    · intro i
      show i % 256 < 256
      omega
    · decide
  · exact le16_lt _

/-- Witness of C9: a datagram for the host built by `ip_fragment_out`, in `rxbuf`; it is
accepted and reaches the dispatch. -/
theorem ip_in_accepts_iff_witness :
    20 ≤ (demo_dgram_stack.deref .rxbuf).len ∧
    ip_accepts (demo_dgram_stack.deref .rxbuf).bytes ∧
    ip_in 1000 demo_dgram_stack .rxbuf
      = ip_in_switch 1000 demo_dgram_stack .rxbuf (demo_dgram_stack.deref .rxbuf).data :=
  ⟨by decide, by decide,
    ((ip_in_accepts_iff 1000 demo_dgram_stack .rxbuf (by decide) demo_dgram_bytes_lt).1
      (by decide)).1⟩

/-- Witness of C10: the datagram built for the host from the 8-byte caller buffer, then
presented in `rxbuf`. -/
theorem ip_fragment_out_roundtrip_witness :
    20 ≤ ((demo_stack demo_empty_table (demo_buf 1000 8)).deref .caller).data ∧
    (demo_dgram_stack.deref .rxbuf).bytes
      = (ip_built ((demo_stack demo_empty_table (demo_buf 1000 8)).deref .caller)
          net_if_ip NET_PROTOCOL_UDP 7 0 0).bytes ∧
    ∃ b1, buf_remove_header (demo_dgram_stack.deref .rxbuf) sizeof_ip_hdr_t = some b1 ∧
      b1.bytes = ((demo_stack demo_empty_table (demo_buf 1000 8)).deref .caller).bytes ∧
      ip_in 1001 demo_dgram_stack .rxbuf = some
        ((demo_dgram_stack.assign .rxbuf b1).log_upcall
          (.udp_in ((demo_stack demo_empty_table (demo_buf 1000 8)).deref .caller).bytes
            net_if_ip)) :=
  ⟨by decide, rfl,
    match (ip_fragment_out_roundtrip 1000 (demo_stack demo_empty_table (demo_buf 1000 8))
      .caller net_if_ip NET_PROTOCOL_UDP 7 0 0 (by decide) 1001 demo_dgram_stack .rxbuf
      rfl).2.2.2.2 rfl with
    | ⟨_, b1, h1, h2, _, h4⟩ => ⟨b1, h1, h2, h4 rfl⟩⟩

/-! ## The slot chosen by `arp_update` -/

/-- C19 (counterexample): slot 0 is an unexpired pending entry and slots 1 .. 15 are
invalid; `arp_update(10.0.2.3, 02:00:00:00:00:09, Valid)` at time 1000 overwrites the
pending slot 0, with timeout 1005, and leaves the invalid slot 1 as it is. -/
theorem arp_update_pending_before_invalid :
    (arp_sweep 1000 demo_pending_table).take 2
      = [⟨.ARP_PENDING, 1300, demo_ip, net_board_mac⟩, demo_invalid] ∧
    (arp_update 1000 ⟨10, 0, 2, 3⟩ demo_mac2 .ARP_VALID demo_pending_table).map
        (fun t => t.take 2)
      = some [⟨.ARP_VALID, 1005, ⟨10, 0, 2, 3⟩, demo_mac2⟩, demo_invalid] := by
  decide

/-- C19 (amended): `arp_update` makes one scan for the lowest-index slot that is invalid
or pending after the sweep.  When that slot is invalid it receives `(ip, mac, state)`
with timeout `now + 300`; when it is pending (also with invalid slots behind it) it
receives `(ip, mac, state)` with timeout `now + 5`; no other slot of the swept table
changes. -/
theorem arp_update_first_slot (now : Nat) (ip : ip_addr) (mac : mac_addr)
    (st : arp_state_t) (t : List arp_entry_t) (i : Nat) (e : arp_entry_t)
    (hfree : arp_first_free (arp_sweep now t) = some i)
    (hget : (arp_sweep now t)[i]? = some e) :
    ∃ t2, arp_update now ip mac st t = some t2 ∧
      (∀ e1 ∈ (arp_sweep now t).take i, e1.state = .ARP_VALID) ∧
      (∀ j, j ≠ i → t2[j]? = (arp_sweep now t)[j]?) ∧
      (e.state = .ARP_INVALID → t2[i]? = some ⟨st, now + 300, ip, mac⟩) ∧
      (e.state = .ARP_PENDING → t2[i]? = some ⟨st, now + 5, ip, mac⟩) := by
  obtain ⟨e0, hget0, _, hbefore, hup⟩ := arp_update_first_free now ip mac st t i hfree
  have he : e0 = e := by
    rw [hget] at hget0
    exact (Option.some.inj hget0).symm
  subst he
  have hi : i < (arp_sweep now t).length := (List.getElem?_eq_some_iff.mp hget).1
  refine ⟨_, hup, hbefore, ?_, ?_, ?_⟩
  · intro j hj
    rw [List.getElem?_set_ne (Ne.symm hj)]
  · intro h
    rw [List.getElem?_set_self hi, h]
    rfl
  · intro h
    rw [List.getElem?_set_self hi, h]
    rfl

/-- Witness of the amended C19: the empty table, whose slot 0 is invalid. -/
theorem arp_update_first_slot_witness :
    arp_first_free (arp_sweep 1000 demo_empty_table) = some 0 ∧
    (arp_sweep 1000 demo_empty_table)[0]? = some demo_invalid ∧
    ∃ t2, arp_update 1000 demo_ip demo_mac .ARP_VALID demo_empty_table = some t2 ∧
      (∀ e1 ∈ (arp_sweep 1000 demo_empty_table).take 0, e1.state = .ARP_VALID) ∧
      (∀ j, j ≠ 0 → t2[j]? = (arp_sweep 1000 demo_empty_table)[j]?) ∧
      (demo_invalid.state = .ARP_INVALID → t2[0]? = some ⟨.ARP_VALID, 1000 + 300, demo_ip, demo_mac⟩) ∧
      (demo_invalid.state = .ARP_PENDING → t2[0]? = some ⟨.ARP_VALID, 1000 + 5, demo_ip, demo_mac⟩) :=
  ⟨by decide, by decide,
    arp_update_first_slot 1000 demo_ip demo_mac .ARP_VALID demo_empty_table 0 demo_invalid
      (by decide) (by decide)⟩

theorem arp_sweep_no_invalid (now : Nat) (t : List arp_entry_t)
    (h : ∀ e ∈ arp_sweep now t, e.state ≠ .ARP_INVALID) : arp_sweep now t = t := by
  apply arp_sweep_of_fresh
  intro e he
  by_contra hto
  have hto1 : e.timeout ≤ now := by omega
  refine h { e with state := .ARP_INVALID } ?_ rfl
  unfold arp_sweep
  exact List.mem_map.mpr ⟨e, he, by simp [hto1]⟩

/-- C20: when after the sweep no slot is invalid and some slot is pending, `arp_update`
returns the table with its lowest-index pending slot overwritten by `(ip, mac, state)`
and timeout `now + 5`, for every `state` (a valid mapping written there has the 5-second
timeout), and every other slot is as it was before the call. -/
theorem arp_update_pending_slot (now : Nat) (ip : ip_addr) (mac : mac_addr)
    (st : arp_state_t) (t : List arp_entry_t)
    (hnoinv : ∀ e ∈ arp_sweep now t, e.state ≠ .ARP_INVALID)
    (hpend : ∃ e ∈ arp_sweep now t, e.state = .ARP_PENDING) :
    ∃ i e, t[i]? = some e ∧ e.state = .ARP_PENDING ∧
      (∀ e1 ∈ t.take i, e1.state = .ARP_VALID) ∧
      arp_update now ip mac st t = some (t.set i ⟨st, now + 5, ip, mac⟩) ∧
      (t.set i ⟨st, now + 5, ip, mac⟩)[i]? = some ⟨st, now + 5, ip, mac⟩ ∧
      (∀ j, j ≠ i → (t.set i ⟨st, now + 5, ip, mac⟩)[j]? = t[j]?) := by
  have hsw := arp_sweep_no_invalid now t hnoinv
  rw [hsw] at hnoinv hpend
  obtain ⟨i, hi⟩ := arp_first_free_of_mem t (by
    obtain ⟨e, he, hp⟩ := hpend
    exact ⟨e, he, by rw [hp]; decide⟩)
  obtain ⟨e, hget, hne, hbefore, hup⟩ :=
    arp_update_first_free now ip mac st t i (by rw [hsw]; exact hi)
  rw [hsw] at hget hbefore hup
  have hmem : e ∈ t := List.getElem?_mem hget
  have hp : e.state = .ARP_PENDING := by
    have h1 := hnoinv e hmem
    cases hs : e.state <;> simp_all
  have hlt : i < t.length := (List.getElem?_eq_some_iff.mp hget).1
  refine ⟨i, e, hget, hp, hbefore, ?_, ?_, ?_⟩
  · rw [hup, hp]
    rfl
  · rw [List.getElem?_set_self hlt]
  · intro j hj
    rw [List.getElem?_set_ne (Ne.symm hj)]

/-- Witness of C20: no invalid slot, the pending entry in slot 1. -/
theorem arp_update_pending_slot_witness :
    (∀ e ∈ arp_sweep 1000 demo_no_invalid_table, e.state ≠ .ARP_INVALID) ∧
    (∃ e ∈ arp_sweep 1000 demo_no_invalid_table, e.state = .ARP_PENDING) ∧
    arp_update 1000 demo_ip demo_mac .ARP_VALID demo_no_invalid_table
      = some (demo_no_invalid_table.set 1 ⟨.ARP_VALID, 1005, demo_ip, demo_mac⟩) ∧
    ∃ i e, demo_no_invalid_table[i]? = some e ∧ e.state = .ARP_PENDING ∧
      (∀ e1 ∈ demo_no_invalid_table.take i, e1.state = .ARP_VALID) ∧
      arp_update 1000 demo_ip demo_mac .ARP_VALID demo_no_invalid_table
        = some (demo_no_invalid_table.set i ⟨.ARP_VALID, 1000 + 5, demo_ip, demo_mac⟩) ∧
      (demo_no_invalid_table.set i ⟨.ARP_VALID, 1000 + 5, demo_ip, demo_mac⟩)[i]?
        = some ⟨.ARP_VALID, 1000 + 5, demo_ip, demo_mac⟩ ∧
      (∀ j, j ≠ i → (demo_no_invalid_table.set i
        ⟨.ARP_VALID, 1000 + 5, demo_ip, demo_mac⟩)[j]? = demo_no_invalid_table[j]?) :=
  ⟨by decide, by decide, by decide,
    arp_update_pending_slot 1000 demo_ip demo_mac .ARP_VALID demo_no_invalid_table
      (by decide) (by decide)⟩

/-! ## The frame built by `ethernet_out` -/

theorem le16_swap16 (t : Nat) : le16 (swap16 t) = [t / 256 % 256, t % 256] := by
  have hx : t % 256 < 256 := Nat.mod_lt _ (by decide)
  have hy : t / 256 % 256 < 256 := Nat.mod_lt _ (by decide)
  unfold le16 swap16
  generalize t % 256 = x at hx
  generalize t / 256 % 256 = y at hy
  congr 1
  · omega
  · congr 1
    omega

/-- C17: for every buffer with the 14 bytes of header room that `buf_add_header` needs,
every destination MAC `m` and every protocol value `t`, `ethernet_out` returns and hands
the driver exactly one frame, of length `len + 14`: the 6 bytes of `m`, the 6 bytes of the
host MAC 08:00:27:02:a5:e3, the two bytes of `t` in big-endian order, and the bytes of the
buffer unchanged. -/
theorem ethernet_out_frame (s : Stack) (buf : BufId) (m : mac_addr) (t : Nat)
    (hroom : 14 ≤ (s.deref buf).data) :
    ∃ s1, ethernet_out s buf m t = some s1 ∧
      s1.sent = s.sent ++ [m.bytes ++ [0x08, 0x00, 0x27, 0x02, 0xa5, 0xe3]
        ++ [t / 256 % 256, t % 256] ++ (s.deref buf).bytes] ∧
      (m.bytes ++ [0x08, 0x00, 0x27, 0x02, 0xa5, 0xe3]
        ++ [t / 256 % 256, t % 256] ++ (s.deref buf).bytes).length = (s.deref buf).len + 14 ∧
      m.bytes.length = 6 := by
  obtain ⟨s1, h1, hsent, _⟩ := ethernet_out_sent s buf m t hroom
  refine ⟨s1, h1, ?_, ?_, rfl⟩
  · rw [hsent, le16_swap16]
    rfl
  · simp [mac_addr.bytes, buf_t.bytes]

/-- Witness of C17: a 50-byte caller buffer with 100 bytes of room, sent as IP. -/
theorem ethernet_out_frame_witness :
    14 ≤ ((demo_stack demo_empty_table (demo_buf 100 50)).deref .caller).data ∧
    ∃ s1, ethernet_out (demo_stack demo_empty_table (demo_buf 100 50)) .caller demo_mac
        NET_PROTOCOL_IP = some s1 ∧
      s1.sent = (demo_stack demo_empty_table (demo_buf 100 50)).sent
        ++ [demo_mac.bytes ++ [0x08, 0x00, 0x27, 0x02, 0xa5, 0xe3]
          ++ [NET_PROTOCOL_IP / 256 % 256, NET_PROTOCOL_IP % 256]
          ++ ((demo_stack demo_empty_table (demo_buf 100 50)).deref .caller).bytes] ∧
      (demo_mac.bytes ++ [0x08, 0x00, 0x27, 0x02, 0xa5, 0xe3]
          ++ [NET_PROTOCOL_IP / 256 % 256, NET_PROTOCOL_IP % 256]
          ++ ((demo_stack demo_empty_table (demo_buf 100 50)).deref .caller).bytes).length
        = ((demo_stack demo_empty_table (demo_buf 100 50)).deref .caller).len + 14 ∧
      demo_mac.bytes.length = 6 :=
  ⟨by decide,
    ethernet_out_frame (demo_stack demo_empty_table (demo_buf 100 50)) .caller demo_mac
      NET_PROTOCOL_IP (by decide)⟩

/-! ## What a returning call of `ip_out` leaves unchanged -/

theorem ip_fragment_out_inv (now : Nat) (s s1 : Stack) (buf : BufId) (ip : ip_addr)
    (p id offset mf : Nat) (h : ip_fragment_out now s buf ip p id offset mf = some s1) :
    s1.ipouts = s.ipouts ∧ s1.upcalls = s.upcalls ∧ s1.id = s.id ∧
      ∃ f, s1.frags = s.frags ++ [f] ∧ f.id = id := by
  unfold ip_fragment_out buf_add_header at h
  by_cases hroom : sizeof_ip_hdr_t ≤ (s.deref buf).data
  · rw [if_pos hroom] at h
    simp only [] at h
    obtain ⟨h1, h2, h3, h4⟩ := arp_out_inv _ _ _ _ _ _ h
    refine ⟨by simpa using h1, by simpa using h2, by simpa using h3, ?_⟩
    rw [h4, log_frag_frags, assign_frags]
    exact ⟨_, rfl, rfl⟩
  · rw [if_neg hroom] at h
    cases h

theorem ip_out_loop_inv (now : Nat) (buf : BufId) (ip : ip_addr) (p id : Nat) :
    ∀ (len off : Nat) (s s1 : Stack) (len1 off1 : Nat),
      ip_out_loop now buf ip p id len off s = some (s1, len1, off1) →
      s1.ipouts = s.ipouts ∧ s1.upcalls = s.upcalls ∧ s1.id = s.id ∧
        ∃ fs, s1.frags = s.frags ++ fs ∧ ∀ f ∈ fs, f.id = id := by
  intro len
  induction len using Nat.strong_induction_on with
  | _ len ih =>
    intro off s s1 len1 off1 h
    rw [ip_out_loop] at h
    by_cases hlen : ETHERNET_MTU - sizeof_ip_hdr_t < len
    · rw [if_pos hlen] at h
      simp only [] at h
      by_cases hg : (s.deref buf).cap
          < (s.deref buf).data + (if off ≠ 0 then ETHERNET_MTU else 0)
            + (ETHERNET_MTU - sizeof_ip_hdr_t)
      · rw [if_pos hg] at h
        cases h
      rw [if_neg hg] at h
      cases hf : ip_fragment_out now
          (s.assign buf { (s.deref buf) with
            len := ETHERNET_MTU - sizeof_ip_hdr_t
            data := (s.deref buf).data + (if off ≠ 0 then ETHERNET_MTU else 0) })
          buf ip p id
          ((if off ≠ 0 then off * (ETHERNET_MTU - sizeof_ip_hdr_t) / 8 else 0) % 65536) 1 with
      | none => rw [hf] at h; cases h
      | some s2 =>
        rw [hf] at h
        simp only [] at h
        obtain ⟨a1, a2, a3, f, a4, a5⟩ := ip_fragment_out_inv _ _ _ _ _ _ _ _ _ hf
        obtain ⟨b1, b2, b3, fs, b4, b5⟩ :=
          ih (len - (ETHERNET_MTU - sizeof_ip_hdr_t)) (by simp at hlen ⊢; omega) _ _ _ _ _ h
        refine ⟨by rw [b1, a1]; simp, by rw [b2, a2]; simp, by rw [b3, a3]; simp,
          f :: fs, ?_, ?_⟩
        · rw [b4, a4]
          simp
        · intro g hg
          rcases List.mem_cons.mp hg with rfl | hg
          · exact a5
          · exact b5 g hg
    · rw [if_neg hlen] at h
      simp only [Option.some.injEq, Prod.mk.injEq] at h
      obtain ⟨rfl, _, _⟩ := h
      exact ⟨rfl, rfl, rfl, [], by simp, by simp⟩

/-- Whenever `ip_out` returns: one call logged, the counter moved by one modulo 65536,
and every fragment of the call carrying the value of the counter at entry. -/
theorem ip_out_inv (now : Nat) (s s1 : Stack) (buf : BufId) (ip : ip_addr) (p : Nat)
    (h : ip_out now s buf ip p = some s1) :
    s1.ipouts = s.ipouts ++ [⟨(s.deref buf).bytes, ip, p⟩] ∧ s1.upcalls = s.upcalls ∧
      s1.id = (s.id + 1) % 65536 ∧
      ∃ fs, s1.frags = s.frags ++ fs ∧ fs ≠ [] ∧ ∀ f ∈ fs, f.id = s.id := by
  unfold ip_out at h
  simp only [log_ip_out_deref] at h
  by_cases hlen : ETHERNET_MTU - sizeof_ip_hdr_t < (s.deref buf).len
  · rw [if_pos hlen] at h
    cases hloop : ip_out_loop now buf ip p s.id (s.deref buf).len 0
        (s.log_ip_out ⟨(s.deref buf).bytes, ip, p⟩) with
    | none => rw [hloop] at h; cases h
    | some r =>
      obtain ⟨s2, len1, off1⟩ := r
      rw [hloop] at h
      simp only [] at h
      obtain ⟨a1, a2, a3, fs, a4, a5⟩ := ip_out_loop_inv _ _ _ _ _ _ _ _ _ _ _ hloop
      by_cases hg : (s2.deref buf).cap
          < (s2.deref buf).data + (if off1 ≠ 0 then ETHERNET_MTU else 0) + len1
      · rw [if_pos hg] at h
        cases h
      rw [if_neg hg] at h
      cases hf : ip_fragment_out now
          (s2.assign buf { (s2.deref buf) with
            data := (s2.deref buf).data + (if off1 ≠ 0 then ETHERNET_MTU else 0)
            len := len1 })
          buf ip p s.id ((off1 * (ETHERNET_MTU - sizeof_ip_hdr_t) / 8) % 65536) 0 with
      | none => rw [hf] at h; cases h
      | some s3 =>
        rw [hf] at h
        simp only [Option.some.injEq] at h
        subst h
        obtain ⟨b1, b2, b3, f, b4, b5⟩ := ip_fragment_out_inv _ _ _ _ _ _ _ _ _ hf
        refine ⟨?_, ?_, ?_, fs ++ [f], ?_, by simp, ?_⟩
        · simp only [b1, assign_ipouts, a1, log_ip_out_ipouts]
        · simp only [b2, assign_upcalls, a2, log_ip_out_upcalls]
        · simp only [b3, assign_id, a3, log_ip_out_id]
        · simp only [b4, assign_frags, a4, log_ip_out_frags, List.append_assoc]
        · intro g hg
          rcases List.mem_append.mp hg with hg | hg
          · exact a5 g hg
          · rw [List.mem_singleton.mp hg]; exact b5
  · rw [if_neg hlen] at h
    cases hf : ip_fragment_out now (s.log_ip_out ⟨(s.deref buf).bytes, ip, p⟩)
        buf ip p s.id 0 0 with
    | none => rw [hf] at h; cases h
    | some s3 =>
      rw [hf] at h
      simp only [Option.some.injEq] at h
      subst h
      obtain ⟨b1, b2, b3, f, b4, b5⟩ := ip_fragment_out_inv _ _ _ _ _ _ _ _ _ hf
      refine ⟨?_, ?_, ?_, [f], ?_, by simp, ?_⟩
      · simp only [b1, log_ip_out_ipouts]
      · simp only [b2, log_ip_out_upcalls]
      · simp only [b3, log_ip_out_id]
      · simp only [b4, log_ip_out_frags]
      · intro g hg
        rw [List.mem_singleton.mp hg]; exact b5

/-! ## The identifier counter of `ip_out` -/

/-- C16 (counterexample): the counter is a 16-bit value.  With the counter at 65535 a call
of `ip_out` sends its fragment with identifier 65535 and leaves the counter at 0, and the
next call sends its fragment with identifier 0, which is not greater than 65535. -/
theorem ip_out_id_wraps :
    (ip_out 1000 demo_wrap_stack .caller demo_ip NET_PROTOCOL_UDP).map
        (fun s1 => (s1.id, s1.frags.map (fun f => f.id))) = some (0, [65535]) ∧
    ((ip_out 1000 demo_wrap_stack .caller demo_ip NET_PROTOCOL_UDP).bind
        (fun s1 => ip_out 1001 s1 .caller demo_ip NET_PROTOCOL_UDP)).map
        (fun s2 => s2.frags.map (fun f => f.id)) = some [65535, 0] := by
  constructor <;> decide

/-- C16 (amended): for a payload of at most 65535 bytes with 34 bytes of header room and
an ARP layer able to take the datagrams (above 1480 bytes: in a window inside the region
of a buffer that is not `txbuf` unless the destination is resolved), `ip_out` returns;
every fragment of the call
(there is at least one) carries the value of the counter at entry, whatever the
destination and the number of fragments; and the call moves the counter by one modulo
65536: below 65535 the counter, and so the identifier of the next call, is greater by
exactly one, and at 65535 it wraps to 0. -/
theorem ip_out_id_counter (now : Nat) (s : Stack) (buf : BufId) (ip : ip_addr)
    (protocol : Nat) (hL : (s.deref buf).len ≤ 65535) (hroom : 34 ≤ (s.deref buf).data)
    (hready : Ready now ip s)
    (hwin : (s.deref buf).len ≤ 1480 ∨
      ((s.deref buf).data + (s.deref buf).len ≤ (s.deref buf).cap ∧
        (buf ≠ .txbuf ∨ ∃ mac, arp_lookup s.arp_table ip = some mac))) :
    ∃ s1 fs, ip_out now s buf ip protocol = some s1 ∧ s1.frags = s.frags ++ fs ∧
      fs ≠ [] ∧ (∀ f ∈ fs, f.id = s.id) ∧ s1.id = (s.id + 1) % 65536 ∧
      (s.id < 65535 → s1.id = s.id + 1 ∧ s.id < s1.id) ∧
      (s.id = 65535 → s1.id = 0) := by
  obtain ⟨s1, fs, h1, hfr, hmap, hid, hnext, _⟩ :=
    ip_out_spec now s buf ip protocol hL hroom hready hwin
  refine ⟨s1, fs, h1, hfr, ?_, hid, hnext, ?_, ?_⟩
  · intro hnil
    rw [hnil] at hmap
    have hlen := congrArg List.length hmap
    simp only [spec_fragments, List.map_nil, List.length_nil, List.length_map,
      List.length_range] at hlen
    have := Nat.le_max_left 1 (((s.deref buf).len + 1479) / 1480)
    omega
  · intro hlt
    rw [hnext, Nat.mod_eq_of_lt (by omega)]
    exact ⟨rfl, Nat.lt_succ_self _⟩
  · intro heq
    rw [hnext, heq]

/-- Witness of C16: a 3000-byte payload on an empty table, with the counter at 0. -/
theorem ip_out_id_counter_witness :
    ((demo_stack demo_empty_table (demo_buf 100 3000)).deref .caller).len ≤ 65535 ∧
    34 ≤ ((demo_stack demo_empty_table (demo_buf 100 3000)).deref .caller).data ∧
    Ready 1000 demo_ip (demo_stack demo_empty_table (demo_buf 100 3000)) ∧
    ((demo_stack demo_empty_table (demo_buf 100 3000)).deref .caller).data
        + ((demo_stack demo_empty_table (demo_buf 100 3000)).deref .caller).len
      ≤ ((demo_stack demo_empty_table (demo_buf 100 3000)).deref .caller).cap ∧
    BufId.caller ≠ BufId.txbuf ∧
    ∃ s1 fs, ip_out 1000 (demo_stack demo_empty_table (demo_buf 100 3000)) .caller demo_ip 17
        = some s1 ∧
      s1.frags = (demo_stack demo_empty_table (demo_buf 100 3000)).frags ++ fs ∧
      fs ≠ [] ∧ (∀ f ∈ fs, f.id = (demo_stack demo_empty_table (demo_buf 100 3000)).id) ∧
      s1.id = ((demo_stack demo_empty_table (demo_buf 100 3000)).id + 1) % 65536 ∧
      ((demo_stack demo_empty_table (demo_buf 100 3000)).id < 65535 →
        s1.id = (demo_stack demo_empty_table (demo_buf 100 3000)).id + 1 ∧
        (demo_stack demo_empty_table (demo_buf 100 3000)).id < s1.id) ∧
      ((demo_stack demo_empty_table (demo_buf 100 3000)).id = 65535 → s1.id = 0) :=
  ⟨by decide, by decide,
    Or.inr ⟨by decide, demo_invalid, by decide, Or.inl (by decide)⟩, by decide, by decide,
    ip_out_id_counter 1000 (demo_stack demo_empty_table (demo_buf 100 3000)) .caller demo_ip 17
      (by decide) (by decide)
      (Or.inr ⟨by decide, demo_invalid, by decide, Or.inl (by decide)⟩)
      (Or.inr ⟨by decide, Or.inl (by decide)⟩)⟩

/-! ## The dispatch of `ip_in` -/

theorem icmp_in_inv (now : Nat) (s s1 : Stack) (buf : BufId) (src : ip_addr)
    (h : icmp_in now s buf src = some s1) :
    s1.upcalls = s.upcalls ∧
      (s1.ipouts = s.ipouts ∨ ∃ c, s1.ipouts = s.ipouts ++ [c]) := by
  unfold icmp_in at h
  simp only [] at h
  split at h
  · simp only [Option.some.injEq] at h
    subst h
    exact ⟨by simp, Or.inl (by simp)⟩
  · split at h
    · split at h
      · cases h
      · obtain ⟨h1, h2, _⟩ := ip_out_inv _ _ _ _ _ _ h
        refine ⟨?_, Or.inr ?_⟩
        · rw [h2]
          simp
        · rw [h1]
          cases buf <;> exact ⟨_, rfl⟩
    · simp only [Option.some.injEq] at h
      subst h
      exact ⟨by simp, Or.inl (by simp)⟩

theorem icmp_unreachable_inv (now : Nat) (s s1 : Stack) (buf : BufId) (src : ip_addr)
    (code : Nat) (h : icmp_unreachable now s buf src code = some s1) :
    s1.upcalls = s.upcalls ∧ ∃ c, s1.ipouts = s.ipouts ++ [c] := by
  unfold icmp_unreachable at h
  split at h
  · cases h
  · obtain ⟨h1, h2, _⟩ := ip_out_inv _ _ _ _ _ _ h
    exact ⟨h2, _, h1⟩

/-- C11: for a datagram of at least 20 bytes (in a memory of bytes) that `ip_in` accepts,
with `src` the source IP in bytes 12 .. 15 and `p` the protocol byte 9: when `p` is 1,
`ip_in` is the call of `icmp_in` on the buffer with the 20 header bytes removed, with
`src`; when `p` is 17 it is the call of `udp_in` on the same, with `src`; for every other
`p` it is the call of `icmp_unreachable` on the buffer as it was received, with `src` and
the code protocol-unreachable.  In each case that call is the only upper-layer call: a
state `ip_in` returns has exactly that one call added to the log. -/
theorem ip_in_dispatch (now : Nat) (s : Stack) (buf : BufId)
    (hlen : 20 ≤ (s.deref buf).len) (hbytes : ∀ i, (s.deref buf).payload i < 256)
    (hacc : ip_accepts (s.deref buf).bytes) :
    ∃ b1 src, buf_remove_header (s.deref buf) sizeof_ip_hdr_t = some b1 ∧
      b1.bytes = (s.deref buf).bytes.drop 20 ∧
      src.bytes = ((s.deref buf).bytes.drop 12).take 4 ∧
      ((s.deref buf).bytes.getD 9 0 = 1 →
        ip_in now s buf
          = icmp_in now ((s.assign buf b1).log_upcall (.icmp_in b1.bytes src)) buf src ∧
        ((s.assign buf b1).log_upcall (.icmp_in b1.bytes src)).deref buf = b1 ∧
        ∀ s1, ip_in now s buf = some s1 →
          s1.upcalls = s.upcalls ++ [.icmp_in ((s.deref buf).bytes.drop 20) src]) ∧
      ((s.deref buf).bytes.getD 9 0 = 17 →
        ip_in now s buf = udp_in ((s.assign buf b1).log_upcall (.udp_in b1.bytes src)) buf src ∧
        ((s.assign buf b1).log_upcall (.udp_in b1.bytes src)).deref buf = b1 ∧
        ∃ s1, ip_in now s buf = some s1 ∧
          s1.upcalls = s.upcalls ++ [.udp_in ((s.deref buf).bytes.drop 20) src]) ∧
      ((s.deref buf).bytes.getD 9 0 ≠ 1 → (s.deref buf).bytes.getD 9 0 ≠ 17 →
        ip_in now s buf
          = icmp_unreachable now
              (s.log_upcall
                (.icmp_unreachable (s.deref buf).bytes src ICMP_CODE_PROTOCOL_UNREACH))
              buf src ICMP_CODE_PROTOCOL_UNREACH ∧
        (s.log_upcall
          (.icmp_unreachable (s.deref buf).bytes src ICMP_CODE_PROTOCOL_UNREACH)).deref buf
            = s.deref buf ∧
        ∀ s1, ip_in now s buf = some s1 →
          s1.upcalls = s.upcalls
            ++ [.icmp_unreachable (s.deref buf).bytes src ICMP_CODE_PROTOCOL_UNREACH]) := by
  have heq := ip_in_eq now s buf hlen (hbytes _) (hbytes _)
  rw [if_pos hacc] at heq
  have hb1 : buf_remove_header (s.deref buf) sizeof_ip_hdr_t
      = some { (s.deref buf) with
          data := (s.deref buf).data + 20, len := (s.deref buf).len - 20 } := by
    unfold buf_remove_header
    simp only [sizeof_ip_hdr_t]
    rw [if_pos (by omega)]
  have h9 : (s.deref buf).bytes.getD 9 0 = (s.deref buf).payload ((s.deref buf).data + 9) :=
    bytes_getD _ _ (by omega)
  have hsw : ip_in now s buf = ip_in_switch now s buf (s.deref buf).data := heq
  unfold ip_in_switch at hsw
  simp only [hb1, ← h9] at hsw
  refine ⟨_, read_ip (s.deref buf).payload ((s.deref buf).data + 12), hb1, ?_, ?_, ?_, ?_, ?_⟩
  · unfold buf_t.bytes
    rw [readBytes_drop]
  · rw [bytes_ip_at _ 12 (by omega)]
  · intro hp
    rw [if_pos (by rw [hp]; rfl)] at hsw
    refine ⟨hsw, ?_, ?_⟩
    · cases buf <;> rfl
    · intro s1 h1
      rw [hsw] at h1
      rw [(icmp_in_inv _ _ _ _ _ h1).1, log_upcall_upcalls]
      simp [buf_t.bytes, readBytes_drop]
  · intro hp
    rw [if_neg (by rw [hp]; decide), if_pos (by rw [hp]; rfl)] at hsw
    refine ⟨hsw, ?_, _, hsw, ?_⟩
    · cases buf <;> rfl
    · rw [log_upcall_upcalls]
      simp [buf_t.bytes, readBytes_drop]
  · intro hp1 hp2
    rw [if_neg (by simpa using hp1), if_neg (by simpa using hp2)] at hsw
    refine ⟨hsw, ?_, ?_⟩
    · cases buf <;> rfl
    · intro s1 h1
      rw [hsw] at h1
      rw [(icmp_unreachable_inv _ _ _ _ _ _ h1).1, log_upcall_upcalls]

/-- Witness of C11: the UDP datagram for the host in `rxbuf` goes to `udp_in`, stripped. -/
theorem ip_in_dispatch_witness :
    20 ≤ (demo_dgram_stack.deref .rxbuf).len ∧
    ip_accepts (demo_dgram_stack.deref .rxbuf).bytes ∧
    (demo_dgram_stack.deref .rxbuf).bytes.getD 9 0 = 17 ∧
    ∃ b1 src, buf_remove_header (demo_dgram_stack.deref .rxbuf) sizeof_ip_hdr_t = some b1 ∧
      b1.bytes = (demo_dgram_stack.deref .rxbuf).bytes.drop 20 ∧
      src.bytes = ((demo_dgram_stack.deref .rxbuf).bytes.drop 12).take 4 ∧
      ip_in 1000 demo_dgram_stack .rxbuf
        = udp_in ((demo_dgram_stack.assign .rxbuf b1).log_upcall (.udp_in b1.bytes src))
            .rxbuf src :=
  ⟨by decide, by decide, by decide,
    match ip_in_dispatch 1000 demo_dgram_stack .rxbuf (by decide) demo_dgram_bytes_lt
      (by decide) with
    | ⟨b1, src, h1, h2, h3, _, hudp, _⟩ => ⟨b1, src, h1, h2, h3, (hudp (by decide)).1⟩⟩

/-! ## The header check of `arp_in` -/

theorem arp_in_eq (now : Nat) (s : Stack) (buf : BufId) :
    arp_in now s buf =
      if get16 (s.deref buf).payload (s.deref buf).data ≠ swap16 ARP_HW_ETHER
          ∨ get16 (s.deref buf).payload ((s.deref buf).data + 2) ≠ swap16 NET_PROTOCOL_IP
          ∨ (s.deref buf).payload ((s.deref buf).data + 4) ≠ 6
          ∨ (s.deref buf).payload ((s.deref buf).data + 5) ≠ 4
          ∨ (get16 (s.deref buf).payload ((s.deref buf).data + 6) ≠ swap16 ARP_REPLY
            ∧ get16 (s.deref buf).payload ((s.deref buf).data + 6) ≠ swap16 ARP_REQUEST) then
        some s
      else
        (arp_update now (read_ip (s.deref buf).payload ((s.deref buf).data + 14))
          (read_mac (s.deref buf).payload ((s.deref buf).data + 8)) .ARP_VALID s.arp_table).bind
          (fun t => arp_in_respond { s with arp_table := t } buf (s.deref buf).data) := by
  unfold arp_in arp_in_respond
  simp only []
  split
  · rfl
  · cases arp_update now (read_ip (s.deref buf).payload ((s.deref buf).data + 14))
      (read_mac (s.deref buf).payload ((s.deref buf).data + 8)) .ARP_VALID s.arp_table with
    | none => rfl
    | some t => cases buf <;> rfl

theorem get16_eq_swap16 (m : Nat → Nat) (a v : Nat) (h0 : m a < 256) (h1 : m (a + 1) < 256)
    (hv : v < 65536) : get16 m a = swap16 v ↔ 256 * m a + m (a + 1) = v := by
  unfold get16 swap16
  rw [Nat.mod_eq_of_lt h0, Nat.mod_eq_of_lt h1]
  generalize m a = x at h0
  generalize m (a + 1) = y at h1
  have hq : v / 256 < 256 := by omega
  have hq2 : v / 256 % 256 = v / 256 := Nat.mod_eq_of_lt hq
  rw [hq2]
  constructor <;> intro h <;> omega

theorem be16_at_bytes (b : buf_t) (k : Nat) (h : k + 1 < b.len) :
    be16_at b.bytes k = 256 * b.payload (b.data + k) + b.payload (b.data + k + 1) := by
  unfold be16_at
  rw [bytes_getD _ _ (by omega), bytes_getD _ _ h, Nat.add_assoc]

theorem arp_in_respond_inv (s s1 : Stack) (buf : BufId) (a : Nat)
    (h : arp_in_respond s buf a = some s1) :
    s1.arp_table = s.arp_table ∧ s1.ipouts = s.ipouts ∧ s1.upcalls = s.upcalls ∧
      s1.frags = s.frags ∧ s1.id = s.id ∧ s1.rxbuf = s.rxbuf ∧ s1.caller = s.caller := by
  unfold arp_in_respond at h
  simp only [] at h
  split at h
  · split at h
    · obtain ⟨h1, h2, h3, h4, h5, h6, _⟩ := ethernet_out_inv _ _ _ _ _ h
      exact ⟨h5, h1, h2, h4, h3, h6 .rxbuf (by decide), h6 .caller (by decide)⟩
    · simp only [Option.some.injEq] at h
      subst h
      exact ⟨rfl, rfl, rfl, rfl, rfl, rfl, rfl⟩
  · split at h
    · split at h
      · cases h
      · obtain ⟨h1, h2, h3, h4, h5, h6, _⟩ := ethernet_out_inv _ _ _ _ _ h
        exact ⟨h5, h1, h2, h4, h3, h6 .rxbuf (by decide), h6 .caller (by decide)⟩
    · simp only [Option.some.injEq] at h
      subst h
      exact ⟨rfl, rfl, rfl, rfl, rfl, rfl, rfl⟩

theorem arp_wellformed_iff (b : buf_t) (hlen : 28 ≤ b.len) (hbytes : ∀ i, b.payload i < 256) :
    arp_wellformed b.bytes ↔
      ¬ (get16 b.payload b.data ≠ swap16 ARP_HW_ETHER
          ∨ get16 b.payload (b.data + 2) ≠ swap16 NET_PROTOCOL_IP
          ∨ b.payload (b.data + 4) ≠ 6 ∨ b.payload (b.data + 5) ≠ 4
          ∨ (get16 b.payload (b.data + 6) ≠ swap16 ARP_REPLY
            ∧ get16 b.payload (b.data + 6) ≠ swap16 ARP_REQUEST)) := by
  have e0 := get16_eq_swap16 b.payload b.data ARP_HW_ETHER (hbytes _) (hbytes _) (by decide)
  have e2 := get16_eq_swap16 b.payload (b.data + 2) NET_PROTOCOL_IP (hbytes _) (hbytes _)
    (by decide)
  have e6 := get16_eq_swap16 b.payload (b.data + 6) ARP_REPLY (hbytes _) (hbytes _) (by decide)
  have e7 := get16_eq_swap16 b.payload (b.data + 6) ARP_REQUEST (hbytes _) (hbytes _)
    (by decide)
  have b0 := be16_at_bytes b 0 (by omega)
  have b2 := be16_at_bytes b 2 (by omega)
  have b6 := be16_at_bytes b 6 (by omega)
  have g4 := bytes_getD b 4 (by omega)
  have g5 := bytes_getD b 5 (by omega)
  simp only [Nat.add_zero] at b0
  unfold arp_wellformed
  rw [b0, b2, b6, g4, g5, ← e0, ← e2, ← e6, ← e7]
  constructor
  · rintro ⟨hA, hB, hC, hD, hEF⟩ hn
    rcases hn with h | h | h | h | ⟨h1, h2⟩
    · exact h hA
    · exact h hB
    · exact h hC
    · exact h hD
    · rcases hEF with h | h
      · exact h2 h
      · exact h1 h
  · intro hn
    refine ⟨Classical.not_not.mp fun h => hn (Or.inl h),
      Classical.not_not.mp fun h => hn (Or.inr (Or.inl h)),
      Classical.not_not.mp fun h => hn (Or.inr (Or.inr (Or.inl h))),
      Classical.not_not.mp fun h => hn (Or.inr (Or.inr (Or.inr (Or.inl h)))), ?_⟩
    by_cases hE : get16 b.payload (b.data + 6) = swap16 ARP_REQUEST
    · exact Or.inl hE
    · exact Or.inr (Classical.not_not.mp fun h => hn (Or.inr (Or.inr (Or.inr (Or.inr ⟨h, hE⟩)))))

theorem bytes_mac_at (b : buf_t) (k : Nat) (hlen : k + 6 ≤ b.len) :
    (b.bytes.drop k).take 6 = (read_mac b.payload (b.data + k)).bytes := by
  unfold buf_t.bytes
  rw [readBytes_drop, readBytes_take, Nat.min_eq_left (by omega)]
  simp [readBytes, read_mac, mac_addr.bytes, List.range_succ, Nat.add_assoc]

theorem demo_pending_bytes_lt : ∀ i, (demo_pending_stack.deref .rxbuf).payload i < 256 := by
  apply writeBytes_lt
  · intro i
    show i % 256 < 256
    omega
  · decide

/-- C14: for an inbound ARP packet of at least 28 bytes (in a memory of bytes), when the
hardware type is not 1, or the protocol type is not 0x0800, or the hardware length is not
6, or the protocol length is not 4, or the opcode is neither 1 nor 2, `arp_in` returns
the state as it was: the same table, the same pending slot, no frame.  When all five
checks pass, `arp_in` is the call of `arp_update` with the sender IP (bytes 14 .. 17),
the sender MAC (bytes 8 .. 13) and the state valid, followed by the rest of the function
on the updated table: the update returns when the table has a slot to fill, `arp_in` is
undefined when the update is, and the table of every state `arp_in` returns is the table
that update produced. -/
theorem arp_in_header_check (now : Nat) (s : Stack) (buf : BufId)
    (hlen : 28 ≤ (s.deref buf).len) (hbytes : ∀ i, (s.deref buf).payload i < 256) :
    (¬ arp_wellformed (s.deref buf).bytes → arp_in now s buf = some s) ∧
    (arp_wellformed (s.deref buf).bytes →
      ∃ sip smac, sip.bytes = ((s.deref buf).bytes.drop 14).take 4 ∧
        smac.bytes = ((s.deref buf).bytes.drop 8).take 6 ∧
        arp_in now s buf = (arp_update now sip smac .ARP_VALID s.arp_table).bind
          (fun t => arp_in_respond { s with arp_table := t } buf (s.deref buf).data) ∧
        (HasFree now s.arp_table →
          ∃ t, arp_update now sip smac .ARP_VALID s.arp_table = some t) ∧
        (arp_update now sip smac .ARP_VALID s.arp_table = none → arp_in now s buf = none) ∧
        ∀ s1, arp_in now s buf = some s1 →
          arp_update now sip smac .ARP_VALID s.arp_table = some s1.arp_table) := by
  have hiff := arp_wellformed_iff (s.deref buf) hlen hbytes
  have heq := arp_in_eq now s buf
  constructor
  · intro hwf
    rw [heq, if_pos (Classical.not_not.mp (fun h => hwf (hiff.mpr h)))]
  · intro hwf
    rw [if_neg (hiff.mp hwf)] at heq
    refine ⟨read_ip (s.deref buf).payload ((s.deref buf).data + 14),
      read_mac (s.deref buf).payload ((s.deref buf).data + 8), ?_, ?_, heq, ?_, ?_, ?_⟩
    · rw [bytes_ip_at _ 14 (by omega)]
    · rw [bytes_mac_at _ 8 (by omega)]
    · intro hfree
      obtain ⟨t, ht, _⟩ := arp_update_of_free now
        (read_ip (s.deref buf).payload ((s.deref buf).data + 14))
        (read_mac (s.deref buf).payload ((s.deref buf).data + 8)) .ARP_VALID s.arp_table hfree
      exact ⟨t, ht⟩
    · intro hnone
      rw [heq, hnone]
      rfl
    · intro s1 h1
      rw [heq] at h1
      cases hup : arp_update now (read_ip (s.deref buf).payload ((s.deref buf).data + 14))
          (read_mac (s.deref buf).payload ((s.deref buf).data + 8)) .ARP_VALID s.arp_table with
      | none => rw [hup] at h1; cases h1
      | some t =>
        rw [hup] at h1
        have := (arp_in_respond_inv _ _ _ _ h1).1
        rw [this]

/-- Witness of C14: the ARP reply from 10.0.2.2 in `rxbuf` passes the five checks. -/
theorem arp_in_header_check_witness :
    28 ≤ (demo_pending_stack.deref .rxbuf).len ∧
    arp_wellformed (demo_pending_stack.deref .rxbuf).bytes ∧
    ∃ sip smac, sip.bytes = ((demo_pending_stack.deref .rxbuf).bytes.drop 14).take 4 ∧
      smac.bytes = ((demo_pending_stack.deref .rxbuf).bytes.drop 8).take 6 ∧
      arp_in 1003 demo_pending_stack .rxbuf
        = (arp_update 1003 sip smac .ARP_VALID demo_pending_stack.arp_table).bind
          (fun t => arp_in_respond { demo_pending_stack with arp_table := t } .rxbuf
            (demo_pending_stack.deref .rxbuf).data) :=
  ⟨by decide, by decide,
    match (arp_in_header_check 1003 demo_pending_stack .rxbuf (by decide)
      demo_pending_bytes_lt).2 (by decide) with
    | ⟨sip, smac, h1, h2, h3, _⟩ => ⟨sip, smac, h1, h2, h3⟩⟩

/-! ## The dispatch of `ethernet_in` -/

theorem arp_in_inv (now : Nat) (s s1 : Stack) (buf : BufId) (h : arp_in now s buf = some s1) :
    s1.rxbuf = s.rxbuf ∧ s1.caller = s.caller ∧ s1.ipouts = s.ipouts ∧
      s1.upcalls = s.upcalls ∧ s1.frags = s.frags ∧ s1.id = s.id := by
  rw [arp_in_eq] at h
  split at h
  · simp only [Option.some.injEq] at h
    subst h
    exact ⟨rfl, rfl, rfl, rfl, rfl, rfl⟩
  · cases hup : arp_update now (read_ip (s.deref buf).payload ((s.deref buf).data + 14))
        (read_mac (s.deref buf).payload ((s.deref buf).data + 8)) .ARP_VALID s.arp_table with
    | none => rw [hup] at h; cases h
    | some t =>
      rw [hup] at h
      obtain ⟨_, h2, h3, h4, h5, h6, h7⟩ := arp_in_respond_inv _ _ _ _ h
      exact ⟨h6, h7, h2, h3, h4, h5⟩

/-- C18: for a frame of at least 14 bytes (in a memory of bytes) in a receive buffer
(not `txbuf`, not the pending-packet slot), `ethernet_in` makes at most one call of a
handler: when the big-endian ethertype in bytes 12 and 13 is 0x0806 it is the call of
`arp_in`, and when it is 0x0800 it is the call of `ip_in`, in both cases on the buffer
with the first 14 bytes removed; for every other ethertype it returns the state as it
was: no handler, no frame, the same table and pending slot. -/
theorem ethernet_in_dispatch (now : Nat) (s : Stack) (buf : BufId)
    (hbuf : buf ≠ .txbuf) (hbuf2 : buf ≠ .arp_buf)
    (hlen : 14 ≤ (s.deref buf).len) (hbytes : ∀ i, (s.deref buf).payload i < 256) :
    ∃ b1, buf_remove_header (s.deref buf) sizeof_ether_hdr_t = some b1 ∧
      b1.bytes = (s.deref buf).bytes.drop 14 ∧ (s.assign buf b1).deref buf = b1 ∧
      (be16_at (s.deref buf).bytes 12 = NET_PROTOCOL_ARP →
        ethernet_in now s buf = arp_in now (s.assign buf b1) buf) ∧
      (be16_at (s.deref buf).bytes 12 = NET_PROTOCOL_IP →
        ethernet_in now s buf = ip_in now (s.assign buf b1) buf) ∧
      (be16_at (s.deref buf).bytes 12 ≠ NET_PROTOCOL_ARP →
        be16_at (s.deref buf).bytes 12 ≠ NET_PROTOCOL_IP → ethernet_in now s buf = some s) := by
  have hb1 : buf_remove_header (s.deref buf) sizeof_ether_hdr_t
      = some { (s.deref buf) with
          data := (s.deref buf).data + 14, len := (s.deref buf).len - 14 } := by
    unfold buf_remove_header
    simp only [sizeof_ether_hdr_t]
    rw [if_pos (by omega)]
  have eA := get16_eq_swap16 (s.deref buf).payload ((s.deref buf).data + 12) NET_PROTOCOL_ARP
    (hbytes _) (hbytes _) (by decide)
  have eI := get16_eq_swap16 (s.deref buf).payload ((s.deref buf).data + 12) NET_PROTOCOL_IP
    (hbytes _) (hbytes _) (by decide)
  have hbe := be16_at_bytes (s.deref buf) 12 (by omega)
  rw [← hbe] at eA eI
  have hne : swap16 NET_PROTOCOL_ARP ≠ swap16 NET_PROTOCOL_IP := by decide
  refine ⟨_, hb1, ?_, deref_assign_same _ _ _, ?_, ?_, ?_⟩
  · unfold buf_t.bytes
    rw [readBytes_drop]
  · intro hp
    have hg := eA.mpr hp
    unfold ethernet_in
    simp only [hb1]
    rw [if_pos hg]
    cases harp : arp_in now (s.assign buf
        { (s.deref buf) with
          data := (s.deref buf).data + 14, len := (s.deref buf).len - 14 }) buf with
    | none => rfl
    | some s1 =>
      simp only []
      obtain ⟨hrx, hcl, _⟩ := arp_in_inv _ _ _ _ harp
      have hd : (s1.deref buf).payload = (s.deref buf).payload := by
        cases buf with
        | txbuf => exact absurd rfl hbuf
        | arp_buf => exact absurd rfl hbuf2
        | rxbuf => show s1.rxbuf.payload = _; rw [hrx]; rfl
        | caller => show s1.caller.payload = _; rw [hcl]; rfl
      rw [hd, if_neg (by rw [hg]; exact hne)]
  · intro hp
    have hg := eI.mpr hp
    unfold ethernet_in
    simp only []
    rw [if_neg (by rw [hg]; exact fun h => hne h.symm)]
    simp only [hb1]
    rw [if_pos hg]
  · intro hp1 hp2
    unfold ethernet_in
    simp only []
    rw [if_neg (fun h => hp1 (eA.mp h))]
    simp only []
    rw [if_neg (fun h => hp2 (eI.mp h))]

theorem demo_frame_bytes_lt : ∀ i, (demo_frame_stack.deref .rxbuf).payload i < 256 := by
  apply writeBytes_lt
  · intro i
    show i % 256 < 256
    omega
  · decide

/-- Witness of C18: the frame with ethertype 0x0806 in `rxbuf` goes to `arp_in`. -/
theorem ethernet_in_dispatch_witness :
    14 ≤ (demo_frame_stack.deref .rxbuf).len ∧
    be16_at (demo_frame_stack.deref .rxbuf).bytes 12 = NET_PROTOCOL_ARP ∧
    ∃ b1, buf_remove_header (demo_frame_stack.deref .rxbuf) sizeof_ether_hdr_t = some b1 ∧
      b1.bytes = (demo_frame_stack.deref .rxbuf).bytes.drop 14 ∧
      ethernet_in 1000 demo_frame_stack .rxbuf
        = arp_in 1000 (demo_frame_stack.assign .rxbuf b1) .rxbuf :=
  ⟨by decide, by decide,
    match ethernet_in_dispatch 1000 demo_frame_stack .rxbuf (by decide) (by decide) (by decide)
      demo_frame_bytes_lt with
    | ⟨b1, h1, h2, _, harp, _⟩ => ⟨b1, h1, h2, harp (by decide)⟩⟩

/-! ## The reply of `arp_in` to a request -/

theorem arp_reply_bytes (p : Nat → Nat) (d : Nat) (smac : mac_addr) (sip : ip_addr) :
    readBytes
      (writeBytes
        (writeBytes
          (writeBytes p d (arp_pkt_bytes (swap16 ARP_REPLY) ⟨0, 0, 0, 0, 0, 0⟩ ⟨0, 0, 0, 0⟩))
          (d + 24) sip.bytes)
        (d + 18) smac.bytes) d 28
      = arp_wire ARP_REPLY net_if_mac net_if_ip smac sip := by
  rw [readBytes_patch _ _ _ _ _ (by simp [mac_addr.bytes]),
    readBytes_patch _ _ _ _ _ (by simp [ip_addr.bytes])]
  have h28 : (arp_pkt_bytes (swap16 ARP_REPLY) ⟨0, 0, 0, 0, 0, 0⟩ ⟨0, 0, 0, 0⟩).length = 28 :=
    arp_pkt_bytes_length _ _ _
  conv_lhs => rw [← h28]
  rw [readBytes_writeBytes_self]
  simp [arp_pkt_bytes, arp_wire, le16, mac_addr.bytes, ip_addr.bytes, net_if_mac, net_if_ip,
    DRIVER_IF_MAC, DRIVER_IF_IP]

theorem read_mac_written (p : Nat → Nat) (a : Nat) (m : mac_addr) :
    read_mac (writeBytes p a m.bytes) a = m := by
  have key : ∀ k (hk : k < 6), writeBytes p a m.bytes (a + k) = m.bytes[k] := fun k hk =>
    writeBytes_inside p a m.bytes k hk
  have k0 := key 0 (by decide)
  have k1 := key 1 (by decide)
  have k2 := key 2 (by decide)
  have k3 := key 3 (by decide)
  have k4 := key 4 (by decide)
  have k5 := key 5 (by decide)
  cases m
  simp only [mac_addr.bytes, List.getElem_cons_zero, List.getElem_cons_succ,
    Nat.add_zero] at k0 k1 k2 k3 k4 k5
  simp only [read_mac, mac_addr.bytes, k0, k1, k2, k3, k4, k5]

/-- C15: a well-formed ARP packet with opcode `op` (REQUEST or REPLY) from `(S_ip, S_mac)`
with target IP `tip` arrives in a buffer other than `txbuf`; `txbuf` has 42 bytes of
capacity and the table a slot to fill, so that the update returns a table `t`.  With the
pending slot empty, a REQUEST for the host IP makes `arp_in` transmit exactly one frame:
destination `S_mac`, source the host MAC, ethertype 0x0806, and the ARP packet with
hardware type 1, protocol type 0x0800, lengths 6 and 4, opcode 2, the host MAC and IP as
sender and `(S_mac, S_ip)` as target.  With the pending slot empty, a REPLY or a REQUEST
for another IP only updates the table: nothing is sent.  With the pending slot occupied
no reply is built either: `arp_in` only updates the table when the parked destination is
still unresolved, and otherwise its one transmission is the parked buffer. -/
theorem arp_in_request_reply (now : Nat) (s : Stack) (buf : BufId) (op : Nat)
    (S_mac : mac_addr) (S_ip : ip_addr) (tmac : mac_addr) (tip : ip_addr)
    (hpkt : holds_arp (s.deref buf) op S_mac S_ip tmac tip)
    (hop : op = ARP_REQUEST ∨ op = ARP_REPLY) (hbuf : buf ≠ .txbuf)
    (hcap : 42 ≤ s.txbuf.cap) (hfree : HasFree now s.arp_table) :
    ∃ t, arp_update now S_ip S_mac .ARP_VALID s.arp_table = some t ∧
      (s.arp_buf.valid = 0 → op = ARP_REQUEST → tip = net_if_ip →
        ∃ s1, arp_in now s buf = some s1 ∧ s1.arp_table = t ∧
          s1.arp_buf.valid = 0 ∧
          s1.sent = s.sent ++ [S_mac.bytes ++ DRIVER_IF_MAC.bytes ++ [0x08, 0x06]
            ++ arp_wire ARP_REPLY net_if_mac net_if_ip S_mac S_ip]) ∧
      (s.arp_buf.valid = 0 → (op = ARP_REPLY ∨ tip ≠ net_if_ip) →
        arp_in now s buf = some { s with arp_table := t }) ∧
      (s.arp_buf.valid ≠ 0 →
        (arp_lookup t s.arp_buf.ip = none →
          arp_in now s buf = some { s with arp_table := t }) ∧
        (∀ mac, arp_lookup t s.arp_buf.ip = some mac →
          arp_in now s buf
            = ethernet_out
                { s with arp_table := t, arp_buf := { s.arp_buf with valid := 0 } }
                .arp_buf mac s.arp_buf.protocol)) := by
  obtain ⟨f1, f2, f3, f4, f5, f6, f7, _, f9⟩ :=
    holds_arp_fields (s.deref buf) op S_mac S_ip tmac tip hpkt
  obtain ⟨t, ht, _⟩ := arp_update_of_free now S_ip S_mac .ARP_VALID s.arp_table hfree
  have hopc : ¬ (swap16 op ≠ swap16 ARP_REPLY ∧ swap16 op ≠ swap16 ARP_REQUEST) := by
    rcases hop with rfl | rfl <;> decide
  have heq : arp_in now s buf
      = arp_in_respond { s with arp_table := t } buf (s.deref buf).data := by
    rw [arp_in_eq]
    simp only [f1, f2, f3, f4, f5, f6, f7, ht]
    rw [if_neg (by simpa using hopc)]
    rfl
  have hd : ({ s with arp_table := t } : Stack).deref buf = s.deref buf := by
    cases buf <;> rfl
  refine ⟨t, ht, ?_, ?_, ?_⟩
  · intro hv hreq htip
    subst hreq
    subst htip
    have hinit : buf_init s.txbuf sizeof_arp_pkt_t
        = some { s.txbuf with data := s.txbuf.cap - 28, len := 28 } := by
      unfold buf_init
      simp only [sizeof_arp_pkt_t]
      rw [if_pos (by omega)]
    rw [heq]
    unfold arp_in_respond
    simp only [hd, f5, f9, hinit]
    rw [if_neg (by simpa using hv), if_pos (by simp)]
    have hd2 : ∀ (tx : buf_t),
        ({ s with arp_table := t, txbuf := tx } : Stack).deref buf = s.deref buf := by
      intro tx
      cases buf with
      | txbuf => exact absurd rfl hbuf
      | rxbuf => rfl
      | arp_buf => rfl
      | caller => rfl
    simp only [hd2, f6, f7, read_mac_written]
    obtain ⟨s1, h1, hsent, htab, hval, _⟩ := ethernet_out_sent
      ({ s with
        arp_table := t
        txbuf := { s.txbuf with
          data := s.txbuf.cap - 28
          len := 28
          payload := writeBytes
            (writeBytes
              (writeBytes s.txbuf.payload (s.txbuf.cap - 28)
                (arp_pkt_bytes (swap16 ARP_REPLY) ⟨0, 0, 0, 0, 0, 0⟩ ⟨0, 0, 0, 0⟩))
              (s.txbuf.cap - 28 + 24) S_ip.bytes)
            (s.txbuf.cap - 28 + 18) S_mac.bytes } } : Stack)
      .txbuf S_mac NET_PROTOCOL_ARP (by show 14 ≤ s.txbuf.cap - 28; omega)
    refine ⟨s1, h1, htab, by rw [hval]; exact hv, ?_⟩
    rw [hsent]
    show s.sent ++ [S_mac.bytes ++ DRIVER_IF_MAC.bytes ++ le16 (swap16 NET_PROTOCOL_ARP)
      ++ readBytes _ (s.txbuf.cap - 28) 28] = _
    simp only [Stack.deref]
    rw [arp_reply_bytes]
    rfl
  · intro hv hcase
    rw [heq]
    unfold arp_in_respond
    simp only [hd, f5, f9]
    rw [if_neg (by simpa using hv), if_neg]
    rintro ⟨h1, h2⟩
    rcases hcase with hr | hr
    · subst hr
      revert h1
      decide
    · exact hr h2
  · intro hv
    constructor
    · intro hl
      rw [heq]
      unfold arp_in_respond
      simp only []
      rw [if_pos hv]
      simp only [hl]
    · intro mac hl
      rw [heq]
      unfold arp_in_respond
      simp only []
      rw [if_pos hv]
      simp only [hl]

/-- Witness of C15: the request from 10.0.2.2 at aa:bb:cc:dd:ee:ff for the host IP, on an
empty table with an empty pending slot. -/
theorem arp_in_request_reply_witness :
    holds_arp (demo_request_stack.deref .rxbuf) ARP_REQUEST demo_mac demo_ip
      ⟨0, 0, 0, 0, 0, 0⟩ net_if_ip ∧
    42 ≤ demo_request_stack.txbuf.cap ∧ demo_request_stack.arp_buf.valid = 0 ∧
    ∃ s1, arp_in 1000 demo_request_stack .rxbuf = some s1 ∧
      s1.sent = demo_request_stack.sent ++ [demo_mac.bytes ++ DRIVER_IF_MAC.bytes ++ [0x08, 0x06]
        ++ arp_wire ARP_REPLY net_if_mac net_if_ip demo_mac demo_ip] :=
  ⟨by decide, by decide, by decide,
    match arp_in_request_reply 1000 demo_request_stack .rxbuf ARP_REQUEST demo_mac demo_ip
      ⟨0, 0, 0, 0, 0, 0⟩ net_if_ip (by decide) (Or.inl rfl) (by decide) (by decide)
      ⟨demo_invalid, by decide, Or.inl (by decide)⟩ with
    | ⟨_, _, hreq, _⟩ =>
      match hreq (by decide) rfl rfl with
      | ⟨s1, h1, _, _, hsent⟩ => ⟨s1, h1, hsent⟩⟩

/-! ## The message built by `icmp_unreachable` -/

theorem ready_txbuf (now : Nat) (ip : ip_addr) (s : Stack) (tx : buf_t)
    (hcap : tx.cap = s.txbuf.cap) (h : Ready now ip s) :
    Ready now ip { s with txbuf := tx } := by
  rcases h with h | ⟨h1, h2⟩
  · exact Or.inl h
  · exact Or.inr ⟨by show 42 ≤ tx.cap; rw [hcap]; exact h1, h2⟩

theorem ip_out_txbuf_returns (now : Nat) (s : Stack) (tx : buf_t) (ip : ip_addr) (p : Nat)
    (hcap : tx.cap = s.txbuf.cap) (hL : tx.len ≤ 65535) (hroom : 34 ≤ tx.data)
    (hready : Ready now ip s)
    (hwin : tx.len ≤ 1480 ∨
      (tx.data + tx.len ≤ tx.cap ∧ ∃ mac, arp_lookup s.arp_table ip = some mac)) :
    ∃ s1, ip_out now { s with txbuf := tx } .txbuf ip p = some s1 := by
  obtain ⟨s1, _, h1, _⟩ := ip_out_spec now { s with txbuf := tx } .txbuf ip p hL hroom
    (ready_txbuf now ip s tx hcap hready)
    (hwin.imp id (fun h => ⟨h.1, Or.inr h.2⟩))
  exact ⟨s1, h1⟩

/-- C13: for every original datagram `d` of at least 28 bytes in a buffer other than
`txbuf`, every `src_ip` and every code below 256, with 36 bytes of capacity in `txbuf`,
`icmp_unreachable` is one call of `ip_out` on `txbuf`, addressed to `src_ip` with
protocol ICMP, and `txbuf` then holds exactly the 36-byte message: byte 0 is 3, byte 1
the code, bytes 2 and 3 the checksum of the whole message computed with that field
zeroed, bytes 4 .. 7 zero, bytes 8 .. 35 the first 28 bytes of `d`.  Every state the
function returns has exactly that one call added to the log of `ip_out`, and the function
returns when `txbuf` has 70 bytes of capacity and the ARP layer can take the datagram. -/
theorem icmp_unreachable_message (now : Nat) (s : Stack) (recv_buf : BufId)
    (src_ip : ip_addr) (code : Nat) (hbuf : recv_buf ≠ .txbuf) (hcap : 36 ≤ s.txbuf.cap)
    (hlen : 28 ≤ (s.deref recv_buf).len) (hcode : code < 256) :
    ∃ tx, tx.bytes = icmp_unreach_msg code (s.deref recv_buf).bytes ∧
      tx.len = 36 ∧ tx.bytes.length = 36 ∧
      tx.bytes.take 2 = [3, code] ∧ (tx.bytes.drop 4).take 4 = [0, 0, 0, 0] ∧
      tx.bytes.drop 8 = (s.deref recv_buf).bytes.take 28 ∧
      (tx.bytes.drop 2).take 2
        = le16 (checksum16 (tx.bytes.take 2 ++ [0, 0] ++ tx.bytes.drop 4)) ∧
      icmp_unreachable now s recv_buf src_ip code
        = ip_out now { s with txbuf := tx } .txbuf src_ip NET_PROTOCOL_ICMP ∧
      (∀ s1, icmp_unreachable now s recv_buf src_ip code = some s1 →
        s1.ipouts = s.ipouts
          ++ [⟨icmp_unreach_msg code (s.deref recv_buf).bytes, src_ip, NET_PROTOCOL_ICMP⟩]) ∧
      (70 ≤ s.txbuf.cap → Ready now src_ip s →
        ∃ s1, icmp_unreachable now s recv_buf src_ip code = some s1) := by
  have hinit : buf_init s.txbuf (sizeof_icmp_hdr_t + sizeof_ip_hdr_t + 8)
      = some { s.txbuf with data := s.txbuf.cap - 36, len := 36 } := by
    unfold buf_init
    simp only [sizeof_icmp_hdr_t, sizeof_ip_hdr_t]
    rw [if_pos (by omega)]
  have hd : ∀ (tx : buf_t), ({ s with txbuf := tx } : Stack).deref recv_buf
      = s.deref recv_buf := by
    intro tx
    cases recv_buf with
    | txbuf => exact absurd rfl hbuf
    | rxbuf => rfl
    | arp_buf => rfl
    | caller => rfl
  have hD : readBytes (s.deref recv_buf).payload (s.deref recv_buf).data 28
      = (s.deref recv_buf).bytes.take 28 := by
    unfold buf_t.bytes
    rw [readBytes_take, Nat.min_eq_left hlen]
  have hDlen : ((s.deref recv_buf).bytes.take 28).length = 28 := by
    rw [← hD]
    simp
  generalize hDdef : (s.deref recv_buf).bytes.take 28 = D at hD hDlen
  -- the memory of `txbuf` after the three writes
  have hm2 : readBytes
      (writeBytes (writeBytes s.txbuf.payload (s.txbuf.cap - 36 + 8) D) (s.txbuf.cap - 36)
        [3, code, 0, 0, 0, 0, 0, 0]) (s.txbuf.cap - 36) 36
      = [3, code, 0, 0, 0, 0, 0, 0] ++ D := by
    rw [show (36 : Nat) = 8 + 28 from rfl, readBytes_append]
    congr 1
    · exact readBytes_writeBytes_self _ _ [3, code, 0, 0, 0, 0, 0, 0]
    · rw [readBytes_writeBytes_disjoint _ _ _ _ _ (Or.inr (by simp))]
      conv_lhs => rw [← hDlen]
      exact readBytes_writeBytes_self _ _ _
  have hm3 : readBytes
      (writeBytes
        (writeBytes (writeBytes s.txbuf.payload (s.txbuf.cap - 36 + 8) D) (s.txbuf.cap - 36)
          [3, code, 0, 0, 0, 0, 0, 0])
        (s.txbuf.cap - 36 + 2)
        (le16 (checksum16 ([3, code, 0, 0, 0, 0, 0, 0] ++ D)))) (s.txbuf.cap - 36) 36
      = icmp_unreach_msg code (s.deref recv_buf).bytes := by
    rw [readBytes_patch _ _ _ _ _ (by simp [le16]), hm2]
    unfold icmp_unreach_msg
    rw [hDdef]
    simp [le16]
  refine ⟨{ s.txbuf with
      data := s.txbuf.cap - 36
      len := 36
      payload := writeBytes
        (writeBytes (writeBytes s.txbuf.payload (s.txbuf.cap - 36 + 8) D) (s.txbuf.cap - 36)
          [3, code, 0, 0, 0, 0, 0, 0])
        (s.txbuf.cap - 36 + 2)
        (le16 (checksum16 ([3, code, 0, 0, 0, 0, 0, 0] ++ D))) }, hm3, rfl, ?_, ?_, ?_, ?_, ?_, ?_⟩
  · simp [buf_t.bytes]
  · show (readBytes _ (s.txbuf.cap - 36) 36).take 2 = _
    rw [hm3]
    simp [icmp_unreach_msg, le16]
  · show ((readBytes _ (s.txbuf.cap - 36) 36).drop 4).take 4 = _
    rw [hm3]
    simp [icmp_unreach_msg, le16]
  · show (readBytes _ (s.txbuf.cap - 36) 36).drop 8 = _
    rw [hm3]
    simp [icmp_unreach_msg, le16, hDdef]
  · show ((readBytes _ (s.txbuf.cap - 36) 36).drop 2).take 2 = le16 (checksum16
      ((readBytes _ (s.txbuf.cap - 36) 36).take 2 ++ [0, 0]
        ++ (readBytes _ (s.txbuf.cap - 36) 36).drop 4))
    rw [hm3]
    simp [icmp_unreach_msg, le16, hDdef]
  · have hcall : icmp_unreachable now s recv_buf src_ip code
        = ip_out now { s with txbuf := { s.txbuf with
            data := s.txbuf.cap - 36
            len := 36
            payload := writeBytes
              (writeBytes (writeBytes s.txbuf.payload (s.txbuf.cap - 36 + 8) D)
                (s.txbuf.cap - 36) [3, code, 0, 0, 0, 0, 0, 0])
              (s.txbuf.cap - 36 + 2)
              (le16 (checksum16 ([3, code, 0, 0, 0, 0, 0, 0] ++ D))) } }
            .txbuf src_ip NET_PROTOCOL_ICMP := by
      have hhdr : [ICMP_TYPE_UNREACH, code % 256] ++ le16 0 ++ le16 0 ++ le16 0
          = [3, code, 0, 0, 0, 0, 0, 0] := by
        simp [le16, Nat.mod_eq_of_lt hcode]
      unfold icmp_unreachable
      rw [hinit]
      simp only [hd, sizeof_icmp_hdr_t, sizeof_ip_hdr_t, Nat.reduceAdd, hD, hhdr, hm2]
    refine ⟨hcall, ?_, ?_⟩
    · intro s1 h1
      rw [hcall] at h1
      rw [(ip_out_inv _ _ _ _ _ _ h1).1]
      exact congrArg
        (fun l => s.ipouts ++ [(⟨l, src_ip, NET_PROTOCOL_ICMP⟩ : ip_out_call)]) hm3
    · intro h70 hready
      rw [hcall]
      exact ip_out_txbuf_returns now s _ src_ip NET_PROTOCOL_ICMP rfl
        (show (36 : Nat) ≤ 65535 by decide) (show 34 ≤ s.txbuf.cap - 36 by omega) hready
        (Or.inl (show (36 : Nat) ≤ 1480 by decide))

/-- Witness of C13: the 28-byte datagram in `rxbuf`, answered with code
protocol-unreachable to 10.0.2.2. -/
theorem icmp_unreachable_message_witness :
    36 ≤ demo_dgram_stack.txbuf.cap ∧ 28 ≤ (demo_dgram_stack.deref .rxbuf).len ∧
    ICMP_CODE_PROTOCOL_UNREACH < 256 ∧
    ∃ tx, tx.bytes
        = icmp_unreach_msg ICMP_CODE_PROTOCOL_UNREACH (demo_dgram_stack.deref .rxbuf).bytes ∧
      tx.len = 36 ∧
      icmp_unreachable 1000 demo_dgram_stack .rxbuf demo_ip ICMP_CODE_PROTOCOL_UNREACH
        = ip_out 1000 { demo_dgram_stack with txbuf := tx } .txbuf demo_ip NET_PROTOCOL_ICMP :=
  ⟨by decide, by decide, by decide,
    match icmp_unreachable_message 1000 demo_dgram_stack .rxbuf demo_ip
      ICMP_CODE_PROTOCOL_UNREACH (by decide) (by decide) (by decide) (by decide) with
    | ⟨tx, h1, h2, _, _, _, _, _, h8, _⟩ => ⟨tx, h1, h2, h8⟩⟩

/-! ## The echo reply of `icmp_in` -/

theorem writeBytes_same (m : Nat → Nat) (a : Nat) (l : List Nat)
    (h : ∀ i (hi : i < l.length), m (a + i) = l[i]) : writeBytes m a l = m := by
  funext j
  by_cases hj : a ≤ j ∧ j < a + l.length
  · have hi : j - a < l.length := by omega
    have e : j = a + (j - a) := by omega
    rw [e, writeBytes_inside m a l (j - a) hi, h (j - a) hi]
  · exact writeBytes_outside m a l j (by omega)

theorem le16_get16 (m : Nat → Nat) (a : Nat) (h0 : m a < 256) (h1 : m (a + 1) < 256) :
    le16 (get16 m a) = [m a, m (a + 1)] := by
  unfold le16 get16
  rw [Nat.mod_eq_of_lt h0, Nat.mod_eq_of_lt h1]
  generalize m a = x at h0
  generalize m (a + 1) = y at h1
  congr 1
  · omega
  · congr 1
    omega

theorem icmp_echo_reply_ok (d : List Nat) : icmp_checksum_ok (icmp_echo_reply d) := by
  have hlt := checksum16_lt (0 :: 0 :: 0 :: 0 :: d.drop 4)
  unfold icmp_checksum_ok icmp_echo_reply
  simp only [le16, List.cons_append, List.nil_append, List.getD_cons_succ, List.getD_cons_zero,
    List.take_succ_cons, List.take_zero, List.drop_succ_cons, List.drop_zero]
  omega

theorem icmp_reply_mem (txp p : Nat → Nat) (td a n : Nat) (hn : 8 ≤ n)
    (hb : ∀ i, p i < 256) :
    writeBytes (writeBytes (writeBytes txp td (readBytes p a n)) td [0, 0]) (td + 4)
        (le16 (get16 p (a + 4)))
      = writeBytes (writeBytes txp td (readBytes p a n)) td [0, 0] ∧
    writeBytes (writeBytes (writeBytes txp td (readBytes p a n)) td [0, 0]) (td + 6)
        (le16 (get16 p (a + 6)))
      = writeBytes (writeBytes txp td (readBytes p a n)) td [0, 0] ∧
    readBytes (writeBytes (writeBytes (writeBytes txp td (readBytes p a n)) td [0, 0]) (td + 2)
        (le16 0)) td n = [0, 0, 0, 0] ++ (readBytes p a n).drop 4 ∧
    ∀ ck, readBytes
        (writeBytes
          (writeBytes (writeBytes (writeBytes txp td (readBytes p a n)) td [0, 0]) (td + 2)
            (le16 0))
          (td + 2) (le16 ck)) td n
      = [0, 0] ++ le16 ck ++ (readBytes p a n).drop 4 := by
  have hkeep : ∀ i, 2 ≤ i → i < n →
      writeBytes (writeBytes txp td (readBytes p a n)) td [0, 0] (td + i) = p (a + i) := by
    intro i h2 hi
    rw [writeBytes_outside _ _ _ _ (Or.inr (by simp; omega)),
      writeBytes_inside _ _ _ i (by simpa using hi), getElem_readBytes]
  have hm1 : readBytes (writeBytes txp td (readBytes p a n)) td n = readBytes p a n := by
    have := readBytes_writeBytes_self txp td (readBytes p a n)
    rwa [readBytes_length] at this
  have hm2 : readBytes (writeBytes (writeBytes txp td (readBytes p a n)) td [0, 0]) td n
      = [0, 0] ++ (readBytes p a n).drop 2 := by
    have := readBytes_patch (writeBytes txp td (readBytes p a n)) td 0 n [0, 0]
      (by simp; omega)
    simpa [hm1] using this
  have hm5 : readBytes (writeBytes (writeBytes (writeBytes txp td (readBytes p a n)) td [0, 0])
      (td + 2) (le16 0)) td n = [0, 0, 0, 0] ++ (readBytes p a n).drop 4 := by
    rw [readBytes_patch _ _ _ _ _ (by simp [le16]; omega), hm2]
    simp [le16]
  refine ⟨?_, ?_, hm5, ?_⟩
  · rw [le16_get16 p (a + 4) (hb _) (hb _)]
    apply writeBytes_same
    intro i hi
    have hi2 : i = 0 ∨ i = 1 := by
      simp only [List.length_cons, List.length_nil] at hi
      omega
    rcases hi2 with rfl | rfl
    · exact hkeep 4 (by omega) (by omega)
    · exact hkeep 5 (by omega) (by omega)
  · rw [le16_get16 p (a + 6) (hb _) (hb _)]
    apply writeBytes_same
    intro i hi
    have hi2 : i = 0 ∨ i = 1 := by
      simp only [List.length_cons, List.length_nil] at hi
      omega
    rcases hi2 with rfl | rfl
    · exact hkeep 6 (by omega) (by omega)
    · exact hkeep 7 (by omega) (by omega)
  · intro ck
    rw [readBytes_patch _ _ _ _ _ (by simp [le16]; omega), hm5]
    simp [le16]

theorem icmp_zeroed_bytes (b : buf_t) (hlen : 4 ≤ b.len) :
    readBytes (writeBytes b.payload (b.data + 2) (le16 0)) b.data b.len
      = b.bytes.take 2 ++ [0, 0] ++ b.bytes.drop 4 := by
  rw [readBytes_patch _ _ _ _ _ (by simp [le16]; omega)]
  rfl

/-- The two exits of `icmp_in` without a reply, and the echo branch, in terms of the bytes
of the message. -/
theorem icmp_in_eq (now : Nat) (s : Stack) (buf : BufId) (src_ip : ip_addr)
    (hbuf : buf ≠ .txbuf) (hlen : 8 ≤ (s.deref buf).len)
    (hcap : (s.deref buf).len ≤ s.txbuf.cap)
    (hbytes : ∀ i, (s.deref buf).payload i < 256) :
    icmp_in now s buf src_ip =
      if icmp_checksum_ok (s.deref buf).bytes ∧ (s.deref buf).bytes.getD 0 0 = 8 then
        ip_out now
          { s with txbuf := { s.txbuf with
              data := s.txbuf.cap - (s.deref buf).len
              len := (s.deref buf).len
              payload := writeBytes
                (writeBytes
                  (writeBytes
                    (writeBytes s.txbuf.payload (s.txbuf.cap - (s.deref buf).len)
                      (readBytes (s.deref buf).payload (s.deref buf).data (s.deref buf).len))
                    (s.txbuf.cap - (s.deref buf).len) [0, 0])
                  (s.txbuf.cap - (s.deref buf).len + 2) (le16 0))
                (s.txbuf.cap - (s.deref buf).len + 2)
                (le16 (checksum16 ([0, 0, 0, 0] ++ (s.deref buf).bytes.drop 4))) } }
          .txbuf src_ip NET_PROTOCOL_ICMP
      else some s := by
  have hrest := checksum_restore (s.deref buf).payload ((s.deref buf).data + 2) (hbytes _)
    (hbytes _)
  have hself : s.assign buf { (s.deref buf) with payload := (s.deref buf).payload } = s :=
    assign_deref_self s buf
  have e0 : (s.deref buf).bytes.getD 0 0 = (s.deref buf).payload (s.deref buf).data := by
    rw [bytes_getD _ _ (by omega)]; rfl
  have e2 : (s.deref buf).bytes.getD 2 0 = (s.deref buf).payload ((s.deref buf).data + 2) :=
    bytes_getD _ _ (by omega)
  have e3 : (s.deref buf).bytes.getD 3 0
      = (s.deref buf).payload ((s.deref buf).data + 2 + 1) := bytes_getD _ _ (by omega)
  have hck : get16 (s.deref buf).payload ((s.deref buf).data + 2)
      = (s.deref buf).bytes.getD 2 0 + 256 * (s.deref buf).bytes.getD 3 0 := by
    unfold get16
    rw [e2, e3, Nat.mod_eq_of_lt (hbytes _), Nat.mod_eq_of_lt (hbytes _)]
  have hinit : buf_init s.txbuf (s.deref buf).len
      = some { s.txbuf with data := s.txbuf.cap - (s.deref buf).len, len := (s.deref buf).len } := by
    unfold buf_init
    rw [if_pos hcap]
  have hd : ∀ (tx : buf_t), ({ s with txbuf := tx } : Stack).deref buf = s.deref buf := by
    intro tx
    cases buf with
    | txbuf => exact absurd rfl hbuf
    | rxbuf => rfl
    | arp_buf => rfl
    | caller => rfl
  obtain ⟨h3, h4, h5, _⟩ := icmp_reply_mem s.txbuf.payload (s.deref buf).payload
    (s.txbuf.cap - (s.deref buf).len) (s.deref buf).data (s.deref buf).len hlen hbytes
  unfold icmp_in
  simp only [hrest, hself]
  simp only [icmp_zeroed_bytes _ (show 4 ≤ (s.deref buf).len by omega), hck,
    ICMP_TYPE_ECHO_REQUEST, ICMP_TYPE_ECHO_REPLY, ← e0]
  unfold icmp_checksum_ok
  by_cases hc : (s.deref buf).bytes.getD 2 0 + 256 * (s.deref buf).bytes.getD 3 0
      = checksum16 ((s.deref buf).bytes.take 2 ++ [0, 0] ++ (s.deref buf).bytes.drop 4)
  · rw [if_neg (by rw [hc]; exact fun h => h rfl)]
    by_cases ht : (s.deref buf).bytes.getD 0 0 = 8
    · rw [if_pos ht, if_pos ⟨hc, ht⟩, hinit]
      simp only [hd, h3, h4, h5]
      rfl
    · rw [if_neg ht, if_neg (fun h => ht h.2)]
  · rw [if_pos (fun h => hc h.symm), if_neg (fun h => hc h.1)]

/-- C12: for an ICMP message of `n ≥ 8` bytes (in a memory of bytes) in a buffer other
than `txbuf`, with `n` bytes of capacity in `txbuf`: when the checksum verifies and the
type is 8, `icmp_in` is one call of `ip_out` on `txbuf`, addressed to `src_ip` with
protocol ICMP, and `txbuf` then holds the reply: `n` bytes, type 0, code 0, the bytes of
the request from the identifier on (identifier, sequence, payload), and in the checksum
field `checksum16` of the reply computed with that field zeroed, so that the reply passes
the checksum check of `icmp_in`; every state `icmp_in` returns has exactly that one call
added to the log of `ip_out`, and it returns when `txbuf` has 34 more bytes of capacity,
the ARP layer can take the datagram, and the message is at most 1480 bytes or the
destination is resolved (a larger reply to an unresolved destination would be fragmented
out of `txbuf` after `arp_req` has re-initialised it).  When the checksum does not verify,
or the type is not 8, `icmp_in` returns the state as it was: nothing is sent. -/
theorem icmp_in_echo (now : Nat) (s : Stack) (buf : BufId) (src_ip : ip_addr)
    (hbuf : buf ≠ .txbuf) (hlen : 8 ≤ (s.deref buf).len)
    (hcap : (s.deref buf).len ≤ s.txbuf.cap)
    (hbytes : ∀ i, (s.deref buf).payload i < 256) :
    (icmp_checksum_ok (s.deref buf).bytes → (s.deref buf).bytes.getD 0 0 = 8 →
      ∃ tx, tx.bytes = icmp_echo_reply (s.deref buf).bytes ∧
        tx.len = (s.deref buf).len ∧
        (icmp_echo_reply (s.deref buf).bytes).length = (s.deref buf).bytes.length ∧
        (icmp_echo_reply (s.deref buf).bytes).take 2 = [0, 0] ∧
        (icmp_echo_reply (s.deref buf).bytes).drop 4 = (s.deref buf).bytes.drop 4 ∧
        icmp_checksum_ok (icmp_echo_reply (s.deref buf).bytes) ∧
        icmp_in now s buf src_ip
          = ip_out now { s with txbuf := tx } .txbuf src_ip NET_PROTOCOL_ICMP ∧
        (∀ s1, icmp_in now s buf src_ip = some s1 →
          s1.ipouts = s.ipouts
            ++ [⟨icmp_echo_reply (s.deref buf).bytes, src_ip, NET_PROTOCOL_ICMP⟩]) ∧
        ((s.deref buf).len ≤ 65535 → (s.deref buf).len + 34 ≤ s.txbuf.cap →
          Ready now src_ip s →
          ((s.deref buf).len ≤ 1480 ∨ ∃ mac, arp_lookup s.arp_table src_ip = some mac) →
          ∃ s1, icmp_in now s buf src_ip = some s1)) ∧
    ((¬ icmp_checksum_ok (s.deref buf).bytes ∨ (s.deref buf).bytes.getD 0 0 ≠ 8) →
      icmp_in now s buf src_ip = some s) := by
  have heq := icmp_in_eq now s buf src_ip hbuf hlen hcap hbytes
  obtain ⟨_, _, _, h6⟩ := icmp_reply_mem s.txbuf.payload (s.deref buf).payload
    (s.txbuf.cap - (s.deref buf).len) (s.deref buf).data (s.deref buf).len hlen hbytes
  have hblen : (s.deref buf).bytes.length = (s.deref buf).len := by simp [buf_t.bytes]
  constructor
  · intro hc ht
    rw [if_pos ⟨hc, ht⟩] at heq
    have htx : readBytes
        (writeBytes
          (writeBytes
            (writeBytes
              (writeBytes s.txbuf.payload (s.txbuf.cap - (s.deref buf).len)
                (readBytes (s.deref buf).payload (s.deref buf).data (s.deref buf).len))
              (s.txbuf.cap - (s.deref buf).len) [0, 0])
            (s.txbuf.cap - (s.deref buf).len + 2) (le16 0))
          (s.txbuf.cap - (s.deref buf).len + 2)
          (le16 (checksum16 ([0, 0, 0, 0] ++ (s.deref buf).bytes.drop 4))))
        (s.txbuf.cap - (s.deref buf).len) (s.deref buf).len
        = icmp_echo_reply (s.deref buf).bytes :=
      h6 (checksum16 ([0, 0, 0, 0] ++ (s.deref buf).bytes.drop 4))
    refine ⟨{ s.txbuf with
        data := s.txbuf.cap - (s.deref buf).len
        len := (s.deref buf).len
        payload := writeBytes
          (writeBytes
            (writeBytes
              (writeBytes s.txbuf.payload (s.txbuf.cap - (s.deref buf).len)
                (readBytes (s.deref buf).payload (s.deref buf).data (s.deref buf).len))
              (s.txbuf.cap - (s.deref buf).len) [0, 0])
            (s.txbuf.cap - (s.deref buf).len + 2) (le16 0))
          (s.txbuf.cap - (s.deref buf).len + 2)
          (le16 (checksum16 ([0, 0, 0, 0] ++ (s.deref buf).bytes.drop 4))) },
      htx, rfl, ?_, ?_, ?_, icmp_echo_reply_ok _, heq, ?_, ?_⟩
    · simp only [icmp_echo_reply, le16, List.length_append, List.length_cons, List.length_nil,
        List.length_drop, hblen]
      omega
    · simp [icmp_echo_reply, le16]
    · simp [icmp_echo_reply, le16]
    · intro s1 h1
      rw [heq] at h1
      rw [(ip_out_inv _ _ _ _ _ _ h1).1]
      exact congrArg
        (fun l => s.ipouts ++ [(⟨l, src_ip, NET_PROTOCOL_ICMP⟩ : ip_out_call)]) htx
    · intro hL hroom hready hwin
      rw [heq]
      exact ip_out_txbuf_returns now s _ src_ip NET_PROTOCOL_ICMP rfl hL
        (show 34 ≤ s.txbuf.cap - (s.deref buf).len by omega) hready
        (hwin.imp id (fun h =>
          ⟨show s.txbuf.cap - (s.deref buf).len + (s.deref buf).len ≤ s.txbuf.cap by omega, h⟩))
  · intro h
    rw [heq, if_neg]
    rintro ⟨hc, ht⟩
    rcases h with h | h
    · exact h hc
    · exact h ht

theorem demo_echo_bytes_lt : ∀ i, (demo_echo_stack.deref .rxbuf).payload i < 256 := by
  apply writeBytes_lt
  · intro i
    show i % 256 < 256
    omega
  · decide

/-- Witness of C12: the 12-byte Echo Request in `rxbuf`, from 10.0.2.2. -/
theorem icmp_in_echo_witness :
    8 ≤ (demo_echo_stack.deref .rxbuf).len ∧
    (demo_echo_stack.deref .rxbuf).len ≤ demo_echo_stack.txbuf.cap ∧
    icmp_checksum_ok (demo_echo_stack.deref .rxbuf).bytes ∧
    (demo_echo_stack.deref .rxbuf).bytes.getD 0 0 = 8 ∧
    ∃ tx, tx.bytes = icmp_echo_reply (demo_echo_stack.deref .rxbuf).bytes ∧
      tx.len = (demo_echo_stack.deref .rxbuf).len ∧
      icmp_in 1000 demo_echo_stack .rxbuf demo_ip
        = ip_out 1000 { demo_echo_stack with txbuf := tx } .txbuf demo_ip NET_PROTOCOL_ICMP :=
  ⟨by decide, by decide, by decide, by decide,
    match (icmp_in_echo 1000 demo_echo_stack .rxbuf demo_ip (by decide) (by decide) (by decide)
      demo_echo_bytes_lt).1 (by decide) (by decide) with
    | ⟨tx, h1, h2, _, _, _, _, h7, _⟩ => ⟨tx, h1, h2, h7⟩⟩

/-! ## Fragments out of `txbuf` to an unresolved destination -/

theorem arp_req_txbuf (now : Nat) (s s1 : Stack) (ip : ip_addr)
    (h : arp_req now s ip = some s1) :
    s1.txbuf.cap = s.txbuf.cap ∧ s1.txbuf.data + 42 = s.txbuf.cap := by
  unfold arp_req buf_init at h
  by_cases hcap : sizeof_arp_pkt_t ≤ s.txbuf.cap
  · rw [if_pos hcap] at h
    simp only [] at h
    cases hup : arp_update now ip net_board_mac .ARP_PENDING s.arp_table with
    | none => rw [hup] at h; cases h
    | some t =>
      rw [hup] at h
      simp only [] at h
      obtain ⟨hc, hd⟩ := ethernet_out_window _ _ _ _ _ h
      simp only [sizeof_arp_pkt_t] at hcap
      have hc1 : s1.txbuf.cap = s.txbuf.cap := hc
      have hd1 : s1.txbuf.data + 14 = s.txbuf.cap - sizeof_arp_pkt_t := hd
      simp only [sizeof_arp_pkt_t] at hd1
      exact ⟨hc1, by omega⟩
  · rw [if_neg hcap] at h
    cases h

theorem ip_fragment_out_txbuf_miss (now : Nat) (s s1 : Stack) (ip : ip_addr)
    (p id offset mf : Nat) (h : ip_fragment_out now s .txbuf ip p id offset mf = some s1)
    (hmiss : arp_lookup s.arp_table ip = none) :
    s1.txbuf.data + 42 = s1.txbuf.cap := by
  unfold ip_fragment_out buf_add_header at h
  by_cases hroom : sizeof_ip_hdr_t ≤ (s.deref .txbuf).data
  · rw [if_pos hroom] at h
    simp only [] at h
    unfold arp_out at h
    simp only [log_frag_arp_table, assign_arp_table, hmiss] at h
    split at h
    · cases h
    · rename_i s2 hreq
      simp only [Option.some.injEq] at h
      subst h
      obtain ⟨hc, hd⟩ := arp_req_txbuf _ _ _ _ hreq
      show s2.txbuf.data + 42 = s2.txbuf.cap
      rw [hc]
      exact hd
  · rw [if_neg hroom] at h
    cases h

theorem ip_out_loop_txbuf_miss (now : Nat) (ip : ip_addr) (p id : Nat) (len off : Nat)
    (s : Stack) (r : Stack × Nat × Nat) (hlen : 1480 < len)
    (hmiss : arp_lookup s.arp_table ip = none)
    (hr : ip_out_loop now .txbuf ip p id len off s = some r) :
    r.1.txbuf.data + 42 = r.1.txbuf.cap ∧ r.2.2 ≠ 0 ∧ 0 < r.2.1 := by
  have hcond : ETHERNET_MTU - sizeof_ip_hdr_t < len := by simpa using hlen
  rw [ip_out_loop, if_pos hcond] at hr
  dsimp only at hr
  by_cases hg : (s.deref .txbuf).cap
      < (s.deref .txbuf).data + (if off ≠ 0 then ETHERNET_MTU else 0)
        + (ETHERNET_MTU - sizeof_ip_hdr_t)
  · rw [if_pos hg] at hr
    cases hr
  rw [if_neg hg] at hr
  cases hf : ip_fragment_out now
      (s.assign .txbuf { (s.deref .txbuf) with
        len := ETHERNET_MTU - sizeof_ip_hdr_t
        data := (s.deref .txbuf).data + (if off ≠ 0 then ETHERNET_MTU else 0) })
      .txbuf ip p id
      ((if off ≠ 0 then off * (ETHERNET_MTU - sizeof_ip_hdr_t) / 8 else 0) % 65536) 1 with
  | none => rw [hf] at hr; cases hr
  | some s2 =>
    rw [hf] at hr
    dsimp only at hr
    have hw := ip_fragment_out_txbuf_miss _ _ _ _ _ _ _ _ hf (by simpa using hmiss)
    rw [ip_out_loop] at hr
    by_cases hc2 : ETHERNET_MTU - sizeof_ip_hdr_t < len - (ETHERNET_MTU - sizeof_ip_hdr_t)
    · rw [if_pos hc2] at hr
      dsimp only at hr
      rw [if_pos (by
        show s2.txbuf.cap < s2.txbuf.data + (if off + 1 ≠ 0 then ETHERNET_MTU else 0)
          + (ETHERNET_MTU - sizeof_ip_hdr_t)
        rw [if_pos (Nat.succ_ne_zero off)]
        simp only [ETHERNET_MTU, sizeof_ip_hdr_t]
        omega)] at hr
      cases hr
    · rw [if_neg hc2] at hr
      simp only [Option.some.injEq] at hr
      subst hr
      refine ⟨hw, Nat.succ_ne_zero off, ?_⟩
      show 0 < len - (ETHERNET_MTU - sizeof_ip_hdr_t)
      simp only [ETHERNET_MTU, sizeof_ip_hdr_t]
      omega

/-- A payload above 1480 bytes in `txbuf`, to a destination that is not resolved: the
first fragment makes `arp_req` re-initialise `txbuf`, whose window is then 42 bytes from
the end of the region, and the window of the second fragment, 1500 bytes further, is
outside the region: the call is undefined. -/
theorem ip_out_txbuf_miss_undefined (now : Nat) (s : Stack) (ip : ip_addr) (p : Nat)
    (hlen : 1480 < s.txbuf.len) (hmiss : arp_lookup s.arp_table ip = none) :
    ip_out now s .txbuf ip p = none := by
  have hcond : ETHERNET_MTU - sizeof_ip_hdr_t < (s.deref .txbuf).len := by
    show ETHERNET_MTU - sizeof_ip_hdr_t < s.txbuf.len
    simpa using hlen
  unfold ip_out
  simp only [log_ip_out_deref]
  rw [if_pos hcond]
  cases hr : ip_out_loop now .txbuf ip p s.id (s.deref .txbuf).len 0
      (s.log_ip_out ⟨(s.deref .txbuf).bytes, ip, p⟩) with
  | none => rfl
  | some r =>
    obtain ⟨s2, len1, off1⟩ := r
    obtain ⟨hw, hoff, hl1⟩ := ip_out_loop_txbuf_miss _ _ _ _ _ _ _ _ hlen
      (by simpa using hmiss) hr
    dsimp only at hw hoff hl1 ⊢
    rw [if_pos (by
      show s2.txbuf.cap < s2.txbuf.data + (if off1 ≠ 0 then ETHERNET_MTU else 0) + len1
      rw [if_pos hoff]
      simp only [ETHERNET_MTU]
      omega)]

end NetLab
